import Mathlib

/-!
# form3: the accounts client and its JSON envelope

A shallow embedding of `client.go` and `accounts.go`.

The client leans on Go's standard library (`encoding/json`, `strings`,
`net/http`).  The part of `encoding/json` that the client exercises is embedded
here as executable definitions over JSON text:

* text is a `List Char`, a sequence of Unicode scalar values: a JSON text or
  a Go string is taken by its runes, a string that is not valid UTF-8 by its
  bytes (`GoVal.bytes`);
* `Json` is the syntax tree of a document, `Json.render` is the compact text the
  encoder writes and `parseJSON` is the scanner together with `unquote`;
* `GoVal` and `GoType` are a small universe of Go values and static types
  (bool, int, string, pointers, slices, structs with `json` tags,
  `interface{}`, and the `float64` and `map[string]interface{}` values an
  untyped decode builds); `Marshal` and `Unmarshal` are `json.Marshal` and
  `json.Unmarshal` on it;
* a `float64` is kept exactly (`F64`), with the rounding of
  `strconv.ParseFloat` and the shortest digits of `strconv.FormatFloat`.

`int` is 64 bits wide.  `net/url` parsing and the clock are inputs of the model
(`Runtime`).  `time.Time` is not embedded.
-/

set_option linter.dupNamespace false

namespace Form3

/-- Text, as a sequence of runes: a Go `string` that is valid UTF-8, or the
bytes of a response body read as UTF-8 the way `encoding/json` reads them (a
byte that belongs to no valid encoding counts as U+FFFD inside a string
literal, where `unquote` replaces it by that rune, and is no JSON outside
one). -/
abbrev Text : Type := List Char

/-! ## JSON documents -/

/-- The syntax tree of a JSON document.  A number keeps its literal text, the
way the decoder hands it to `strconv`; an object keeps its members in document
order, duplicates included. -/
inductive Json where
  | null
  | bool (b : Bool)
  | num (lit : List Char)
  | str (s : List Char)
  /-- The string the encoder writes for a Go string that is not valid UTF-8,
  "coerced to valid UTF-8": the runes of the string, `none` for each byte that
  belongs to no valid encoding.  Only the encoder builds it: the scanner reads
  its text as a `str`, and the decoder, which is never handed one, leaves the
  variable alone. -/
  | coerced (rs : List (Option Char))
  | arr (xs : List Json)
  | obj (kvs : List (List Char × Json))
  deriving Repr, Inhabited

/-- The sixteen digits `encoding/json` writes `\u00XX` escapes with. -/
def hexDigit (n : Nat) : Char :=
  match n with
  | 0 => '0' | 1 => '1' | 2 => '2' | 3 => '3' | 4 => '4' | 5 => '5' | 6 => '6' | 7 => '7'
  | 8 => '8' | 9 => '9' | 10 => 'a' | 11 => 'b' | 12 => 'c' | 13 => 'd' | 14 => 'e'
  | _ => 'f'

/-- One character of a string, as `encodeState.string` writes it with
`escapeHTML` on (the setting of `json.Marshal`). -/
def escapeChar (c : Char) : List Char :=
  if c = '"' then ['\\', '"']
  else if c = '\\' then ['\\', '\\']
  else if c = '\n' then ['\\', 'n']
  else if c = '\r' then ['\\', 'r']
  else if c = '\t' then ['\\', 't']
  else if c.toNat < 0x20 ∨ c = '<' ∨ c = '>' ∨ c = '&' then
    ['\\', 'u', '0', '0', hexDigit (c.toNat / 16), hexDigit (c.toNat % 16)]
  else if c.toNat = 0x2028 ∨ c.toNat = 0x2029 then
    ['\\', 'u', '2', '0', '2', hexDigit (c.toNat % 16)]
  else [c]

/-- The body of a string literal, between the quotes. -/
def escapeString : List Char → List Char
  | [] => []
  | c :: cs => escapeChar c ++ escapeString cs

/-- A quoted string literal. -/
def quote (s : List Char) : List Char := '"' :: (escapeString s ++ ['"'])

/-- The body of the string literal of a string that is not valid UTF-8: a
byte that belongs to no valid encoding is written `\ufffd`. -/
def escapeRunes : List (Option Char) → List Char
  | [] => []
  | some c :: rs => escapeChar c ++ escapeRunes rs
  | none :: rs => ['\\', 'u', 'f', 'f', 'f', 'd'] ++ escapeRunes rs

/-- The compact text of a document, as `json.Marshal` lays it out. -/
def Json.render : Json → List Char
  | .null => "null".toList
  | .bool true => "true".toList
  | .bool false => "false".toList
  | .num lit => lit
  | .str s => quote s
  | .coerced rs => '"' :: (escapeRunes rs ++ ['"'])
  | .arr xs => '[' :: (renderElems xs ++ [']'])
  | .obj kvs => '{' :: (renderMembers kvs ++ ['}'])
where
  /-- Array elements, comma separated. -/
  renderElems : List Json → List Char
    | [] => []
    | [x] => x.render
    | x :: y :: xs => x.render ++ ',' :: renderElems (y :: xs)
  /-- Object members, comma separated. -/
  renderMembers : List (List Char × Json) → List Char
    | [] => []
    | [(k, v)] => quote k ++ ':' :: v.render
    | (k, v) :: kv :: kvs => quote k ++ ':' :: v.render ++ ',' :: renderMembers (kv :: kvs)

/-! ### Scanning -/

/-- JSON white space. -/
def isSpace (c : Char) : Bool := c = ' ' || c = '\t' || c = '\r' || c = '\n'

/-- Drop leading white space. -/
def skipWS : List Char → List Char
  | [] => []
  | c :: cs => if isSpace c then skipWS cs else c :: cs

/-- A decimal digit. -/
def isDigit (c : Char) : Bool := decide ('0' ≤ c) && decide (c ≤ '9')

/-- The longest run of digits at the front, and what follows it. -/
def spanDigits : List Char → List Char × List Char
  | [] => ([], [])
  | c :: cs =>
    if isDigit c then ((spanDigits cs).1.cons c, (spanDigits cs).2) else ([], c :: cs)

/-- The value of a hexadecimal digit, either case. -/
def hexVal (c : Char) : Option Nat :=
  if '0' ≤ c ∧ c ≤ '9' then some (c.toNat - 48)
  else if 'a' ≤ c ∧ c ≤ 'f' then some (c.toNat - 87)
  else if 'A' ≤ c ∧ c ≤ 'F' then some (c.toNat - 55)
  else none

/-- Function `getu4`, past the `\u`: four hexadecimal digits as a number. -/
def getu4 : List Char → Option (Nat × List Char)
  | a :: b :: c :: d :: rest =>
    match hexVal a, hexVal b, hexVal c, hexVal d with
    | some x, some y, some z, some w => some (((x * 16 + y) * 16 + z) * 16 + w, rest)
    | _, _, _, _ => none
  | _ => none

/-- The Unicode replacement character, which stands in for an unpaired
surrogate escape. -/
def replacementChar : Char := Char.ofNat 0xFFFD

/-- The character a `\uXXXX` escape with value `r` stands for, given the text
after it: a high surrogate followed by an escaped low surrogate combines with
it, any other surrogate becomes U+FFFD. -/
def decodeEscape (r : Nat) (rest : List Char) : Char × List Char :=
  if 0xD800 ≤ r ∧ r < 0xE000 then
    match rest with
    | '\\' :: 'u' :: rest1 =>
      match getu4 rest1 with
      | some (r2, rest2) =>
        if r < 0xDC00 ∧ 0xDC00 ≤ r2 ∧ r2 < 0xE000 then
          (Char.ofNat ((r - 0xD800) * 1024 + (r2 - 0xDC00) + 0x10000), rest2)
        else (replacementChar, rest)
      | none => (replacementChar, rest)
    | _ => (replacementChar, rest)
  else (Char.ofNat r, rest)

/-- The rest of a string literal, after the opening quote: the decoded string
and the text after the closing quote.  The first argument bounds the number of
steps; the length of the text is enough. -/
def scanString : Nat → List Char → Option (List Char × List Char)
  | 0, _ => none
  | _ + 1, [] => none
  | _ + 1, '"' :: rest => some ([], rest)
  | n + 1, '\\' :: c :: rest =>
    if c = 'u' then
      match getu4 rest with
      | some (r, rest1) =>
        match scanString n (decodeEscape r rest1).2 with
        | some (s, rest2) => some ((decodeEscape r rest1).1 :: s, rest2)
        | none => none
      | none => none
    else
      let plain : Option Char :=
        if c = '"' then some '"' else if c = '\\' then some '\\'
        else if c = '/' then some '/' else if c = 'b' then some (Char.ofNat 8)
        else if c = 'f' then some (Char.ofNat 12) else if c = 'n' then some '\n'
        else if c = 'r' then some '\r' else if c = 't' then some '\t' else none
      match plain with
      | some d =>
        match scanString n rest with
        | some (s, rest2) => some (d :: s, rest2)
        | none => none
      | none => none
  | _ + 1, ['\\'] => none
  | n + 1, c :: rest =>
    if c.toNat < 0x20 then none
    else
      match scanString n rest with
      | some (s, rest2) => some (c :: s, rest2)
      | none => none

/-- An optional exponent part of a number literal. -/
def scanExponent (cs : List Char) : Option (List Char × List Char) :=
  match cs with
  | e :: rest =>
    if e = 'e' ∨ e = 'E' then
      match rest with
      | s :: rest1 =>
        if s = '+' ∨ s = '-' then
          if (spanDigits rest1).1 = [] then none
          else some (e :: s :: (spanDigits rest1).1, (spanDigits rest1).2)
        else if (spanDigits rest).1 = [] then none
        else some (e :: (spanDigits rest).1, (spanDigits rest).2)
      | [] => none
    else some ([], cs)
  | [] => some ([], cs)

/-- An optional fraction part of a number literal. -/
def scanFraction (cs : List Char) : Option (List Char × List Char) :=
  match cs with
  | '.' :: rest =>
    if (spanDigits rest).1 = [] then none
    else some ('.' :: (spanDigits rest).1, (spanDigits rest).2)
  | _ => some ([], cs)

/-- The integer part of a number literal, without sign: a lone `0`, or a
digit from 1 to 9 followed by digits. -/
def scanIntPart (cs : List Char) : Option (List Char × List Char) :=
  match cs with
  | c :: rest =>
    if c = '0' then some (['0'], rest)
    else if isDigit c then some (c :: (spanDigits rest).1, (spanDigits rest).2)
    else none
  | [] => none

/-- A number literal at the front of the text, longest match. -/
def scanNumber (cs : List Char) : Option (List Char × List Char) :=
  let signed : List Char × List Char :=
    match cs with
    | '-' :: rest => (['-'], rest)
    | _ => ([], cs)
  match scanIntPart signed.2 with
  | some (ip, r1) =>
    match scanFraction r1 with
    | some (fp, r2) =>
      match scanExponent r2 with
      | some (ep, r3) => some (signed.1 ++ ip ++ fp ++ ep, r3)
      | none => none
    | none => none
  | none => none

/-- Constant `maxNestingDepth` of the scanner: the number of arrays and
objects that may be open at once. -/
def maxNestingDepth : Nat := 10000

mutual
/-- One value at the front of the text (leading white space allowed), and the
text after it.  The first argument bounds the depth of the recursion; one more
than the length of the text is enough.  The second is the number of arrays and
objects that may still be opened inside one another: the scanner fails with
`exceeded max depth` on the one that would be number `maxNestingDepth + 1`. -/
def parseValue : Nat → Nat → Text → Option (Json × Text)
  | 0, _, _ => none
  | fuel + 1, room, cs =>
    match skipWS cs with
    | [] => none
    | c :: rest =>
      if c = '{' then
        match room with
        | 0 => none
        | room1 + 1 =>
          match skipWS rest with
          | '}' :: rest1 => some (.obj [], rest1)
          | rest1 =>
            match parseMembers fuel room1 rest1 with
            | some (kvs, rest2) => some (.obj kvs, rest2)
            | none => none
      else if c = '[' then
        match room with
        | 0 => none
        | room1 + 1 =>
          match skipWS rest with
          | ']' :: rest1 => some (.arr [], rest1)
          | rest1 =>
            match parseElems fuel room1 rest1 with
            | some (xs, rest2) => some (.arr xs, rest2)
            | none => none
      else if c = '"' then
        match scanString (rest.length + 1) rest with
        | some (s, rest1) => some (.str s, rest1)
        | none => none
      else if c = 't' then
        match rest with
        | 'r' :: 'u' :: 'e' :: rest1 => some (.bool true, rest1)
        | _ => none
      else if c = 'f' then
        match rest with
        | 'a' :: 'l' :: 's' :: 'e' :: rest1 => some (.bool false, rest1)
        | _ => none
      else if c = 'n' then
        match rest with
        | 'u' :: 'l' :: 'l' :: rest1 => some (.null, rest1)
        | _ => none
      else
        match scanNumber (c :: rest) with
        | some (lit, rest1) => some (.num lit, rest1)
        | none => none
/-- The elements of a non-empty array, up to and including the closing
bracket. -/
def parseElems : Nat → Nat → Text → Option (List Json × Text)
  | 0, _, _ => none
  | fuel + 1, room, cs =>
    match parseValue fuel room cs with
    | some (x, rest) =>
      match skipWS rest with
      | ',' :: rest1 =>
        match parseElems fuel room rest1 with
        | some (xs, rest2) => some (x :: xs, rest2)
        | none => none
      | ']' :: rest1 => some ([x], rest1)
      | _ => none
    | none => none
/-- The members of a non-empty object, up to and including the closing
brace. -/
def parseMembers : Nat → Nat → Text → Option (List (Text × Json) × Text)
  | 0, _, _ => none
  | fuel + 1, room, cs =>
    match skipWS cs with
    | '"' :: rest =>
      match scanString (rest.length + 1) rest with
      | some (k, rest1) =>
        match skipWS rest1 with
        | ':' :: rest2 =>
          match parseValue fuel room rest2 with
          | some (v, rest3) =>
            match skipWS rest3 with
            | ',' :: rest4 =>
              match parseMembers fuel room rest4 with
              | some (kvs, rest5) => some ((k, v) :: kvs, rest5)
              | none => none
            | '}' :: rest4 => some ([(k, v)], rest4)
            | _ => none
          | none => none
        | _ => none
      | none => none
    | _ => none
end

/-- A whole document: one value, white space around it, nothing else.  This is
`checkValid` and the scan of `json.Unmarshal` in one; `none` is a
`*json.SyntaxError`. -/
def parseJSON (text : List Char) : Option Json :=
  match parseValue (text.length + 1) maxNestingDepth text with
  | some (j, rest) => if skipWS rest = [] then some j else none
  | none => none

/-! ## Numbers: `strconv` -/

/-- A decimal digit as a character. -/
def digitChar (n : Nat) : Char := Char.ofNat (48 + n % 10)

/-- Decimal digits of a natural number, most significant first, in front of
`acc`.  The first argument bounds the number of digits. -/
def natDigitsAux : Nat → Nat → List Char → List Char
  | 0, _, acc => acc
  | fuel + 1, n, acc =>
    if n < 10 then digitChar n :: acc
    else natDigitsAux fuel (n / 10) (digitChar n :: acc)

/-- The decimal text of a natural number. -/
def natDigits (n : Nat) : List Char := natDigitsAux (n + 1) n []

/-- The decimal text of an integer: `strconv.AppendInt(b, n, 10)`, also what
`%d` prints. -/
def intDigits (n : Int) : List Char :=
  if n < 0 then '-' :: natDigits n.natAbs else natDigits n.natAbs

/-- The number a run of decimal digits denotes, continuing from `acc`; `none`
when a character is not a digit. -/
def digitsValue : List Char → Nat → Option Nat
  | [], acc => some acc
  | c :: cs, acc => if isDigit c then digitsValue cs (acc * 10 + (c.toNat - 48)) else none

/-- The call `strconv.ParseInt(lit, 10, 64)` on a JSON number literal: the
literal has to be an optional minus sign and digits, and the value has to fit
in 64 bits. -/
def literalToInt (lit : List Char) : Option Int :=
  match lit with
  | [] => none
  | '-' :: ds =>
    if ds = [] then none
    else
      match digitsValue ds 0 with
      | some n => if n ≤ 2 ^ 63 then some (-(n : Int)) else none
      | none => none
  | ds =>
    match digitsValue ds 0 with
    | some n => if n < 2 ^ 63 then some (n : Int) else none
    | none => none

/-- A `float64`.  A finite value is `± mant * 2 ^ exp`, kept with `mant` odd
(zero is `mant = 0`, `exp = 0`), so that equal numbers are equal terms. -/
inductive F64 where
  | finite (neg : Bool) (mant : Nat) (exp : Int)
  | inf (neg : Bool)
  | nan
  deriving DecidableEq, Repr

/-- Move the factors of two of the mantissa into the exponent.  The first
argument bounds the number of steps. -/
def stripTwos : Nat → Nat → Int → Nat × Int
  | 0, m, e => (m, e)
  | fuel + 1, m, e =>
    if m = 0 then (0, 0)
    else if m % 2 = 0 then stripTwos fuel (m / 2) (e + 1) else (m, e)

/-- The quotient `n / d` rounded to the nearest integer, a tie going to the
even neighbour. -/
def roundNearestEven (n d : Nat) : Nat :=
  if 2 * (n % d) < d then n / d
  else if d < 2 * (n % d) then n / d + 1
  else if (n / d) % 2 = 0 then n / d else n / d + 1

/-- The number of binary digits of a natural number.  The first argument
bounds the number of steps. -/
def bitLenAux : Nat → Nat → Nat
  | 0, _ => 0
  | fuel + 1, n => if n = 0 then 0 else bitLenAux fuel (n / 2) + 1

/-- The number of binary digits of a natural number. -/
def bitLen (n : Nat) : Nat := bitLenAux (n + 1) n

/-- The binary exponent at which the positive fraction `n / d` has a 53 bit
mantissa, not below the exponent of the subnormal numbers. -/
def binaryExponent (n d : Nat) : Int :=
  let e0 : Int := (bitLen n : Int) - (bitLen d : Int) - 52
  let small : Bool :=
    if 0 ≤ e0 then decide (n < 2 ^ 52 * (d * 2 ^ e0.toNat))
    else decide (n * 2 ^ (-e0).toNat < 2 ^ 52 * d)
  max (if small then e0 - 1 else e0) (-1074)

/-- The positive fraction `n / d` rounded to the nearest `float64` (IEEE 754
round to nearest, ties to even): mantissa and exponent, `none` when the result
overflows. -/
def roundToFloat (n d : Nat) : Option (Nat × Int) :=
  if n = 0 then some (0, 0)
  else
    let e := binaryExponent n d
    let m := if 0 ≤ e then roundNearestEven n (d * 2 ^ e.toNat)
             else roundNearestEven (n * 2 ^ (-e).toNat) d
    if 971 < e ∨ (e = 971 ∧ m = 2 ^ 53) then none
    else some (stripTwos 64 m e)

/-- The positive decimal `digits * 10 ^ exp10` rounded to the nearest
`float64`.  An integer below `2 ^ 53` is its own `float64` (the exact path of
`strconv`); past that the value is rounded.  Decimal exponents far outside the
range of `float64` are settled without computing the power. -/
def decimalToFloat (digits : Nat) (exp10 : Int) : Option (Nat × Int) :=
  if digits = 0 then some (0, 0)
  else if exp10 = 0 ∧ digits < 2 ^ 53 then some (stripTwos 64 digits 0)
  else if 310 ≤ exp10 then none
  else if exp10 + (natDigits digits).length < -330 then some (0, 0)
  else if 0 ≤ exp10 then roundToFloat (digits * 10 ^ exp10.toNat) 1
  else roundToFloat digits (10 ^ (-exp10).toNat)

/-- The exponent of a number literal: the text after `e` or `E`. -/
def exponentValue (ep : List Char) : Option Int :=
  match ep with
  | [] => some 0
  | _ :: '+' :: ds => (digitsValue ds 0).map fun n => (n : Int)
  | _ :: '-' :: ds => (digitsValue ds 0).map fun n => -(n : Int)
  | _ :: ds => (digitsValue ds 0).map fun n => (n : Int)

/-- The call `strconv.ParseFloat(lit, 64)` on a JSON number literal; `none`
when the literal is out of range (the only failure a well-formed literal has). -/
def literalToFloat (lit : List Char) : Option F64 :=
  let neg : Bool := match lit with | '-' :: _ => true | _ => false
  let body : List Char := match lit with | '-' :: r => r | _ => lit
  let ip := (spanDigits body).1
  let r1 := (spanDigits body).2
  let fp : List Char := match r1 with | '.' :: r => (spanDigits r).1 | _ => []
  let r2 : List Char := match r1 with | '.' :: r => (spanDigits r).2 | _ => r1
  match digitsValue (ip ++ fp) 0, exponentValue r2 with
  | some d, some e =>
    match decimalToFloat d (e - fp.length) with
    | some (m, x) => some (.finite neg m x)
    | none => none
  | _, _ => none

/-- A positive finite `float64` as a fraction of natural numbers. -/
def floatFraction (m : Nat) (e : Int) : Nat × Nat :=
  if 0 ≤ e then (m * 2 ^ e.toNat, 1) else (m, 2 ^ (-e).toNat)

/-- The position of the decimal point of the positive fraction `p / q`: the
`k` with `10 ^ (k - 1) ≤ p / q < 10 ^ k`. -/
def decimalPoint (p q : Nat) : Int :=
  let a := (natDigits p).length
  let b := (natDigits q).length
  let big : Bool :=
    if b ≤ a then decide (10 ^ (a - b) * q ≤ p) else decide (q ≤ p * 10 ^ (b - a))
  if big then (a : Int) - (b : Int) + 1 else (a : Int) - (b : Int)

/-- The integer part of `(p / q) / 10 ^ s`. -/
def scaledFloor (p q : Nat) (s : Int) : Nat :=
  if 0 ≤ s then p / (q * 10 ^ s.toNat) else (p * 10 ^ (-s).toNat) / q

/-- Whether `c * 10 ^ s` is at most as far above `p / q` as `(c - 1) * 10 ^ s`
is below it, for the round up of the shortest decimal; on a tie the even digit
wins. -/
def upperIsNearer (p q c : Nat) (s : Int) : Bool :=
  let twice : Nat × Nat :=
    if 0 ≤ s then (2 * p, (2 * c - 1) * 10 ^ s.toNat * q)
    else (2 * p * 10 ^ (-s).toNat, (2 * c - 1) * q)
  if twice.2 < twice.1 then true
  else if twice.1 < twice.2 then false
  else decide (c % 2 = 0)

/-- The shortest decimal `d * 10 ^ s` that `strconv.ParseFloat` reads back as
the positive `float64` `m * 2 ^ e` (`strconv.FormatFloat` with precision -1):
for 1, 2, ... significant digits, the value cut to that many digits and the
next decimal above it are tried, and the first that reads back is taken, the
nearer of the two if both do.  The first argument counts the lengths left to
try, the second is the length; seventeen digits always suffice. -/
def shortestDecimal (m : Nat) (e : Int) : Nat → Nat → Nat × Int
  | 0, n =>
    (scaledFloor (floatFraction m e).1 (floatFraction m e).2
        (decimalPoint (floatFraction m e).1 (floatFraction m e).2 - n),
      decimalPoint (floatFraction m e).1 (floatFraction m e).2 - n)
  | fuel + 1, n =>
    let p := (floatFraction m e).1
    let q := (floatFraction m e).2
    let s : Int := decimalPoint p q - n
    let lo := scaledFloor p q s
    let hitLo : Bool := decide (decimalToFloat lo s = some (m, e))
    let hitHi : Bool := decide (decimalToFloat (lo + 1) s = some (m, e))
    if hitLo && hitHi then (if upperIsNearer p q (lo + 1) s then (lo + 1, s) else (lo, s))
    else if hitLo then (lo, s)
    else if hitHi then (lo + 1, s)
    else shortestDecimal m e fuel (n + 1)

/-- Drop trailing zero digits of `d`, raising the decimal exponent.  The first
argument bounds the number of steps. -/
def stripZeros : Nat → Nat → Int → Nat × Int
  | 0, d, s => (d, s)
  | fuel + 1, d, s =>
    if d = 0 then (0, 0)
    else if d % 10 = 0 then stripZeros fuel (d / 10) (s + 1) else (d, s)

/-- Format `%f` with the shortest precision: the digits `ds` with the decimal
point after the first `dp` of them. -/
def formatFixed (ds : List Char) (dp : Int) : List Char :=
  let intPart : List Char :=
    if 0 < dp then ds.take dp.toNat ++ List.replicate (dp.toNat - ds.length) '0' else ['0']
  let fracPart : List Char :=
    if dp < (ds.length : Int) then
      '.' :: (List.replicate (-dp).toNat '0' ++ ds.drop dp.toNat)
    else []
  intPart ++ fracPart

/-- Format `%e` with the shortest precision, after the clean up that
`encoding/json` applies to it (`e-07` is written `e-7`). -/
def formatExp (ds : List Char) (dp : Int) : List Char :=
  let mantissa : List Char :=
    match ds with
    | [] => ['0']
    | [d] => [d]
    | d :: rest => d :: '.' :: rest
  let x : Int := dp - 1
  mantissa ++ 'e' :: (if x < 0 then '-' else '+') :: natDigits x.natAbs

/-- The number literal `encoding/json` writes for a `float64` (the
`floatEncoder`): `none` for NaN and the infinities, which are an
`UnsupportedValueError`; otherwise the shortest decimal that reads back as the
same `float64`, in `%f` form, or in `%e` form when the magnitude is below
`1e-6` or at least `1e21`.  An integer below `2 ^ 53` is written with its own
digits. -/
def formatFloat : F64 → Option (List Char)
  | .nan => none
  | .inf _ => none
  | .finite neg m e =>
    let sign : List Char := if neg then ['-'] else []
    if m = 0 then some (sign ++ ['0'])
    else if 0 ≤ e ∧ m * 2 ^ e.toNat < 2 ^ 53 then some (sign ++ natDigits (m * 2 ^ e.toNat))
    else
      let p := (floatFraction m e).1
      let q := (floatFraction m e).2
      let short := shortestDecimal m e 17 1
      let dec := stripZeros 18 short.1 short.2
      let ds := natDigits dec.1
      let dp : Int := (ds.length : Int) + dec.2
      let tiny : Bool :=
        match decimalToFloat 1 (-6) with
        | some (m6, e6) => decide (p * (floatFraction m6 e6).2 < (floatFraction m6 e6).1 * q)
        | none => false
      let huge : Bool := decide (10 ^ 21 * q ≤ p)
      if tiny || huge then some (sign ++ formatExp ds dp)
      else some (sign ++ formatFixed ds dp)

/-! ## Strings: `unicode/utf8` -/

/-- A byte. -/
abbrev Byte : Type := Fin 256

/-- Whether a byte is a continuation byte of UTF-8, `0x80` to `0xBF`. -/
def isCont (b : Nat) : Bool := decide (0x80 ≤ b) && decide (b ≤ 0xBF)

/-- Function `utf8.DecodeRune`: the rune at the front of the bytes and the
number of bytes of its encoding; for a byte that begins no valid encoding
(`RuneError` with width 1) the rune is `none`.  Encodings that are too long,
surrogates and values past U+10FFFF are invalid. -/
def decodeRune (bs : List Byte) : Option Char × Nat :=
  match bs.map Fin.val with
  | [] => (none, 0)
  | b0 :: rest =>
    if b0 < 0x80 then (some (Char.ofNat b0), 1)
    else if b0 < 0xC2 then (none, 1)
    else if b0 < 0xE0 then
      match rest with
      | b1 :: _ =>
        if isCont b1 then (some (Char.ofNat ((b0 - 0xC0) * 64 + (b1 - 0x80))), 2)
        else (none, 1)
      | [] => (none, 1)
    else if b0 < 0xF0 then
      match rest with
      | b1 :: b2 :: _ =>
        if (if b0 = 0xE0 then 0xA0 else 0x80) ≤ b1 ∧ b1 ≤ (if b0 = 0xED then 0x9F else 0xBF)
            ∧ isCont b2 = true then
          (some (Char.ofNat ((b0 - 0xE0) * 4096 + (b1 - 0x80) * 64 + (b2 - 0x80))), 3)
        else (none, 1)
      | _ => (none, 1)
    else if b0 < 0xF5 then
      match rest with
      | b1 :: b2 :: b3 :: _ =>
        if (if b0 = 0xF0 then 0x90 else 0x80) ≤ b1 ∧ b1 ≤ (if b0 = 0xF4 then 0x8F else 0xBF)
            ∧ isCont b2 = true ∧ isCont b3 = true then
          (some (Char.ofNat ((b0 - 0xF0) * 262144 + (b1 - 0x80) * 4096 + (b2 - 0x80) * 64
            + (b3 - 0x80))), 4)
        else (none, 1)
      | _ => (none, 1)
    else (none, 1)

/-- The runes of a byte sequence, read one `utf8.DecodeRune` after the other,
the way `encodeState.string` walks a string.  The first argument bounds the
number of steps. -/
def runesAux : Nat → List Byte → List (Option Char)
  | 0, _ => []
  | _ + 1, [] => []
  | fuel + 1, b :: bs =>
    (decodeRune (b :: bs)).1 :: runesAux fuel ((b :: bs).drop (decodeRune (b :: bs)).2)

/-- The runes of a byte sequence. -/
def runes (bs : List Byte) : List (Option Char) := runesAux bs.length bs

/-! ## Go values and `encoding/json` -/

/-- The errors the client can return. -/
inductive GoError where
  /-- An `errors.New(msg)`. -/
  | new (msg : List Char)
  /-- A `*json.SyntaxError`: the text is not a JSON document. -/
  | syntaxError
  /-- A `*json.UnmarshalTypeError`; `value` is its `Value` field (`"string"`,
  `"array"`, `"number 1.5"`, ...). -/
  | unmarshalType (value : List Char)
  /-- A `*json.InvalidUnmarshalError`: the target is not a non-nil pointer. -/
  | invalidUnmarshal
  /-- A `*json.UnsupportedValueError`: NaN or an infinity. -/
  | unsupportedValue
  /-- An error of `net/http`, `net/url` or the connection, by its message. -/
  | other (msg : List Char)
  deriving DecidableEq, Repr

/-- The text of an `errors.New` error; the other errors are told apart by
constructor and their texts are not modelled. -/
def GoError.message : GoError → Option (List Char)
  | .new msg => some msg
  | _ => none

/-- What `encoding/json` knows of a struct field: its key (the name in the
`json` tag, or the Go name when there is no tag) and the `omitempty` option. -/
structure Field where
  name : List Char
  omitEmpty : Bool
  deriving DecidableEq, Repr

/-- A Go value, as far as `encoding/json` looks at it.  `nil` is a nil
pointer, slice, map or interface; `str s` is the string whose bytes are the
UTF-8 encoding of `s`, and a string that is not valid UTF-8 is a `bytes`, by
its bytes; a `map` is a `map[string]interface{}`, kept as its entries in
increasing key order (the order `Marshal` writes them in); a struct carries
its fields in declaration order. -/
inductive GoVal where
  | nil
  | bool (b : Bool)
  | int (n : Int)
  | float (f : F64)
  | str (s : List Char)
  | bytes (bs : List Byte)
  | ptr (v : GoVal)
  | slice (vs : List GoVal)
  | map (kvs : List (List Char × GoVal))
  | struct (fs : List (Field × GoVal))
  deriving Repr, Inhabited

/-- The static type of a decode target. -/
inductive GoType where
  | bool
  | int
  | string
  | iface
  | ptr (t : GoType)
  | slice (t : GoType)
  | struct (fs : List (Field × GoType))
  deriving Repr, Inhabited

/-- The zero value of a type. -/
def GoType.zero : GoType → GoVal
  | .bool => .bool false
  | .int => .int 0
  | .string => .str []
  | .iface => .nil
  | .ptr _ => .nil
  | .slice _ => .nil
  | .struct fs => .struct (zeroFields fs)
where
  /-- The zero values of the fields of a struct. -/
  zeroFields : List (Field × GoType) → List (Field × GoVal)
    | [] => []
    | (f, t) :: fs => (f, t.zero) :: zeroFields fs

/-- Function `isEmptyValue`: what `omitempty` leaves out. -/
def isEmptyValue : GoVal → Bool
  | .nil => true
  | .bool b => !b
  | .int n => decide (n = 0)
  | .float (.finite _ m _) => decide (m = 0)
  | .float _ => false
  | .str s => s.isEmpty
  | .bytes bs => bs.isEmpty
  | .ptr _ => false
  | .slice vs => vs.isEmpty
  | .map kvs => kvs.isEmpty
  | .struct _ => false

/-- The document `json.Marshal` writes for a value; `none` is an
`UnsupportedValueError` (a NaN or an infinity somewhere in the value). -/
def toJson : GoVal → Option Json
  | .nil => some .null
  | .bool b => some (.bool b)
  | .int n => some (.num (intDigits n))
  | .float f => (formatFloat f).map .num
  | .str s => some (.str s)
  | .bytes bs => some (.coerced (runes bs))
  | .ptr v => toJson v
  | .slice vs => (elemsToJson vs).map .arr
  | .map kvs => (entriesToJson kvs).map .obj
  | .struct fs => (fieldsToJson fs).map .obj
where
  /-- The elements of a slice. -/
  elemsToJson : List GoVal → Option (List Json)
    | [] => some []
    | v :: vs =>
      match toJson v, elemsToJson vs with
      | some j, some js => some (j :: js)
      | _, _ => none
  /-- The entries of a map. -/
  entriesToJson : List (List Char × GoVal) → Option (List (List Char × Json))
    | [] => some []
    | (k, v) :: kvs =>
      match toJson v, entriesToJson kvs with
      | some j, some js => some ((k, j) :: js)
      | _, _ => none
  /-- The fields of a struct, those that `omitempty` drops left out. -/
  fieldsToJson : List (Field × GoVal) → Option (List (List Char × Json))
    | [] => some []
    | (f, v) :: fs =>
      match toJson v, fieldsToJson fs with
      | some j, some js =>
        if f.omitEmpty && isEmptyValue v then some js else some ((f.name, j) :: js)
      | _, _ => none

/-- The call `json.Marshal(v)`: the text, or the error. -/
def Marshal (v : GoVal) : Except GoError (List Char) :=
  match toJson v with
  | some j => .ok j.render
  | none => .error .unsupportedValue

/-- Go's order on strings, by code point. -/
def keyLt : List Char → List Char → Bool
  | [], [] => false
  | [], _ :: _ => true
  | _ :: _, [] => false
  | a :: as, b :: bs => if a.toNat < b.toNat then true else if b.toNat < a.toNat then false else keyLt as bs

/-- Store `m[k] = v` in a map kept in key order. -/
def mapInsert (k : List Char) (v : GoVal) : List (List Char × GoVal) → List (List Char × GoVal)
  | [] => [(k, v)]
  | (k1, v1) :: rest =>
    if k = k1 then (k, v) :: rest
    else if keyLt k k1 then (k, v) :: (k1, v1) :: rest
    else (k1, v1) :: mapInsert k v rest

/-- The first of two errors: `decodeState.saveError` keeps the earliest. -/
def firstError (a b : Option GoError) : Option GoError :=
  match a with
  | some e => some e
  | none => b

/-- The value an untyped decode builds for a document (`valueInterface`): a
number becomes a `float64`, an object a `map[string]interface{}` (a repeated
key keeps its last value), an array a `[]interface{}`.  A number out of the
range of `float64` leaves nil in its place and is the saved error. -/
def toInterface : Json → GoVal × Option GoError
  | .null => (.nil, none)
  | .bool b => (.bool b, none)
  | .num lit =>
    match literalToFloat lit with
    | some f => (.float f, none)
    | none => (.nil, some (.unmarshalType ("number ".toList ++ lit)))
  | .str s => (.str s, none)
  | .coerced _ => (.nil, some (.unmarshalType "string".toList))
  | .arr xs => (.slice (elemsToInterface xs).1, (elemsToInterface xs).2)
  | .obj kvs => (.map (membersToInterface kvs []).1, (membersToInterface kvs []).2)
where
  /-- The elements of an array. -/
  elemsToInterface : List Json → List GoVal × Option GoError
    | [] => ([], none)
    | x :: xs =>
      ((toInterface x).1 :: (elemsToInterface xs).1,
        firstError (toInterface x).2 (elemsToInterface xs).2)
  /-- The members of an object, stored one after the other into the map. -/
  membersToInterface : List (List Char × Json) → List (List Char × GoVal) →
      List (List Char × GoVal) × Option GoError
    | [], m => (m, none)
    | (k, v) :: kvs, m =>
      ((membersToInterface kvs (mapInsert k (toInterface v).1 m)).1,
        firstError (toInterface v).2 (membersToInterface kvs (mapInsert k (toInterface v).1 m)).2)

/-- The upper case of an ASCII letter, as a code point. -/
def asciiUpper (c : Char) : Nat :=
  if 'a' ≤ c ∧ c ≤ 'z' then c.toNat - 32 else c.toNat

/-- Whether a character is an ASCII letter. -/
def isAsciiLetter (c : Char) : Bool :=
  (decide ('a' ≤ c) && decide (c ≤ 'z')) || (decide ('A' ≤ c) && decide (c ≤ 'Z'))

/-- Whether a key character `k` matches the field name character `n` without
regard to case: the same character, the same ASCII letter in the other case,
or one of the two non-ASCII characters that fold to an ASCII letter (U+017F
for `s`, U+212A for `k`). -/
def foldCharEq (n k : Char) : Bool :=
  decide (n = k)
    || (isAsciiLetter n && isAsciiLetter k && decide (asciiUpper n = asciiUpper k))
    || ((decide (n = 's') || decide (n = 'S')) && decide (k.toNat = 0x17F))
    || ((decide (n = 'k') || decide (n = 'K')) && decide (k.toNat = 0x212A))

/-- The case-insensitive match of an object key against a field name, for the
ASCII field names this repository uses. -/
def foldEq : List Char → List Char → Bool
  | [], [] => true
  | n :: ns, k :: ks => foldCharEq n k && foldEq ns ks
  | _, _ => false

/-- The index of the first element satisfying `p`. -/
def findIndex {α : Type} (p : α → Bool) : List α → Option Nat
  | [] => none
  | x :: xs => if p x then some 0 else (findIndex p xs).map (· + 1)

/-- The field an object key is decoded into: the field whose name is the key;
failing that, the first field whose name matches the key without regard to
case. -/
def findField (fs : List (Field × GoType)) (key : List Char) : Option Nat :=
  match findIndex (fun ft => decide (ft.1.name = key)) fs with
  | some i => some i
  | none => findIndex (fun ft => foldEq ft.1.name key) fs

/-- Function `indirect` on a pointer type and a non-null document: nil
pointers are allocated on the way down.  The result is the type and the
current value at the end of the chain of pointers, and the length of the
chain. -/
def pointee : GoType → GoVal → GoType × GoVal × Nat
  | .ptr t, cur =>
    let inner : GoVal := match cur with | .ptr v => v | _ => t.zero
    ((pointee t inner).1, (pointee t inner).2.1, (pointee t inner).2.2 + 1)
  | t, cur => (t, cur, 0)

/-- A chain of `n` pointers to `v`. -/
def wrapPtr : Nat → GoVal → GoVal
  | 0, v => v
  | n + 1, v => .ptr (wrapPtr n v)

/-- The field values of a struct variable. -/
def fieldsOf (fs : List (Field × GoType)) (cur : GoVal) : List (Field × GoVal) :=
  match cur with
  | .struct cfs => cfs
  | _ => GoType.zero.zeroFields fs

/-- The elements of a slice variable. -/
def elemsOf (cur : GoVal) : List GoVal :=
  match cur with
  | .slice vs => vs
  | _ => []

/-- Replace the value of field number `i`. -/
def setField (cfs : List (Field × GoVal)) (i : Nat) (v : GoVal) : List (Field × GoVal) :=
  match cfs, i with
  | [], _ => []
  | (f, _) :: rest, 0 => (f, v) :: rest
  | fv :: rest, i + 1 => fv :: setField rest i v

/-- The type of field number `i`. -/
def fieldType (fs : List (Field × GoType)) (i : Nat) : GoType :=
  match fs.get? i with
  | some ft => ft.2
  | none => .iface

/-- The value of field number `i`. -/
def fieldValue (cfs : List (Field × GoVal)) (fs : List (Field × GoType)) (i : Nat) : GoVal :=
  match cfs.get? i with
  | some fv => fv.2
  | none => (fieldType fs i).zero

/-- A JSON null stored into a variable: a pointer, slice or interface becomes
nil, anything else is left alone. -/
def storeNull (t : GoType) (cur : GoVal) : GoVal :=
  match t with
  | .ptr _ => .nil
  | .slice _ => .nil
  | .iface => .nil
  | _ => cur

mutual
/-- The decoder of `json.Unmarshal` (`decodeState.value`): the document `j` is
stored into a variable of type `t` that holds `cur`.  The result is the new
value of the variable and the first type error met; decoding goes on after a
type error, which leaves the offending variable as it was.  An interface
variable is taken not to hold a pointer. -/
def decode (t : GoType) (j : Json) (cur : GoVal) : GoVal × Option GoError :=
  match j with
  | .null => (storeNull t cur, none)
  | .bool b =>
    match (pointee t cur).1 with
    | .bool => (wrapPtr (pointee t cur).2.2 (.bool b), none)
    | .iface => (wrapPtr (pointee t cur).2.2 (.bool b), none)
    | _ => (wrapPtr (pointee t cur).2.2 (pointee t cur).2.1, some (.unmarshalType "bool".toList))
  | .num lit =>
    match (pointee t cur).1 with
    | .int =>
      match literalToInt lit with
      | some n => (wrapPtr (pointee t cur).2.2 (.int n), none)
      | none =>
        (wrapPtr (pointee t cur).2.2 (pointee t cur).2.1,
          some (.unmarshalType ("number ".toList ++ lit)))
    | .iface =>
      match literalToFloat lit with
      | some f => (wrapPtr (pointee t cur).2.2 (.float f), none)
      | none =>
        (wrapPtr (pointee t cur).2.2 (pointee t cur).2.1,
          some (.unmarshalType ("number ".toList ++ lit)))
    | _ => (wrapPtr (pointee t cur).2.2 (pointee t cur).2.1, some (.unmarshalType "number".toList))
  | .str s =>
    match (pointee t cur).1 with
    | .string => (wrapPtr (pointee t cur).2.2 (.str s), none)
    | .iface => (wrapPtr (pointee t cur).2.2 (.str s), none)
    | _ => (wrapPtr (pointee t cur).2.2 (pointee t cur).2.1, some (.unmarshalType "string".toList))
  | .coerced _ =>
    (wrapPtr (pointee t cur).2.2 (pointee t cur).2.1, some (.unmarshalType "string".toList))
  | .arr xs =>
    match (pointee t cur).1 with
    | .slice t1 =>
      (wrapPtr (pointee t cur).2.2 (.slice (decodeElems t1 xs (elemsOf (pointee t cur).2.1)).1),
        (decodeElems t1 xs (elemsOf (pointee t cur).2.1)).2)
    | .iface =>
      (wrapPtr (pointee t cur).2.2 (.slice (toInterface.elemsToInterface xs).1),
        (toInterface.elemsToInterface xs).2)
    | _ => (wrapPtr (pointee t cur).2.2 (pointee t cur).2.1, some (.unmarshalType "array".toList))
  | .obj kvs =>
    match (pointee t cur).1 with
    | .struct fs =>
      (wrapPtr (pointee t cur).2.2
          (.struct (decodeMembers fs kvs (fieldsOf fs (pointee t cur).2.1)).1),
        (decodeMembers fs kvs (fieldsOf fs (pointee t cur).2.1)).2)
    | .iface =>
      (wrapPtr (pointee t cur).2.2 (.map (toInterface.membersToInterface kvs []).1),
        (toInterface.membersToInterface kvs []).2)
    | _ => (wrapPtr (pointee t cur).2.2 (pointee t cur).2.1, some (.unmarshalType "object".toList))
/-- The elements of an array stored into a slice of element type `t`: element
`i` is decoded into the element the slice already has at `i`, or into a zero
value past its end (the slice is taken to have no old elements beyond its
length). -/
def decodeElems (t : GoType) (xs : List Json) (cur : List GoVal) : List GoVal × Option GoError :=
  match xs with
  | [] => ([], none)
  | x :: rest =>
    ((decode t x (cur.headD t.zero)).1 :: (decodeElems t rest cur.tail).1,
      firstError (decode t x (cur.headD t.zero)).2 (decodeElems t rest cur.tail).2)
/-- The members of an object stored into a struct with fields `fs` and
current field values `cfs`, in document order; a key that matches no field is
skipped. -/
def decodeMembers (fs : List (Field × GoType)) (kvs : List (List Char × Json))
    (cfs : List (Field × GoVal)) : List (Field × GoVal) × Option GoError :=
  match kvs with
  | [] => (cfs, none)
  | (k, v) :: rest =>
    match findField fs k with
    | some i =>
      ((decodeMembers fs rest
          (setField cfs i (decode (fieldType fs i) v (fieldValue cfs fs i)).1)).1,
        firstError (decode (fieldType fs i) v (fieldValue cfs fs i)).2
          (decodeMembers fs rest
            (setField cfs i (decode (fieldType fs i) v (fieldValue cfs fs i)).1)).2)
    | none => decodeMembers fs rest cfs
end

/-- The target handed to `json.Unmarshal` or to `Client.Do`, an
`interface{}`: nil, a non-nil pointer to a variable of type `t` that holds
`cur`, or anything else (a nil pointer, a value that is no pointer). -/
inductive Target where
  | none
  | invalid
  | ptr (t : GoType) (cur : GoVal)
  deriving Repr

/-- The value of the variable a target points to. -/
def Target.value : Target → Option GoVal
  | .ptr _ cur => some cur
  | _ => Option.none

/-- The call `json.Unmarshal(data, v)`: the text is checked first (a
`SyntaxError` leaves the target alone), a target that is not a non-nil pointer
is an `InvalidUnmarshalError`, and otherwise the document is decoded into the
variable.  The result is the target afterwards and the error. -/
def Unmarshal (data : List Char) (v : Target) : Target × Option GoError :=
  match parseJSON data with
  | Option.none => (v, some .syntaxError)
  | some j =>
    match v with
    | .ptr t cur => (.ptr t (decode t j cur).1, (decode t j cur).2)
    | _ => (v, some .invalidUnmarshal)

/-! ## `strings` -/

/-- The call `strings.TrimLeft(s, cutset)`: `s` without its leading characters
that are in `cutset`. -/
def TrimLeft (s cutset : List Char) : List Char :=
  match s with
  | [] => []
  | c :: cs => if cutset.contains c then TrimLeft cs cutset else c :: cs

/-- The call `strings.TrimRight(s, cutset)`: `s` without its trailing
characters that are in `cutset`. -/
def TrimRight (s cutset : List Char) : List Char :=
  match s with
  | [] => []
  | c :: cs =>
    match TrimRight cs cutset with
    | [] => if cutset.contains c then [] else [c]
    | r => c :: r

/-! ## client.go -/

/-- A `context.Context`, as far as the client looks at it: what `ctx.Err()`
reports. -/
structure Context where
  Err : Option GoError
  deriving Repr

/-- The context `http.NewRequest` gives a request. -/
def Context.background : Context := ⟨none⟩

/-- An `*http.Request`.  `URL` is the text the request was built from; `Body`
is `none` for a request without body. -/
structure Request where
  Method : List Char
  URL : List Char
  Header : List (List Char × List Char)
  Body : Option (List Char)
  ctx : Context
  deriving Repr

/-- An `*http.Response`.  `Body` is what `ioutil.ReadAll(resp.Body)` returns:
the text, or the error of the read. -/
structure HTTPResponse where
  StatusCode : Int
  Header : List (List Char × List Char)
  Body : Except GoError (List Char)

/-- Type `Response` of client.go, which embeds the `*http.Response`. -/
structure Response where
  Response : HTTPResponse

/-- Function `newResponse`. -/
def newResponse (r : HTTPResponse) : Response := { Response := r }

/-- What `http.Client.Do` returns: a response and a nil error, or a nil
response and an error, or both a response and an error (the one case
`net/http` documents: `CheckRedirect` failed, and the last response comes with
the error, its body closed). -/
inductive Exchange where
  | ok (resp : HTTPResponse)
  | error (err : GoError)
  | both (resp : HTTPResponse) (err : GoError)

/-- Type `Client`.  `httpClient` is `c.httpClient.Do`, one exchange over the
connection; `BaseURL` is the text `c.BaseURL.String()`. -/
structure Client where
  httpClient : Request → Exchange
  BaseURL : List Char

/-- What the standard library contributes to building a request:
`newRequestError method url` is the error `http.NewRequest` returns for a
method and an address (an invalid method, an address `url.Parse` rejects), or
`none` when it accepts them; `now` is `time.Now().Format(time.RFC850)`. -/
structure Runtime where
  newRequestError : List Char → List Char → Option GoError
  now : List Char

/-- Type `body`: `struct { Data interface{} "json:\"data\"" }`. -/
def bodyType : GoType := .struct [(⟨"data".toList, false⟩, .iface)]

/-- A `body{Data: payload}`. -/
def bodyOf (payload : GoVal) : GoVal := .struct [(⟨"data".toList, false⟩, payload)]

/-- Type `bodyError`: `struct { ErrorMessage string "json:\"error_message\"" }`. -/
def bodyErrorType : GoType := .struct [(⟨"error_message".toList, false⟩, .string)]

/-- The value of the first field of a struct variable. -/
def firstField (t : Target) : GoVal :=
  match t with
  | .ptr _ (.struct ((_, v) :: _)) => v
  | _ => .nil

/-- The text of a string value. -/
def stringOf (v : GoVal) : List Char :=
  match v with
  | .str s => s
  | _ => []

/-- The address `createRequest` builds:
`fmt.Sprintf("%s/%s", strings.TrimRight(c.BaseURL.String(), "/"), strings.TrimLeft(url, "/"))`. -/
def Client.reqUrl (c : Client) (url : List Char) : List Char :=
  TrimRight c.BaseURL ['/'] ++ '/' :: TrimLeft url ['/']

/-- Method `Client.createRequest`.  The payload is an `interface{}`: `none`
is nil.  The error of `json.Marshal` is dropped (`dataJson, _ :=`), which
leaves an empty buffer as the body. -/
def Client.createRequest (rt : Runtime) (c : Client) (method url : List Char)
    (payload : Option GoVal) : Except GoError Request :=
  let reqUrl := c.reqUrl url
  let data : Option (List Char) :=
    match payload with
    | none => none
    | some p =>
      match Marshal (bodyOf p) with
      | .ok dataJson => some dataJson
      | .error _ => some []
  match rt.newRequestError method reqUrl with
  | some err => .error err
  | none =>
    .ok { Method := method
          URL := reqUrl
          Header := [("Content-Type".toList, "application/json".toList), ("Date".toList, rt.now)]
          Body := data
          ctx := Context.background }

/-- Method `Client.GET`. -/
def Client.GET (rt : Runtime) (c : Client) (url : List Char) (body : Option GoVal) :
    Except GoError Request :=
  c.createRequest rt "GET".toList url body

/-- Method `Client.POST`. -/
def Client.POST (rt : Runtime) (c : Client) (url : List Char) (body : Option GoVal) :
    Except GoError Request :=
  c.createRequest rt "POST".toList url body

/-- Method `Client.DELETE`. -/
def Client.DELETE (rt : Runtime) (c : Client) (url : List Char) (body : Option GoVal) :
    Except GoError Request :=
  c.createRequest rt "DELETE".toList url body

/-- What a call of `Client.Do` leaves behind: the two results, the target
afterwards, and the requests that were handed to the transport. -/
structure DoResult where
  response : Option Response
  err : Option GoError
  target : Target
  sent : List Request

/-- The state the unpacking block of `Client.Do` ends in: the target, the
`err` of the function body, and the `err` that the block declares for itself. -/
structure Unpacked where
  target : Target
  err : Option GoError
  blockErr : Option GoError

/-- The unpacking block of `Client.Do` (`if target != nil { ... }`), entered
with the text of the response.  The statement
`encoded, err := json.Marshal(body.Data)` declares a second `err` inside the
block (`blockErr`); the error of the decode into the target is assigned to that
one, and the `err` of the function body, which `Do` returns, keeps the value
it got from decoding the envelope. -/
def unpack (respText : Text) (target : Target) : Unpacked :=
  let decoded := Unmarshal respText (.ptr bodyType bodyType.zero)
  match decoded.2 with
  | some err => { target := target, err := some err, blockErr := none }
  | none =>
    match Marshal (firstField decoded.1) with
    | .ok encoded =>
      { target := (Unmarshal encoded target).1, err := none
        blockErr := (Unmarshal encoded target).2 }
    | .error err => { target := target, err := none, blockErr := some err }

/-- Method `Client.Do`.  A nil context is `none`. -/
def Client.Do (c : Client) (ctx : Option Context) (req : Request) (target : Target) : DoResult :=
  match ctx with
  | none =>
    { response := none, err := some (.new "nil context is not allowed".toList)
      target := target, sent := [] }
  | some cx =>
    let req1 : Request := { req with ctx := cx }
    match c.httpClient req1 with
    | .error err => { response := none, err := some err, target := target, sent := [req1] }
    | .both _ err => { response := none, err := some err, target := target, sent := [req1] }
    | .ok resp =>
      let response := newResponse resp
      match resp.Body with
      | .error err =>
        { response := some response, err := some err, target := target, sent := [req1] }
      | .ok respText =>
        let be := (Unmarshal respText (.ptr bodyErrorType bodyErrorType.zero)).1
        if stringOf (firstField be) ≠ [] then
          { response := some response, err := some (.new (stringOf (firstField be)))
            target := target, sent := [req1] }
        else
          match target with
          | .none => { response := some response, err := none, target := target, sent := [req1] }
          | _ =>
            { response := some response, err := (unpack respText target).err
              target := (unpack respText target).target, sent := [req1] }

/-! ## accounts.go -/

/-- Constant `accountsBaseEndpoint`. -/
def accountsBaseEndpoint : Text := "/organisation/accounts".toList

/-- A field with a `json` tag without options. -/
def plain (name : String) : Field := ⟨name.toList, false⟩

/-- A field tagged `omitempty`. -/
def omitempty (name : String) : Field := ⟨name.toList, true⟩

/-- Type `PrivateIdentification`. -/
def privateIdentificationType : GoType :=
  .struct [(plain "birth_date", .string), (plain "birth_country", .string),
    (plain "identification", .string), (plain "address", .slice .string),
    (plain "country", .string), (plain "city", .string)]

/-- Type `OrganizationActor`. -/
def organizationActorType : GoType :=
  .struct [(plain "name", .string), (plain "birth_date", .string), (plain "residency", .string),
    (plain "address", .string), (plain "city", .string), (plain "country", .string)]

/-- Type `OrganizationIdentification`. -/
def organizationIdentificationType : GoType :=
  .struct [(plain "identification", .string), (plain "actors", organizationActorType)]

/-- Type `AccountAttributes`. -/
def accountAttributesType : GoType :=
  .struct [(plain "country", .string), (plain "base_currency", .string),
    (plain "bank_id", .string), (plain "bank_id_code", .string),
    (plain "account_number", .string), (plain "bic", .string), (plain "iban", .string),
    (plain "customer_id", .string), (plain "name", .string),
    (omitempty "private_identification", .ptr privateIdentificationType),
    (omitempty "organization_identification", .ptr organizationIdentificationType)]

/-- Type `MasterAccountRelation`. -/
def masterAccountRelationType : GoType :=
  .struct [(plain "id", .string), (plain "type", .string)]

/-- Type `AccountRelationships`; its field has no tag and goes by its Go
name. -/
def accountRelationshipsType : GoType :=
  .struct [(plain "MasterAccount", .slice masterAccountRelationType)]

/-- Type `Account`, without `CreatedOn` and `ModifiedOn`: the two are
`*time.Time`, and `time.Time` brings its own JSON methods, which are not
embedded.  The accounts of the model are the accounts with both of them nil;
being `omitempty`, a nil `CreatedOn` or `ModifiedOn` writes nothing. -/
def accountType : GoType :=
  .struct [(plain "id", .string), (plain "organisation_id", .string), (plain "type", .string),
    (omitempty "attributes", .ptr accountAttributesType), (plain "version", .int),
    (omitempty "relationships", .ptr accountRelationshipsType)]

/-- An `Account` with these four fields and nil `Attributes` and
`Relationships`. -/
def accountValue (id orgID type : Text) (version : Int) : GoVal :=
  .struct [(plain "id", .str id), (plain "organisation_id", .str orgID), (plain "type", .str type),
    (omitempty "attributes", .nil), (plain "version", .int version),
    (omitempty "relationships", .nil)]

/-- Function `MakeAccount`: a pointer to a new account. -/
def MakeAccount (id orgID : Text) : GoVal :=
  .ptr (accountValue id orgID "accounts".toList 0)

/-- Type `AccountsService`. -/
structure AccountsService where
  client : Client

/-- The pointer a service hands back once `Do` has filled the variable it
points to. -/
def pointerTo (t : Target) : Option GoVal :=
  match t with
  | .ptr _ cur => some (.ptr cur)
  | _ => none

/-- Method `AccountsService.Create`; `data` is the `*Account`.  The results
are the account, the response and the error, `none` for nil. -/
def AccountsService.Create (rt : Runtime) (s : AccountsService) (ctx : Option Context)
    (data : GoVal) : Option GoVal × Option Response × Option GoError :=
  match s.client.POST rt accountsBaseEndpoint (some data) with
  | .error _ => (none, none, none)
  | .ok req =>
    let r := s.client.Do ctx req (.ptr accountType accountType.zero)
    match r.err with
    | some err => (none, r.response, some err)
    | none => (pointerTo r.target, r.response, none)

/-- Method `AccountsService.ByID`. -/
def AccountsService.ByID (rt : Runtime) (s : AccountsService) (ctx : Option Context)
    (id : Text) : Option GoVal × Option Response × Option GoError :=
  let url := accountsBaseEndpoint ++ '/' :: id
  match s.client.GET rt url none with
  | .error _ => (none, none, none)
  | .ok req =>
    let r := s.client.Do ctx req (.ptr accountType accountType.zero)
    match r.err with
    | some err => (none, r.response, some err)
    | none => (pointerTo r.target, r.response, none)

/-- Type `AccountListOptions`. -/
structure AccountListOptions where
  Number : Text
  Size : Int

/-- Method `AccountsService.List`; nil options are `none`.  The first result
is the slice `*accounts`. -/
def AccountsService.List (rt : Runtime) (s : AccountsService) (ctx : Option Context)
    (options : Option AccountListOptions) : Option GoVal × Option Response × Option GoError :=
  let reqUrl : Text :=
    match options with
    | some o =>
      accountsBaseEndpoint ++ "?page[number]=".toList ++ o.Number ++ "&page[size]=".toList
        ++ intDigits o.Size
    | none => accountsBaseEndpoint
  match s.client.GET rt reqUrl none with
  | .error err => (none, none, some err)
  | .ok req =>
    let r := s.client.Do ctx req (.ptr (.slice (.ptr accountType)) (GoType.slice (.ptr accountType)).zero)
    match r.err with
    | some err => (none, r.response, some err)
    | none => (r.target.value, r.response, none)

/-- Method `AccountsService.Delete`. -/
def AccountsService.Delete (rt : Runtime) (s : AccountsService) (ctx : Option Context)
    (id : Text) (version : Int) : Option Response × Option GoError :=
  let url := accountsBaseEndpoint ++ '/' :: id ++ "?version=".toList ++ intDigits version
  match s.client.DELETE rt url none with
  | .error _ => (none, none)
  | .ok req =>
    let r := s.client.Do ctx req .none
    match r.err with
    | some err => (r.response, some err)
    | none => (r.response, none)

/-! ## The claims' own words -/

/-- A text with all trailing slashes removed. -/
def withoutTrailingSlashes (s : Text) : Text := (s.reverse.dropWhile (· = '/')).reverse

/-- A text with all leading slashes removed. -/
def withoutLeadingSlashes (s : Text) : Text := s.dropWhile (· = '/')

/-- Whether `json.Marshal` writes `null` for a value: a nil, or a pointer to
such a value. -/
def encodesNull : GoVal → Bool
  | .nil => true
  | .ptr v => encodesNull v
  | _ => false

/-- Whether the names of the fields of a struct type are pairwise distinct. -/
def distinctNames : List (Field × GoType) → Bool
  | [] => true
  | (f, _) :: fs => !(fs.any fun g => decide (g.1.name = f.name)) && distinctNames fs

/-- Whether a value is an empty slice that is not nil. -/
def isEmptySlice : GoVal → Bool
  | .slice [] => true
  | _ => false

/-- The payloads and targets of the round trip: `Conforms t v` says that `v`
is a value of the static type `t`, where

* every `int` has a magnitude below `2 ^ 53` (it passes through `float64`);
* every string is valid UTF-8 (a `GoVal.str`; a `GoVal.bytes` conforms to
  nothing);
* no interface is involved;
* a non-nil pointer does not point to a value that is written as `null`, which
  reads back as a nil pointer;
* an `omitempty` field does not hold an empty slice that is not nil, which is
  left out and reads back as a nil slice;
* the fields of a struct have distinct names. -/
def Conforms : GoType → GoVal → Bool
  | .bool, .bool _ => true
  | .int, .int n => decide (n.natAbs < 2 ^ 53)
  | .string, .str _ => true
  | .ptr _, .nil => true
  | .ptr t, .ptr v => !encodesNull v && Conforms t v
  | .slice _, .nil => true
  | .slice t, .slice vs => conformsAll t vs
  | .struct fs, .struct vs => distinctNames fs && conformsFields fs vs
  | _, _ => false
where
  /-- The elements of a slice. -/
  conformsAll (t : GoType) : List GoVal → Bool
    | [] => true
    | v :: vs => Conforms t v && conformsAll t vs
  /-- The fields of a struct, against the fields of its type. -/
  conformsFields : List (Field × GoType) → List (Field × GoVal) → Bool
    | [], [] => true
    | (f, t) :: fs, (g, v) :: vs =>
      decide (f = g) && Conforms t v && !(g.omitEmpty && isEmptySlice v) && conformsFields fs vs
    | _, _ => false

/-! ## Notions used in the proofs -/

/-- What ends a run of digits: the end of the text, or a character that is no
digit. -/
def EndsDigits (rest : Text) : Prop := ∀ d r, rest = d :: r → isDigit d = false

/-- What may follow a value in a document that `Json.render` wrote: the end of
the text, a comma, or a closing bracket or brace. -/
def Stops (rest : Text) : Prop :=
  rest = [] ∨ ∃ r, rest = ',' :: r ∨ rest = ']' :: r ∨ rest = '}' :: r

/-- The number of nodes of a document, which bounds the depth of the
recursion of `parseValue` on its text. -/
def Json.size : Json → Nat
  | .null => 1
  | .bool _ => 1
  | .num _ => 1
  | .str _ => 1
  | .coerced _ => 1
  | .arr xs => 1 + sizeElems xs
  | .obj kvs => 1 + sizeMembers kvs
where
  /-- The nodes of the elements of an array. -/
  sizeElems : List Json → Nat
    | [] => 0
    | x :: xs => 1 + x.size + sizeElems xs
  /-- The nodes of the members of an object. -/
  sizeMembers : List (Text × Json) → Nat
    | [] => 0
    | (_, v) :: kvs => 1 + v.size + sizeMembers kvs

/-- A run of decimal digits. -/
def AllDigits (ds : Text) : Prop := ∀ d ∈ ds, isDigit d = true

/-- A number literal of JSON, as `json.Marshal` writes one: an optional minus
sign; a lone `0` or digits that do not begin with `0`; an optional fraction; an
optional exponent with a sign. -/
def NumLit (lit : Text) : Prop :=
  ∃ sign ip fp ep, lit = sign ++ (ip ++ (fp ++ ep))
    ∧ (sign = [] ∨ sign = ['-'])
    ∧ (ip = ['0'] ∨ ∃ d ds, ip = d :: ds ∧ isDigit d = true ∧ d ≠ '0' ∧ AllDigits ds)
    ∧ (fp = [] ∨ ∃ ds, fp = '.' :: ds ∧ ds ≠ [] ∧ AllDigits ds)
    ∧ (ep = [] ∨ ∃ s ds, ep = 'e' :: s :: ds ∧ (s = '+' ∨ s = '-') ∧ ds ≠ [] ∧ AllDigits ds)

/-- The number of arrays and objects of a document that are open at once. -/
def Json.depth : Json → Nat
  | .arr xs => 1 + depthElems xs
  | .obj kvs => 1 + depthMembers kvs
  | _ => 0
where
  /-- The deepest of the elements of an array. -/
  depthElems : List Json → Nat
    | [] => 0
    | x :: xs => max x.depth (depthElems xs)
  /-- The deepest of the members of an object. -/
  depthMembers : List (Text × Json) → Nat
    | [] => 0
    | (_, v) :: kvs => max v.depth (depthMembers kvs)

/-- A document as the scanner yields it, whose text reads back as the document:
its numbers are number literals and none of its strings is a coerced one. -/
def Json.Canon : Json → Prop
  | .null => True
  | .bool _ => True
  | .num lit => NumLit lit
  | .str _ => True
  | .coerced _ => False
  | .arr xs => canonElems xs
  | .obj kvs => canonMembers kvs
where
  /-- The elements of an array. -/
  canonElems : List Json → Prop
    | [] => True
    | x :: xs => x.Canon ∧ canonElems xs
  /-- The members of an object. -/
  canonMembers : List (Text × Json) → Prop
    | [] => True
    | (_, v) :: kvs => v.Canon ∧ canonMembers kvs

/-- The keys of a map are in strictly increasing order. -/
def KeysSorted (m : List (Text × GoVal)) : Prop :=
  (m.map Prod.fst).Pairwise fun a b => keyLt a b = true

/-- The document `json.Marshal` writes for a value, `null` standing in where
it fails. -/
def toJsonD (v : GoVal) : Json := (toJson v).getD .null

/-- The untyped value that the first pass of `Client.Do` builds from the
document of a value. -/
def reread (v : GoVal) : GoVal := (toInterface (toJsonD v)).1

/-- The document that `Client.Do` writes again from the untyped value: the
document of the value, its object members in key order and its numbers
through `float64`. -/
def rewritten (v : GoVal) : Json := toJsonD (reread v)

/-- A value of type `t` survives the two passes of `Client.Do`: it is written,
read untyped without error, written again, and the text decodes into a zero
variable of type `t` as the value itself. -/
def RoundTrips (t : GoType) (x : GoVal) : Prop :=
  (toJson x).isSome = true ∧ (toJsonD x).Canon ∧ (toInterface (toJsonD x)).2 = none
    ∧ (toJson (reread x)).isSome = true ∧ (rewritten x).Canon
    ∧ decode t (rewritten x) t.zero = (x, none)
    ∧ (encodesNull x = false → rewritten x ≠ .null)

/-- Whether `omitempty` leaves a field out. -/
def omitted (fv : Field × GoVal) : Bool := fv.1.omitEmpty && isEmptyValue fv.2

/-! ## Test doubles -/

/-- A client in front of a server that answers every request with one status
code and one body, the way the handlers of `client_test.go` do. -/
def clientOf (code : Int) (body : Text) : Client :=
  { httpClient := fun _ => .ok { StatusCode := code, Header := [], Body := .ok body }
    BaseURL := "http://localhost:8080/v1".toList }

/-- A runtime whose `http.NewRequest` turns down an address with an ASCII
control character in it, as `url.Parse` does, and accepts the rest. -/
def strictRuntime : Runtime :=
  { newRequestError := fun _ url =>
      if url.any (fun c => decide (c.toNat < 0x20) || decide (c.toNat = 0x7F)) then
        some (.other "net/url: invalid control character in URL".toList)
      else none
    now := "Monday, 02-Jan-06 15:04:05 UTC".toList }

/-- A request as `createRequest` builds it. -/
def sampleRequest : Request :=
  { Method := "GET".toList, URL := "http://localhost:8080/v1/x".toList
    Header := [("Content-Type".toList, "application/json".toList)]
    Body := none, ctx := Context.background }

/-- The document of the account `1` of organisation `2`, with the version
given as a number literal. -/
def accountDoc (version : String) : Json :=
  .obj [("id".toList, .str "1".toList), ("organisation_id".toList, .str "2".toList),
    ("type".toList, .str "accounts".toList), ("version".toList, .num version.toList)]

/-- The untyped value of the account `1` of organisation `2`, with the version
given as a `float64`. -/
def accountTree (version : F64) : GoVal :=
  .map [("id".toList, .str "1".toList), ("organisation_id".toList, .str "2".toList),
    ("type".toList, .str "accounts".toList), ("version".toList, .float version)]

/-- A transport that answers no request: it fails with an error that spells
out the method and the address of the request it was handed. -/
def echoClient (base : Text) : Client :=
  { httpClient := fun r => .error (.other (r.Method ++ ' ' :: r.URL))
    BaseURL := base }

/-! ## Error detection and decimal numbers, in the claims' words -/

/-- The text of a JSON string; `none` for any other value. -/
def Json.text : Json → Option Text
  | .str s => some s
  | _ => none

/-- The strings that the members of an object offer as its error message, in
document order: the values of the members named `error_message` (the way
`encoding/json` names the member of a field: exactly, or without regard to
case) that are strings. -/
def errorMessages (kvs : List (Text × Json)) : List Text :=
  kvs.filterMap fun kv => if foldEq "error_message".toList kv.1 then kv.2.text else none

/-- The error message that can be parsed from a response body: the last of the
strings its members offer, when the body is a JSON object; the empty text when
it offers none, when the document is no object, and when the body is no JSON
document at all. -/
def parsedErrorMessage (text : Text) : Text :=
  match parseJSON text with
  | some (.obj kvs) => (errorMessages kvs).getLastD []
  | _ => []

/-- An integer in decimal. -/
def decimal (n : Int) : Text := (toString n).toList

/-- A slice of slices, `n + 1` levels deep, the innermost one empty. -/
def nestedSlice : Nat → GoVal
  | 0 => .slice []
  | n + 1 => .slice [nestedSlice n]

/-- The type of `nestedSlice n`: `[]bool` under `n` more levels of slice. -/
def nestedSliceType : Nat → GoType
  | 0 => .slice .bool
  | n + 1 => .slice (nestedSliceType n)

/-- The document of `nestedSlice n`: `n + 1` arrays inside one another. -/
def nestedArray : Nat → Json
  | 0 => .arr []
  | n + 1 => .arr [nestedArray n]

/-- An `Account` whose `ID` is the single byte `0xff`, which is no UTF-8. -/
def accountWithBadID : GoVal :=
  .struct [(plain "id", .bytes [0xff]), (plain "organisation_id", .str "2".toList),
    (plain "type", .str "accounts".toList), (omitempty "attributes", .nil),
    (plain "version", .int 0), (omitempty "relationships", .nil)]

/-! ## A document that conforms to a shape, and the value it denotes -/

/-- The member of an object that names field number `i` of a struct (the way
`encoding/json` names the member of a field: exactly, or failing that without
regard to case): its value, `none` when no member names the field. -/
def memberFor (fs : List (Field × GoType)) (kvs : List (Text × Json)) (i : Nat) : Option Json :=
  (kvs.find? fun kv => decide (findField fs kv.1 = some i)).map Prod.snd

/-- Whether no two members of an object name the same field of a struct. -/
def noClash (fs : List (Field × GoType)) (kvs : List (Text × Json)) : Bool :=
  decide ((kvs.filterMap fun kv => findField fs kv.1).Nodup)

/-- A document that can stand in a place that is not decoded (the value of a
member that names no field): its numbers are in the range of `float64`. -/
def Passable : Json → Bool
  | .null => true
  | .bool _ => true
  | .num lit => (literalToFloat lit).isSome
  | .str _ => true
  | .coerced _ => false
  | .arr xs => passElems xs
  | .obj kvs => passMembers kvs
where
  /-- The elements of an array. -/
  passElems : List Json → Bool
    | [] => true
    | x :: xs => Passable x && passElems xs
  /-- The members of an object. -/
  passMembers : List (Text × Json) → Bool
    | [] => true
    | (_, v) :: kvs => Passable v && passMembers kvs

/-- A document conforms to a shape.  The shape is built from `bool`, `int`,
`string`, pointers, slices and structs; `null` fits everywhere; a boolean fits
a `bool`, a string a `string`, an array whose elements fit `t` a slice of `t`,
and whatever fits `t` a pointer to `t`; a number fits an `int` when it is an
integer below `2 ^ 53` in magnitude; an object fits a struct when no two of
its members name the same field, the member that names a field fits the type
of the field, and the members that name no field are `Passable`. -/
def Fits : GoType → Json → Bool
  | .bool, j => match j with | .null => true | .bool _ => true | _ => false
  | .int, j =>
    match j with
    | .null => true
    | .num lit =>
      match literalToInt lit with
      | some n => decide (n.natAbs < 2 ^ 53)
      | none => false
    | _ => false
  | .string, j => match j with | .null => true | .str _ => true | _ => false
  | .iface, _ => false
  | .ptr t, j => match j with | .null => true | _ => Fits t j
  | .slice t, j => match j with | .null => true | .arr xs => xs.all fun x => Fits t x | _ => false
  | .struct fs, j =>
    match j with
    | .null => true
    | .obj kvs =>
      noClash fs kvs && fitsFields fs fs kvs 0
        && kvs.all fun kv => (findField fs kv.1).isSome || Passable kv.2
    | _ => false
where
  /-- The fields `rest`, numbered from `i`, of the struct with fields `all`:
  the member that names a field fits its type. -/
  fitsFields : List (Field × GoType) → List (Field × GoType) → List (Text × Json) → Nat → Bool
    | [], _, _, _ => true
    | (_, t) :: rest, all, kvs, i =>
      (match memberFor all kvs i with
        | some v => Fits t v
        | none => true) && fitsFields rest all kvs (i + 1)

/-- The value of a shape that a document denotes: the boolean, integer or
string itself; nil for `null` in the place of a pointer or a slice, and the
zero value for `null` elsewhere; a pointer to the value; the slice of the
values of the elements; the struct whose fields hold the values of the members
that name them, and the zero value where no member names the field. -/
def valueAs : GoType → Json → GoVal
  | .bool, j => match j with | .bool b => .bool b | _ => .bool false
  | .int, j => match j with | .num lit => .int ((literalToInt lit).getD 0) | _ => .int 0
  | .string, j => match j with | .str s => .str s | _ => .str []
  | .iface, _ => .nil
  | .ptr t, j => match j with | .null => .nil | _ => .ptr (valueAs t j)
  | .slice t, j => match j with | .arr xs => .slice (xs.map fun x => valueAs t x) | _ => .nil
  | .struct fs, j =>
    match j with
    | .obj kvs => .struct (fieldsAs fs fs kvs 0)
    | _ => .struct (GoType.zero.zeroFields fs)
where
  /-- The fields `rest`, numbered from `i`, of the struct with fields `all`. -/
  fieldsAs : List (Field × GoType) → List (Field × GoType) → List (Text × Json) → Nat →
      List (Field × GoVal)
    | [], _, _, _ => []
    | (f, t) :: rest, all, kvs, i =>
      (f, match memberFor all kvs i with
          | some v => valueAs t v
          | none => t.zero) :: fieldsAs rest all kvs (i + 1)

/-! ## Lemmas on the decoder -/

theorem foldEq_self (k : Text) : foldEq k k = true := by
  induction k with
  | nil => rfl
  | cons a as ih => simp [foldEq, foldCharEq, ih]

theorem findField_single (f : Field) (t : GoType) (k : Text) :
    findField [(f, t)] k = if foldEq f.name k then some 0 else none := by
  unfold findField
  by_cases h : f.name = k
  · subst h
    simp [findIndex, foldEq_self]
  · by_cases h2 : foldEq f.name k = true <;> simp [findIndex, h, h2]

theorem decode_string_of_not_str (j : Json) (cur : GoVal) (h : ∀ s, j ≠ .str s) :
    (decode .string j cur).1 = cur := by
  cases j with
  | str s => exact absurd rfl (h s)
  | null => simp [decode, storeNull]
  | bool b => simp [decode, pointee, wrapPtr]
  | num l => simp [decode, pointee, wrapPtr]
  | coerced rs => simp [decode, pointee, wrapPtr]
  | arr xs => simp [decode, pointee, wrapPtr]
  | obj kvs => simp [decode, pointee, wrapPtr]

theorem decode_string_str (s : Text) (cur : GoVal) :
    decode .string (.str s) cur = (.str s, none) := by
  simp [decode, pointee, wrapPtr]

/-- Members after the last string stored into the field leave it alone. -/
theorem decodeMembers_single_keep (f : Field) (kvs : List (Text × Json)) (v : GoVal)
    (h : ∀ kv ∈ kvs, foldEq f.name kv.1 = true → ∀ s, kv.2 ≠ .str s) :
    (decodeMembers [(f, .string)] kvs [(f, v)]).1 = [(f, v)] := by
  induction kvs with
  | nil => simp [decodeMembers]
  | cons kv rest ih =>
    obtain ⟨k, j⟩ := kv
    have hrest : ∀ kv ∈ rest, foldEq f.name kv.1 = true → ∀ s, kv.2 ≠ .str s :=
      fun kv hkv => h kv (List.mem_cons_of_mem _ hkv)
    rw [decodeMembers, findField_single]
    by_cases hk : foldEq f.name k = true
    · have hj := h (k, j) (List.mem_cons_self _ _) hk
      simp only [hk, if_true, setField, fieldType, List.get?, fieldValue]
      rw [decode_string_of_not_str j v hj]
      exact ih hrest
    · simp only [hk, Bool.false_eq_true, if_false]
      exact ih hrest

/-- The member named after the field, with a string value, decides the field
when no later string-valued member matches the field. -/
theorem decodeMembers_single_last (f : Field) (pre post : List (Text × Json)) (s : Text)
    (v : GoVal)
    (h : ∀ kv ∈ post, foldEq f.name kv.1 = true → ∀ s1, kv.2 ≠ .str s1) :
    (decodeMembers [(f, .string)] (pre ++ (f.name, .str s) :: post) [(f, v)]).1
      = [(f, .str s)] := by
  induction pre generalizing v with
  | nil =>
    rw [List.nil_append, decodeMembers, findField_single]
    simp only [foldEq_self, if_true, setField, fieldType, List.get?, fieldValue,
      decode_string_str]
    exact decodeMembers_single_keep f post _ h
  | cons kv rest ih =>
    obtain ⟨k, j⟩ := kv
    rw [List.cons_append, decodeMembers, findField_single]
    by_cases hk : foldEq f.name k = true
    · simp only [hk, if_true, setField, fieldType, List.get?, fieldValue]
      exact ih _
    · simp only [hk, Bool.false_eq_true, if_false]
      exact ih _

/-- What `Do` reads as the error message of a body that is a JSON object. -/
theorem errorMessage_of_object (text : Text) (pre post : List (Text × Json)) (s : Text)
    (hparse : parseJSON text = some (.obj (pre ++ ("error_message".toList, .str s) :: post)))
    (h : ∀ kv ∈ post, foldEq "error_message".toList kv.1 = true → ∀ s1, kv.2 ≠ .str s1) :
    stringOf (firstField (Unmarshal text (.ptr bodyErrorType bodyErrorType.zero)).1) = s := by
  have key := decodeMembers_single_last ⟨"error_message".toList, false⟩ pre post s (.str []) h
  simp only [Unmarshal, hparse, bodyErrorType, decode, pointee, wrapPtr, fieldsOf,
    GoType.zero, GoType.zero.zeroFields] at key ⊢
  rw [key]
  rfl

/-- C1, as the code has it: for every status code and every response body that
is a JSON object with a member `error_message` holding a non-empty string `s`,
where no later member whose name matches `error_message` (exactly or without
regard to case, which is how `encoding/json` matches keys) holds a string,
`Client.Do` returns the error `errors.New(s)` together with the response and
leaves the target alone, whether or not the body has a `data` member and
whatever the target is. -/
theorem do_error_message_wins (c : Client) (cx : Context) (req : Request) (target : Target)
    (resp : HTTPResponse) (text : Text) (pre post : List (Text × Json)) (s : Text)
    (hsend : c.httpClient { req with ctx := cx } = .ok resp)
    (hread : resp.Body = .ok text)
    (hparse : parseJSON text = some (.obj (pre ++ ("error_message".toList, .str s) :: post)))
    (hlast : ∀ kv ∈ post, foldEq "error_message".toList kv.1 = true → ∀ s1, kv.2 ≠ .str s1)
    (hs : s ≠ []) :
    (c.Do (some cx) req target).err = some (.new s)
      ∧ ((c.Do (some cx) req target).err.bind GoError.message) = some s
      ∧ (c.Do (some cx) req target).response = some (newResponse resp)
      ∧ (c.Do (some cx) req target).target = target := by
  have hmsg := errorMessage_of_object text pre post s hparse hlast
  simp only [Client.Do, hsend, hread, hmsg, hs, ne_eq, not_false_eq_true, if_true]
  simp [GoError.message]

/-- C1 at a concrete input: status 200, an error message next to a `data`
member, and an account requested. -/
theorem do_error_message_wins_witness :
    ((clientOf 200 "\x7b\"error_message\":\"boom\",\"data\":\x7b\"id\":\"1\"\x7d\x7d".toList).Do
        (some Context.background) sampleRequest (.ptr accountType accountType.zero)).err
      = some (.new "boom".toList) :=
  (do_error_message_wins
    (clientOf 200 "\x7b\"error_message\":\"boom\",\"data\":\x7b\"id\":\"1\"\x7d\x7d".toList)
    Context.background sampleRequest (.ptr accountType accountType.zero)
    { StatusCode := 200, Header := []
      Body := .ok "\x7b\"error_message\":\"boom\",\"data\":\x7b\"id\":\"1\"\x7d\x7d".toList }
    "\x7b\"error_message\":\"boom\",\"data\":\x7b\"id\":\"1\"\x7d\x7d".toList
    [] [("data".toList, .obj [("id".toList, .str "1".toList)])] "boom".toList
    rfl rfl rfl
    (by
      intro kv hkv hfold
      rw [List.mem_singleton] at hkv
      subst hkv
      exact absurd hfold (by decide))
    (by decide)).1

/-- C1 as stated fails: the body below is a JSON object whose `error_message`
member is the non-empty string `boom`, and `Client.Do` returns a nil error for
it, with or without a target.  The member `Error_Message` matches the field of
`bodyError` without regard to case and is stored after it. -/
theorem do_error_message_overridden :
    parseJSON "\x7b\"error_message\":\"boom\",\"Error_Message\":\"\"\x7d".toList
        = some (.obj [("error_message".toList, .str "boom".toList),
            ("Error_Message".toList, .str [])])
      ∧ ((clientOf 400 "\x7b\"error_message\":\"boom\",\"Error_Message\":\"\"\x7d".toList).Do
          (some Context.background) sampleRequest .none).err = none
      ∧ ((clientOf 400 "\x7b\"error_message\":\"boom\",\"Error_Message\":\"\"\x7d".toList).Do
          (some Context.background) sampleRequest (.ptr accountType accountType.zero)).err
        = none :=
  ⟨rfl, rfl, rfl⟩

/-! ## Building a request -/

theorem TrimLeft_slash (s : Text) : TrimLeft s ['/'] = withoutLeadingSlashes s := by
  induction s with
  | nil => rfl
  | cons c cs ih =>
    by_cases h : c = '/'
    · subst h
      simpa [TrimLeft, withoutLeadingSlashes, List.dropWhile] using ih
    · simp [TrimLeft, withoutLeadingSlashes, List.dropWhile, h, Ne.symm h]

theorem dropWhile_append_singleton {α : Type} (p : α → Bool) (l : List α) (c : α) :
    (l ++ [c]).dropWhile p
      = if (l.dropWhile p).isEmpty then (if p c then [] else [c]) else l.dropWhile p ++ [c] := by
  induction l with
  | nil => cases h : p c <;> simp [List.dropWhile, h]
  | cons a as ih =>
    by_cases h : p a = true
    · simp [List.dropWhile, h, ih]
    · simp [List.dropWhile, h]

theorem TrimRight_slash (s : Text) : TrimRight s ['/'] = withoutTrailingSlashes s := by
  induction s with
  | nil => rfl
  | cons c cs ih =>
    rw [TrimRight, ih]
    unfold withoutTrailingSlashes
    rw [List.reverse_cons, dropWhile_append_singleton]
    cases hr : cs.reverse.dropWhile (fun x => decide (x = '/')) with
    | nil =>
      by_cases hc : c = '/'
      · simp [hc]
      · simp [hc, Ne.symm hc]
    | cons a as =>
      simp only [List.isEmpty_cons, Bool.false_eq_true, if_false, List.reverse_append,
        List.reverse_cons, List.reverse_nil, List.nil_append, List.singleton_append]
      cases hr2 : as.reverse ++ [a] with
      | nil => simp at hr2
      | cons b bs => rfl

/-- C5: the address `createRequest` builds is the base address with all
trailing slashes removed, one slash, and the path with all leading slashes
removed; `createRequest` hands back a request with exactly this address
whenever `http.NewRequest` accepts it; and for the two bases and two paths of
the claim the address is `http://host/v1/foo` in all four combinations. -/
theorem createRequest_address (rt : Runtime) (c : Client) (method url : Text)
    (payload : Option GoVal) (transport : Request → Exchange) :
    c.reqUrl url = withoutTrailingSlashes c.BaseURL ++ ['/'] ++ withoutLeadingSlashes url
      ∧ (c.createRequest rt method url payload).toOption.map Request.URL
          = (if rt.newRequestError method (c.reqUrl url) = none then
              some (withoutTrailingSlashes c.BaseURL ++ ['/'] ++ withoutLeadingSlashes url)
            else none)
      ∧ Client.reqUrl ⟨transport, "http://host/v1".toList⟩ "foo".toList
          = "http://host/v1/foo".toList
      ∧ Client.reqUrl ⟨transport, "http://host/v1".toList⟩ "/foo".toList
          = "http://host/v1/foo".toList
      ∧ Client.reqUrl ⟨transport, "http://host/v1/".toList⟩ "foo".toList
          = "http://host/v1/foo".toList
      ∧ Client.reqUrl ⟨transport, "http://host/v1/".toList⟩ "/foo".toList
          = "http://host/v1/foo".toList := by
  have haddr : c.reqUrl url
      = withoutTrailingSlashes c.BaseURL ++ ['/'] ++ withoutLeadingSlashes url := by
    simp [Client.reqUrl, TrimRight_slash, TrimLeft_slash]
  refine ⟨haddr, ?_, rfl, rfl, rfl, rfl⟩
  cases h : rt.newRequestError method (c.reqUrl url) with
  | none =>
    simp only [Client.createRequest, h, Except.toOption, Option.map, if_true]
    rw [haddr]
  | some e => simp [Client.createRequest, h, Except.toOption]

/-- C10: for a payload whose `json.Marshal` text is `j`, `createRequest`
builds (whenever `http.NewRequest` accepts method and address) a request whose
body is the text `{"data":` followed by `j` and `}`; for a nil payload the
request has no body. -/
theorem createRequest_body (rt : Runtime) (c : Client) (method url : Text) (p : GoVal)
    (j : Text) (h : Marshal p = .ok j) :
    c.createRequest rt method url (some p)
        = (match rt.newRequestError method (c.reqUrl url) with
          | some err => .error err
          | none =>
            .ok { Method := method, URL := c.reqUrl url
                  Header := [("Content-Type".toList, "application/json".toList),
                    ("Date".toList, rt.now)]
                  Body := some ("\x7b\"data\":".toList ++ j ++ "\x7d".toList)
                  ctx := Context.background })
      ∧ c.createRequest rt method url none
        = (match rt.newRequestError method (c.reqUrl url) with
          | some err => .error err
          | none =>
            .ok { Method := method, URL := c.reqUrl url
                  Header := [("Content-Type".toList, "application/json".toList),
                    ("Date".toList, rt.now)]
                  Body := none
                  ctx := Context.background }) := by
  have hbody : Marshal (bodyOf p) = .ok ("\x7b\"data\":".toList ++ j ++ "\x7d".toList) := by
    unfold Marshal at h ⊢
    cases hp : toJson p with
    | none => simp [hp] at h
    | some jp =>
      simp only [hp, Except.ok.injEq] at h
      subst h
      simp [bodyOf, toJson, toJson.fieldsToJson, hp, Json.render, Json.render.renderMembers,
        quote, escapeString, escapeChar]
  constructor
  · simp only [Client.createRequest, hbody]
  · simp only [Client.createRequest]

/-- C10 on the account of `TestClient_createRequest`. -/
theorem createRequest_body_witness :
    Marshal (MakeAccount "1".toList "2".toList)
        = .ok "\x7b\"id\":\"1\",\"organisation_id\":\"2\",\"type\":\"accounts\",\"version\":0\x7d".toList
      ∧ (Client.createRequest strictRuntime (clientOf 200 []) "GET".toList "/foo".toList
            (some (MakeAccount "1".toList "2".toList))).toOption.map Request.Body
          = some (some ("\x7b\"data\":\x7b\"id\":\"1\",\"organisation_id\":\"2\","
              ++ "\"type\":\"accounts\",\"version\":0\x7d\x7d").toList) :=
  ⟨rfl, by
    rw [(createRequest_body strictRuntime (clientOf 200 []) "GET".toList "/foo".toList
      (MakeAccount "1".toList "2".toList)
      "\x7b\"id\":\"1\",\"organisation_id\":\"2\",\"type\":\"accounts\",\"version\":0\x7d".toList
      rfl).1]
    rfl⟩

/-! ## `Client.Do` -/

/-- C6: with a nil context `Client.Do` returns a nil response and the error
`nil context is not allowed`, hands nothing to the transport and leaves the
target alone, for every request and target. -/
theorem do_nil_context (c : Client) (req : Request) (target : Target) :
    (c.Do none req target).response.isNone = true
      ∧ (c.Do none req target).err = some (.new "nil context is not allowed".toList)
      ∧ (c.Do none req target).sent = []
      ∧ (c.Do none req target).target = target :=
  ⟨rfl, rfl, rfl, rfl⟩

/-- C7, as the code has it: once the transport has yielded a response `r`
with a nil error, `Client.Do` returns the `Response` whose embedded
`*http.Response` is `r` itself, so with the status code and the headers of `r`,
whatever happens afterwards (the body cannot be read, the body carries an error
message, the envelope does not decode, or all goes well), and the transport was
called exactly once, with this context. -/
theorem do_keeps_response (c : Client) (cx : Context) (req : Request) (target : Target)
    (resp : HTTPResponse) (hsend : c.httpClient { req with ctx := cx } = .ok resp) :
    (c.Do (some cx) req target).response = some { Response := resp }
      ∧ ((c.Do (some cx) req target).response.map fun r => r.Response.StatusCode)
          = some resp.StatusCode
      ∧ ((c.Do (some cx) req target).response.map fun r => r.Response.Header)
          = some resp.Header
      ∧ (c.Do (some cx) req target).sent = [{ req with ctx := cx }] := by
  have key : (c.Do (some cx) req target).response = some { Response := resp }
      ∧ (c.Do (some cx) req target).sent = [{ req with ctx := cx }] := by
    simp only [Client.Do, hsend]
    cases resp.Body with
    | error e => exact ⟨rfl, rfl⟩
    | ok text =>
      simp only []
      split
      · exact ⟨rfl, rfl⟩
      · cases target <;> exact ⟨rfl, rfl⟩
  refine ⟨key.1, ?_, ?_, key.2⟩
  · rw [key.1]
    rfl
  · rw [key.1]
    rfl

/-- C7 on the four paths: a response with status 404 whose body cannot be
read, a 400 with an error message, a 200 whose body is no JSON, and a 201 with
an account; the headers of the response come back with it. -/
theorem do_keeps_response_witness :
    (Client.Do ⟨fun _ => .ok ⟨404, [("X-Id".toList, "7".toList)],
          .error (.other "unexpected EOF".toList)⟩, []⟩
        (some Context.background) sampleRequest .none).response
        = some ⟨⟨404, [("X-Id".toList, "7".toList)], .error (.other "unexpected EOF".toList)⟩⟩
      ∧ (Client.Do ⟨fun _ => .ok ⟨400, [("X-Id".toList, "8".toList)],
            .ok "\x7b\"error_message\":\"bad id\"\x7d".toList⟩, []⟩
          (some Context.background) sampleRequest (.ptr accountType accountType.zero)).response
        = some ⟨⟨400, [("X-Id".toList, "8".toList)], .ok "\x7b\"error_message\":\"bad id\"\x7d".toList⟩⟩
      ∧ (Client.Do ⟨fun _ => .ok ⟨200, [("X-Id".toList, "9".toList)], .ok "<html>".toList⟩, []⟩
          (some Context.background) sampleRequest (.ptr accountType accountType.zero)).response
        = some ⟨⟨200, [("X-Id".toList, "9".toList)], .ok "<html>".toList⟩⟩
      ∧ ((Client.Do ⟨fun _ => .ok ⟨201, [("X-Id".toList, "10".toList)],
            .ok "\x7b\"data\":\x7b\"id\":\"1\"\x7d\x7d".toList⟩, []⟩
          (some Context.background) sampleRequest
          (.ptr accountType accountType.zero)).response.map fun r => r.Response.StatusCode)
        = some 201 :=
  ⟨(do_keeps_response _ Context.background sampleRequest .none
      ⟨404, [("X-Id".toList, "7".toList)], .error (.other "unexpected EOF".toList)⟩ rfl).1,
    (do_keeps_response _ Context.background sampleRequest (.ptr accountType accountType.zero)
      ⟨400, [("X-Id".toList, "8".toList)], .ok "\x7b\"error_message\":\"bad id\"\x7d".toList⟩ rfl).1,
    (do_keeps_response _ Context.background sampleRequest (.ptr accountType accountType.zero)
      ⟨200, [("X-Id".toList, "9".toList)], .ok "<html>".toList⟩ rfl).1,
    (do_keeps_response _ Context.background sampleRequest (.ptr accountType accountType.zero)
      ⟨201, [("X-Id".toList, "10".toList)], .ok "\x7b\"data\":\x7b\"id\":\"1\"\x7d\x7d".toList⟩ rfl).2.1⟩

/-- C7 as stated fails: when the transport yields a response together with an
error (`http.Client.Do` after a failed `CheckRedirect`: the last response, here
a 302, and the error), `Client.Do` returns the error and a nil `Response`; the
response that was yielded is dropped because an error is returned. -/
theorem do_drops_redirect_response :
    (Client.Do ⟨fun _ => .both ⟨302, [("Location".toList, "/organisation/accounts".toList)],
          .ok []⟩ (.other "Get \"/organisation/accounts\": stopped after 10 redirects".toList),
          "http://localhost:8080/v1".toList⟩
        (some Context.background) sampleRequest (.ptr accountType accountType.zero)).response
        = none
      ∧ (Client.Do ⟨fun _ => .both ⟨302, [("Location".toList, "/organisation/accounts".toList)],
            .ok []⟩ (.other "Get \"/organisation/accounts\": stopped after 10 redirects".toList),
            "http://localhost:8080/v1".toList⟩
          (some Context.background) sampleRequest (.ptr accountType accountType.zero)).err
        = some (.other "Get \"/organisation/accounts\": stopped after 10 redirects".toList) :=
  ⟨rfl, rfl⟩

/-- The `err` that the unpacking block leaves in the function body is the
error of decoding the envelope; the error of the decode into the target never
reaches it. -/
theorem unpack_err (text : Text) (target : Target) :
    (unpack text target).err = (Unmarshal text (.ptr bodyType bodyType.zero)).2 := by
  cases h : (Unmarshal text (.ptr bodyType bodyType.zero)).2 with
  | some e => simp only [unpack, h]
  | none =>
    simp only [unpack, h]
    cases Marshal (firstField (Unmarshal text (.ptr bodyType bodyType.zero)).1) <;> rfl

/-- C4 fails on the code: whatever the text and the target, the error that the
unpacking block hands to `return response, err` is the error of decoding the
envelope, not the error of the decode into the target.  The body
`{"data":"oops"}` has no error message and its `data`, a string, does not
decode into an `Account` (`json.Unmarshal` reports the type error, and the
block holds it in its own `err`), yet `Client.Do` returns a nil error.  So
does it for `{"data":{"version":"one"}}`, a field of the wrong type. -/
theorem do_drops_decode_error :
    (∀ (text : Text) (target : Target),
        (unpack text target).err = (Unmarshal text (.ptr bodyType bodyType.zero)).2)
      ∧ (Unmarshal "\"oops\"".toList (.ptr accountType accountType.zero)).2
        = some (.unmarshalType "string".toList)
      ∧ (unpack "\x7b\"data\":\"oops\"\x7d".toList (.ptr accountType accountType.zero)).blockErr
        = some (.unmarshalType "string".toList)
      ∧ ((clientOf 200 "\x7b\"data\":\"oops\"\x7d".toList).Do (some Context.background) sampleRequest
          (.ptr accountType accountType.zero)).err = none
      ∧ (Unmarshal "\x7b\"version\":\"one\"\x7d".toList (.ptr accountType accountType.zero)).2
        = some (.unmarshalType "string".toList)
      ∧ ((clientOf 200 "\x7b\"data\":\x7b\"version\":\"one\"\x7d\x7d".toList).Do (some Context.background)
          sampleRequest (.ptr accountType accountType.zero)).err = none :=
  ⟨unpack_err, rfl, rfl, rfl, rfl, rfl⟩

/-! ## Failures while building a request -/

/-- C8 fails on the code: `json.Marshal` fails on the payload NaN, and
`createRequest` returns a request, with an empty body, and no error. -/
theorem createRequest_drops_marshal_error :
    Marshal (bodyOf (.float .nan)) = .error .unsupportedValue
      ∧ (Client.createRequest strictRuntime (clientOf 200 []) "POST".toList
            accountsBaseEndpoint (some (.float .nan))).toOption.map Request.Body
          = some (some [])
      ∧ (Client.POST strictRuntime (clientOf 200 []) accountsBaseEndpoint
            (some (.float .nan))).toOption.map Request.Body
          = some (some []) :=
  ⟨rfl, rfl, rfl⟩

/-- C9 fails on the code: the id below has a line feed in it, `http.NewRequest`
turns the address down, and `ByID` and `Delete` return nil for everything, the
error included; `Create` does the same for a client whose base address has a
line feed in it.  `List`, on the same failure, returns the error. -/
theorem build_failure_is_dropped (ctx : Option Context) (account : GoVal) :
    (Client.GET strictRuntime (clientOf 200 []) (accountsBaseEndpoint ++ "/1\n".toList)
          none).toOption.isNone = true
      ∧ (AccountsService.ByID strictRuntime ⟨clientOf 200 []⟩ ctx "1\n".toList).2.2 = none
      ∧ ((AccountsService.ByID strictRuntime ⟨clientOf 200 []⟩ ctx "1\n".toList).2.1).isNone
          = true
      ∧ (AccountsService.Delete strictRuntime ⟨clientOf 200 []⟩ ctx "1\n".toList 0).2 = none
      ∧ (AccountsService.Create strictRuntime ⟨⟨fun _ => .error (.other []), "http://a\nb".toList⟩⟩
            ctx account).2.2 = none
      ∧ (AccountsService.List strictRuntime ⟨clientOf 200 []⟩ ctx (some ⟨"1\n".toList, 1⟩)).2.2
          = some (.other "net/url: invalid control character in URL".toList) :=
  ⟨rfl, rfl, rfl, rfl, rfl, rfl⟩

/-! ## Decimal digits -/

theorem digitChar_facts :
    ∀ d, d < 10 → isDigit (Char.ofNat (48 + d)) = true ∧ (Char.ofNat (48 + d)).toNat = 48 + d
      ∧ (Char.ofNat (48 + d) = '0' ↔ d = 0) ∧ Char.ofNat (48 + d) ≠ '-'
      ∧ Char.ofNat (48 + d) ≠ '.' ∧ Char.ofNat (48 + d) ≠ 'e' ∧ Char.ofNat (48 + d) ≠ 'E' := by
  decide

theorem isDigit_digitChar (n : Nat) : isDigit (digitChar n) = true :=
  (digitChar_facts (n % 10) (Nat.mod_lt _ (by decide))).1

theorem toNat_digitChar (n : Nat) : (digitChar n).toNat - 48 = n % 10 := by
  have h := (digitChar_facts (n % 10) (Nat.mod_lt _ (by decide))).2.1
  unfold digitChar
  omega

theorem natDigitsAux_append (fuel n : Nat) (acc : Text) :
    natDigitsAux fuel n acc = natDigitsAux fuel n [] ++ acc := by
  induction fuel generalizing n acc with
  | zero => simp [natDigitsAux]
  | succ k ih =>
    simp only [natDigitsAux]
    split
    · simp
    · rw [ih (n / 10) (digitChar n :: acc), ih (n / 10) [digitChar n]]
      simp

theorem natDigitsAux_fuel (f1 f2 n : Nat) (acc : Text) (h1 : n < f1) (h2 : n < f2) :
    natDigitsAux f1 n acc = natDigitsAux f2 n acc := by
  induction f1 generalizing f2 n acc with
  | zero => omega
  | succ k ih =>
    cases f2 with
    | zero => omega
    | succ k2 =>
      simp only [natDigitsAux]
      split
      · rfl
      · exact ih k2 (n / 10) _ (by omega) (by omega)

theorem natDigits_small (n : Nat) (h : n < 10) : natDigits n = [digitChar n] := by
  simp [natDigits, natDigitsAux, h]

theorem natDigits_step (n : Nat) (h : 10 ≤ n) :
    natDigits n = natDigits (n / 10) ++ [digitChar n] := by
  have h1 : ¬ n < 10 := by omega
  have h3 : natDigits n = natDigitsAux n (n / 10) [digitChar n] := by
    simp [natDigits, natDigitsAux, h1]
  rw [h3, natDigitsAux_append, natDigitsAux_fuel n (n / 10 + 1) (n / 10) [] (by omega) (by omega)]
  rfl

theorem digitsValue_natDigits (n : Nat) (rest : Text) (a : Nat) :
    digitsValue (natDigits n ++ rest) a
      = digitsValue rest (a * 10 ^ (natDigits n).length + n) := by
  induction n using Nat.strong_induction_on generalizing rest a with
  | _ n ih =>
    by_cases h : n < 10
    · rw [natDigits_small n h]
      simp [digitsValue, isDigit_digitChar, toNat_digitChar, Nat.mod_eq_of_lt h]
    · have h10 : 10 ≤ n := by omega
      rw [natDigits_step n h10, List.append_assoc, ih (n / 10) (by omega)]
      simp only [List.singleton_append, digitsValue, isDigit_digitChar, if_true,
        toNat_digitChar, List.length_append, List.length_singleton, pow_succ]
      congr 1
      have := Nat.div_add_mod n 10
      nlinarith [this]

theorem natDigits_value (n : Nat) : digitsValue (natDigits n) 0 = some n := by
  have h := digitsValue_natDigits n [] 0
  simpa [digitsValue] using h

/-- The digits of a number are digits, and the first is not `0` unless the
number is zero. -/
theorem natDigits_shape (n : Nat) :
    ∃ c cs, natDigits n = c :: cs ∧ isDigit c = true ∧ (c = '0' → n = 0)
      ∧ ∀ x ∈ cs, isDigit x = true := by
  induction n using Nat.strong_induction_on with
  | _ n ih =>
    by_cases h : n < 10
    · refine ⟨digitChar n, [], natDigits_small n h, isDigit_digitChar n, ?_, by simp⟩
      intro hc
      have h1 := (digitChar_facts (n % 10) (Nat.mod_lt _ (by decide))).2.2.1
      unfold digitChar at hc
      have := h1.mp hc
      omega
    · have h10 : 10 ≤ n := by omega
      obtain ⟨c, cs, hcs, hc, hz, hall⟩ := ih (n / 10) (by omega)
      refine ⟨c, cs ++ [digitChar n], ?_, hc, ?_, ?_⟩
      · rw [natDigits_step n h10, hcs]; rfl
      · intro h0
        have := hz h0
        omega
      · intro x hx
        rcases List.mem_append.mp hx with h1 | h1
        · exact hall x h1
        · rw [List.mem_singleton] at h1
          rw [h1]
          exact isDigit_digitChar n

theorem spanDigits_append (xs rest : Text) (hx : ∀ x ∈ xs, isDigit x = true)
    (hrest : EndsDigits rest) : spanDigits (xs ++ rest) = (xs, rest) := by
  induction xs with
  | nil =>
    cases rest with
    | nil => rfl
    | cons d r => simp [spanDigits, hrest d r rfl]
  | cons x xs ih =>
    have := ih (fun y hy => hx y (List.mem_cons_of_mem _ hy))
    simp [spanDigits, hx x (List.mem_cons_self _ _), this]

theorem endsDigits_nil : EndsDigits [] := by
  intro d r h
  cases h

theorem natDigits_head_ne_minus (n : Nat) (ds : Text) : natDigits n ≠ '-' :: ds := by
  obtain ⟨c, cs, hcs, hc, _, _⟩ := natDigits_shape n
  intro h
  rw [hcs] at h
  injection h with h1 _
  subst h1
  exact absurd hc (by decide)

theorem natDigits_ne_nil (n : Nat) : natDigits n ≠ [] := by
  obtain ⟨c, cs, hcs, _⟩ := natDigits_shape n
  simp [hcs]

/-- An integer that fits in 64 bits reads back from its decimal text. -/
theorem literalToInt_intDigits (n : Int) (hlo : -(2 : Int) ^ 63 ≤ n) (hhi : n < (2 : Int) ^ 63) :
    literalToInt (intDigits n) = some n := by
  unfold intDigits
  by_cases hn : n < 0
  · simp only [hn, if_true, literalToInt, natDigits_ne_nil, if_false, natDigits_value]
    have h1 : n.natAbs ≤ 2 ^ 63 := by omega
    simp only [h1, if_true, Option.some.injEq]
    omega
  · simp only [hn, if_false]
    unfold literalToInt
    split
    · rename_i h
      exact absurd h (natDigits_ne_nil _)
    · rename_i ds h
      exact absurd h (natDigits_head_ne_minus _ _)
    · simp only [natDigits_value]
      have h1 : n.natAbs < 2 ^ 63 := by omega
      simp only [h1, if_true, Option.some.injEq]
      omega

theorem stripTwos_spec (fuel m : Nat) (e : Int) (hm : m ≠ 0) :
    (stripTwos fuel m e).1 ≠ 0 ∧ e ≤ (stripTwos fuel m e).2
      ∧ (stripTwos fuel m e).1 * 2 ^ ((stripTwos fuel m e).2 - e).toNat = m := by
  induction fuel generalizing m e with
  | zero => simp [stripTwos, hm]
  | succ k ih =>
    simp only [stripTwos, hm, if_false]
    split
    · rename_i h2
      have hm2 : m / 2 ≠ 0 := by omega
      obtain ⟨h1, h3, h4⟩ := ih (m / 2) (e + 1) hm2
      refine ⟨h1, by omega, ?_⟩
      have he : ((stripTwos k (m / 2) (e + 1)).2 - e).toNat
          = ((stripTwos k (m / 2) (e + 1)).2 - (e + 1)).toNat + 1 := by omega
      rw [he, pow_succ, ← Nat.mul_assoc, h4]
      omega
    · simp [hm]

/-- An integer below `2 ^ 53` in magnitude passes through `float64` unharmed:
its decimal text reads as a `float64` that is written as the same text. -/
theorem float_intDigits (n : Int) (h : n.natAbs < 2 ^ 53) :
    ∃ f, literalToFloat (intDigits n) = some f ∧ formatFloat f = some (intDigits n) := by
  have h : n.natAbs < 9007199254740992 := by simpa using h
  have hspan : spanDigits (natDigits n.natAbs) = (natDigits n.natAbs, []) := by
    obtain ⟨c, cs, hcs, hc, _, hall⟩ := natDigits_shape n.natAbs
    have := spanDigits_append (natDigits n.natAbs) [] (by
      intro x hx
      rw [hcs] at hx
      rcases List.mem_cons.mp hx with h1 | h1
      · rw [h1]; exact hc
      · exact hall x h1) endsDigits_nil
    simpa using this
  by_cases h0 : n.natAbs = 0
  · have hn : n = 0 := by omega
    subst hn
    exact ⟨.finite false 0 0, by rfl, by rfl⟩
  · obtain ⟨hs1, hs2, hs3⟩ := stripTwos_spec 64 n.natAbs 0 h0
    by_cases hn : n < 0
    · refine ⟨.finite true (stripTwos 64 n.natAbs 0).1 (stripTwos 64 n.natAbs 0).2, ?_, ?_⟩
      · simp [intDigits, hn, literalToFloat, hspan, natDigits_value, exponentValue,
          decimalToFloat, h0, h]
      · simp only [Int.sub_zero] at hs3
        simp [intDigits, hn, formatFloat, hs1, hs2, hs3, h]
    · refine ⟨.finite false (stripTwos 64 n.natAbs 0).1 (stripTwos 64 n.natAbs 0).2, ?_, ?_⟩
      · obtain ⟨c, cs, hcs, hc, _, _⟩ := natDigits_shape n.natAbs
        have hc2 : c ≠ '-' := by
          intro hc3
          subst hc3
          exact absurd hc (by decide)
        simp only [intDigits, hn, if_false, literalToFloat]
        have hneg : (match natDigits n.natAbs with | '-' :: _ => true | _ => false) = false := by
          rw [hcs]
          split
          · rename_i heq
            injection heq with h1 _
            exact absurd h1 hc2
          · rfl
        have hbody : (match natDigits n.natAbs with | '-' :: r => r | _ => natDigits n.natAbs)
            = natDigits n.natAbs := by
          split
          · rename_i r heq
            exact absurd heq (natDigits_head_ne_minus _ _)
          · rfl
        simp [hneg, hbody, hspan, natDigits_value, exponentValue, decimalToFloat, h0, h]
      · simp only [Int.sub_zero] at hs3
        simp [intDigits, hn, formatFloat, hs1, hs2, hs3, h]

/-! ## The scanner reads back what the encoder writes -/

theorem hexVal_hexDigit : ∀ d, d < 16 → hexVal (hexDigit d) = some d := by decide

theorem getu4_escape (k : Nat) (hk : k < 256) (rest : Text) :
    getu4 ('0' :: '0' :: hexDigit (k / 16) :: hexDigit (k % 16) :: rest) = some (k, rest) := by
  have h1 := hexVal_hexDigit (k / 16) (by omega)
  have h2 := hexVal_hexDigit (k % 16) (by omega)
  have h0 : hexVal '0' = some 0 := by decide
  simp only [getu4, h0, h1, h2]
  congr 2
  omega

theorem getu4_line_separator (k : Nat) (hk : k = 0x2028 ∨ k = 0x2029) (rest : Text) :
    getu4 ('2' :: '0' :: '2' :: hexDigit (k % 16) :: rest) = some (k, rest) := by
  rcases hk with h | h <;> subst h <;> rfl

theorem decodeEscape_plain (k : Nat) (hk : k < 0xD800) (rest : Text) :
    decodeEscape k rest = (Char.ofNat k, rest) := by
  have : ¬ (0xD800 ≤ k ∧ k < 0xE000) := by omega
  simp only [decodeEscape, this, if_false]

/-- One character of a string, read back. -/
theorem scanString_escapeChar (c : Char) (n : Nat) (tail : Text) :
    scanString (n + 1) (escapeChar c ++ tail)
      = match scanString n tail with
        | some (s, r) => some (c :: s, r)
        | none => none := by
  unfold escapeChar
  split
  · rename_i h; subst h; rfl
  split
  · rename_i h; subst h; rfl
  split
  · rename_i h; subst h; rfl
  split
  · rename_i h; subst h; rfl
  split
  · rename_i h; subst h; rfl
  split
  · rename_i h1 h2 h3 h4 h5 h6
    have hk : c.toNat < 256 := by
      rcases h6 with h | h | h | h
      · omega
      · subst h; decide
      · subst h; decide
      · subst h; decide
    simp only [List.cons_append, List.nil_append, scanString, if_true, List.append_eq,
      getu4_escape c.toNat hk, decodeEscape_plain c.toNat (by omega), Char.ofNat_toNat]
  split
  · rename_i h1 h2 h3 h4 h5 h6 h7
    have hk : c.toNat < 0xD800 := by omega
    simp only [List.cons_append, List.nil_append, scanString, if_true, List.append_eq,
      getu4_line_separator c.toNat h7, decodeEscape_plain c.toNat hk, Char.ofNat_toNat]
  · rename_i h1 h2 h3 h4 h5 h6 h7
    have h8 : ¬ c.toNat < 0x20 := fun h => h6 (Or.inl h)
    simp only [List.singleton_append]
    rw [scanString]
    · simp only [h8, if_false]
    all_goals (intros; simp_all)

theorem length_escapeChar_pos (c : Char) : 0 < (escapeChar c).length := by
  unfold escapeChar
  repeat' split
  all_goals simp

theorem length_le_escapeString (s : Text) : s.length ≤ (escapeString s).length := by
  induction s with
  | nil => simp [escapeString]
  | cons c cs ih =>
    have := length_escapeChar_pos c
    simp only [escapeString, List.length_cons, List.length_append]
    omega

/-- A string literal, read back. -/
theorem scanString_escapeString (s : Text) (fuel : Nat) (rest : Text) (h : s.length < fuel) :
    scanString fuel (escapeString s ++ '"' :: rest) = some (s, rest) := by
  induction s generalizing fuel with
  | nil =>
    cases fuel with
    | zero => omega
    | succ n => simp [escapeString, scanString]
  | cons c cs ih =>
    cases fuel with
    | zero => omega
    | succ n =>
      have h1 : cs.length < n := by simpa using h
      rw [escapeString, List.append_assoc, scanString_escapeChar, ih n h1]

theorem scanString_quote (s rest : Text) :
    scanString ((escapeString s ++ '"' :: rest).length + 1) (escapeString s ++ '"' :: rest)
      = some (s, rest) := by
  apply scanString_escapeString
  have := length_le_escapeString s
  simp only [List.length_append, List.length_cons]
  omega

theorem skipWS_cons (c : Char) (cs : Text) (h : isSpace c = false) :
    skipWS (c :: cs) = c :: cs := by
  simp [skipWS, h]

theorem stops_endsDigits (rest : Text) (h : Stops rest) : EndsDigits rest := by
  intro d r hd
  rcases h with h | ⟨r1, h | h | h⟩
  · rw [h] at hd; cases hd
  all_goals
    rw [h] at hd
    injection hd with h1 _
    rw [← h1]
    decide

theorem scanFraction_stops (rest : Text) (h : Stops rest) : scanFraction rest = some ([], rest) := by
  rcases h with h | ⟨r1, h | h | h⟩ <;> subst h <;> rfl

theorem scanExponent_stops (rest : Text) (h : Stops rest) : scanExponent rest = some ([], rest) := by
  rcases h with h | ⟨r1, h | h | h⟩ <;> subst h <;> rfl

theorem scanIntPart_natDigits (m : Nat) (rest : Text) (h : EndsDigits rest) :
    scanIntPart (natDigits m ++ rest) = some (natDigits m, rest) := by
  obtain ⟨c, cs, hcs, hc, hz, hall⟩ := natDigits_shape m
  rw [hcs, List.cons_append]
  unfold scanIntPart
  by_cases h0 : c = '0'
  · have hm := hz h0
    subst hm
    have h1 : natDigits 0 = ['0'] := rfl
    rw [h1] at hcs
    injection hcs with _ h2
    subst h2
    simp [h0]
  · simp only [h0, if_false, hc, if_true, spanDigits_append cs rest hall h]

/-- The text of a decimal integer begins with a digit or a minus sign. -/
theorem intDigits_head (n : Int) :
    ∃ c cs, intDigits n = c :: cs ∧ (isDigit c = true ∨ c = '-') := by
  unfold intDigits
  by_cases hn : n < 0
  · exact ⟨'-', natDigits n.natAbs, by simp [hn], Or.inr rfl⟩
  · obtain ⟨c, cs, hcs, hc, _, _⟩ := natDigits_shape n.natAbs
    exact ⟨c, cs, by simp [hn, hcs], Or.inl hc⟩

theorem isSpace_false_of_digit (c : Char) (hc : isDigit c = true ∨ c = '-') :
    isSpace c = false := by
  cases hsp : isSpace c with
  | false => rfl
  | true =>
    exfalso
    simp only [isSpace, Bool.or_eq_true, decide_eq_true_eq] at hsp
    rcases hsp with ((h | h) | h) | h <;> subst h <;> revert hc <;> decide

/-- The digits of a natural number are a number literal. -/
theorem numLit_natDigits (sign : Text) (hs : sign = [] ∨ sign = ['-']) (m : Nat) :
    NumLit (sign ++ natDigits m) := by
  obtain ⟨c, cs, hcs, hc, hz, hall⟩ := natDigits_shape m
  refine ⟨sign, natDigits m, [], [], by simp, hs, ?_, Or.inl rfl, Or.inl rfl⟩
  by_cases h0 : c = '0'
  · have hm := hz h0
    subst hm
    exact Or.inl rfl
  · exact Or.inr ⟨c, cs, hcs, hc, h0, hall⟩

/-- The decimal text of an integer is a number literal. -/
theorem numLit_intDigits (n : Int) : NumLit (intDigits n) := by
  unfold intDigits
  by_cases hn : n < 0
  · simp only [hn, if_true]
    exact numLit_natDigits ['-'] (Or.inr rfl) _
  · simp only [hn, if_false]
    exact numLit_natDigits [] (Or.inl rfl) _

/-- A number literal begins with a digit or a minus sign. -/
theorem numLit_head (lit : Text) (h : NumLit lit) :
    ∃ c cs, lit = c :: cs ∧ (isDigit c = true ∨ c = '-') := by
  obtain ⟨sign, ip, fp, ep, hlit, hsign, hip, _, _⟩ := h
  subst hlit
  rcases hsign with h | h <;> subst h
  · rcases hip with h | ⟨d, ds, h, hd, _, _⟩ <;> subst h
    · exact ⟨'0', _, rfl, Or.inl (by decide)⟩
    · exact ⟨d, _, rfl, Or.inl hd⟩
  · exact ⟨'-', _, rfl, Or.inr rfl⟩

theorem endsDigits_of_head (c : Char) (r : Text) (h : isDigit c = false) :
    EndsDigits (c :: r) := by
  intro d r1 hd
  injection hd with h1 _
  rw [← h1]
  exact h

/-- What follows the digits of a number literal: fraction, exponent and the
rest end the digits. -/
theorem endsDigits_tail (fp ep rest : Text)
    (hfp : fp = [] ∨ ∃ ds, fp = '.' :: ds ∧ ds ≠ [] ∧ AllDigits ds)
    (hep : ep = [] ∨ ∃ s ds, ep = 'e' :: s :: ds ∧ (s = '+' ∨ s = '-') ∧ ds ≠ [] ∧ AllDigits ds)
    (h : Stops rest) : EndsDigits (fp ++ (ep ++ rest)) := by
  rcases hfp with h1 | ⟨ds, h1, _, _⟩ <;> subst h1
  · rcases hep with h2 | ⟨s, ds, h2, _, _, _⟩ <;> subst h2
    · exact stops_endsDigits rest h
    · exact endsDigits_of_head _ _ (by decide)
  · exact endsDigits_of_head _ _ (by decide)

theorem scanExponent_lit (ep rest : Text)
    (hep : ep = [] ∨ ∃ s ds, ep = 'e' :: s :: ds ∧ (s = '+' ∨ s = '-') ∧ ds ≠ [] ∧ AllDigits ds)
    (h : Stops rest) : scanExponent (ep ++ rest) = some (ep, rest) := by
  rcases hep with h2 | ⟨s, ds, h2, hs, hne, hall⟩ <;> subst h2
  · exact scanExponent_stops rest h
  · have hsp := spanDigits_append ds rest hall (stops_endsDigits rest h)
    rcases hs with hs | hs <;> subst hs <;>
      simp [scanExponent, hsp, hne]

theorem scanFraction_lit (fp ep rest : Text)
    (hfp : fp = [] ∨ ∃ ds, fp = '.' :: ds ∧ ds ≠ [] ∧ AllDigits ds)
    (hep : ep = [] ∨ ∃ s ds, ep = 'e' :: s :: ds ∧ (s = '+' ∨ s = '-') ∧ ds ≠ [] ∧ AllDigits ds)
    (h : Stops rest) : scanFraction (fp ++ (ep ++ rest)) = some (fp, ep ++ rest) := by
  rcases hfp with h1 | ⟨ds, h1, hne, hall⟩ <;> subst h1
  · rcases hep with h2 | ⟨s, ds, h2, _, _, _⟩ <;> subst h2
    · exact scanFraction_stops rest h
    · rfl
  · have hsp := spanDigits_append ds (ep ++ rest) hall
      (endsDigits_tail [] ep rest (Or.inl rfl) hep h)
    simp [scanFraction, hsp, hne]

theorem scanIntPart_lit (ip tail : Text)
    (hip : ip = ['0'] ∨ ∃ d ds, ip = d :: ds ∧ isDigit d = true ∧ d ≠ '0' ∧ AllDigits ds)
    (h : EndsDigits tail) : scanIntPart (ip ++ tail) = some (ip, tail) := by
  rcases hip with h1 | ⟨d, ds, h1, hd, h0, hall⟩ <;> subst h1
  · rfl
  · simp only [List.cons_append, scanIntPart, h0, if_false, hd, if_true,
      spanDigits_append ds tail hall h]

/-- A number literal, read back. -/
theorem scanNumber_numLit (lit rest : Text) (hl : NumLit lit) (h : Stops rest) :
    scanNumber (lit ++ rest) = some (lit, rest) := by
  obtain ⟨sign, ip, fp, ep, hlit, hsign, hip, hfp, hep⟩ := hl
  subst hlit
  have h1 := scanIntPart_lit ip (fp ++ (ep ++ rest)) hip (endsDigits_tail fp ep rest hfp hep h)
  have h2 := scanFraction_lit fp ep rest hfp hep h
  have h3 := scanExponent_lit ep rest hep h
  have htext : sign ++ (ip ++ (fp ++ ep)) ++ rest = sign ++ (ip ++ (fp ++ (ep ++ rest))) := by
    simp
  rw [htext]
  rcases hsign with hs | hs <;> subst hs
  · rcases hip with h4 | ⟨d, ds, h4, hd, _, _⟩ <;> subst h4
    · simp only [List.nil_append, List.cons_append] at h1 ⊢
      simp [scanNumber, h1, h2, h3]
    · have hd2 : d ≠ '-' := by intro hcd; subst hcd; revert hd; decide
      simp only [List.nil_append, List.cons_append] at h1 ⊢
      simp [scanNumber, hd2, h1, h2, h3]
  · simp [scanNumber, h1, h2, h3]

/-- A decimal integer, read back as a number literal. -/
theorem scanNumber_intDigits (n : Int) (rest : Text) (h : Stops rest) :
    scanNumber (intDigits n ++ rest) = some (intDigits n, rest) :=
  scanNumber_numLit _ rest (numLit_intDigits n) h

theorem parseValue_number (lit : Text) (hl : NumLit lit) (fuel room : Nat) (rest : Text)
    (h : Stops rest) :
    parseValue (fuel + 1) room (lit ++ rest) = some (.num lit, rest) := by
  obtain ⟨c, cs, hcs, hc⟩ := numLit_head lit hl
  have hscan := scanNumber_numLit lit rest hl h
  rw [hcs, List.cons_append] at hscan ⊢
  have hsp : isSpace c = false := isSpace_false_of_digit c hc
  have h1 : c ≠ '{' := by intro hcd; subst hcd; revert hc; decide
  have h2 : c ≠ '[' := by intro hcd; subst hcd; revert hc; decide
  have h3 : c ≠ '"' := by intro hcd; subst hcd; revert hc; decide
  have h4 : c ≠ 't' := by intro hcd; subst hcd; revert hc; decide
  have h5 : c ≠ 'f' := by intro hcd; subst hcd; revert hc; decide
  have h6 : c ≠ 'n' := by intro hcd; subst hcd; revert hc; decide
  rw [parseValue, skipWS_cons c _ hsp]
  simp only [h1, h2, h3, h4, h5, h6, if_false, hscan]

theorem render_null : Json.render .null = ['n', 'u', 'l', 'l'] := rfl
theorem render_true : Json.render (.bool true) = ['t', 'r', 'u', 'e'] := rfl
theorem render_false : Json.render (.bool false) = ['f', 'a', 'l', 's', 'e'] := rfl

/-- The text of a document begins with a character that is neither white
space nor a closing bracket. -/
theorem render_head (J : Json) (h : J.Canon) :
    ∃ c tl, J.render = c :: tl ∧ isSpace c = false ∧ c ≠ ']' := by
  cases J with
  | null => exact ⟨'n', _, render_null, by decide, by decide⟩
  | bool b =>
    cases b
    · exact ⟨'f', _, render_false, by decide, by decide⟩
    · exact ⟨'t', _, render_true, by decide, by decide⟩
  | num lit =>
    obtain ⟨c, cs, hcs, hc⟩ := numLit_head lit h
    refine ⟨c, cs, by rw [Json.render, hcs], isSpace_false_of_digit c hc, ?_⟩
    intro hcd; subst hcd; revert hc; decide
  | str s => exact ⟨'"', _, rfl, by decide, by decide⟩
  | coerced rs => exact absurd h (by simp [Json.Canon])
  | arr xs => exact ⟨'[', _, rfl, by decide, by decide⟩
  | obj kvs => exact ⟨'{', _, rfl, by decide, by decide⟩

theorem stops_comma (r : Text) : Stops (',' :: r) := Or.inr ⟨r, Or.inl rfl⟩
theorem stops_bracket (r : Text) : Stops (']' :: r) := Or.inr ⟨r, Or.inr (Or.inl rfl)⟩
theorem stops_brace (r : Text) : Stops ('}' :: r) := Or.inr ⟨r, Or.inr (Or.inr rfl)⟩

mutual
/-- The scanner reads a document back from its text, as long as the document
is not nested deeper than the scanner has room for. -/
theorem parseValue_render : ∀ (J : Json), J.Canon → ∀ (fuel room : Nat) (rest : Text),
    J.size ≤ fuel → J.depth ≤ room → Stops rest →
    parseValue fuel room (J.render ++ rest) = some (J, rest)
  | .null, _, fuel, room, rest, hf, _, _ => by
    cases fuel with
    | zero => simp [Json.size] at hf
    | succ f => simp [render_null, parseValue, skipWS, isSpace]
  | .bool true, _, fuel, room, rest, hf, _, _ => by
    cases fuel with
    | zero => simp [Json.size] at hf
    | succ f => simp [render_true, parseValue, skipWS, isSpace]
  | .bool false, _, fuel, room, rest, hf, _, _ => by
    cases fuel with
    | zero => simp [Json.size] at hf
    | succ f => simp [render_false, parseValue, skipWS, isSpace]
  | .num lit, hc, fuel, room, rest, hf, _, hs => by
    cases fuel with
    | zero => simp [Json.size] at hf
    | succ f => exact parseValue_number lit hc f room rest hs
  | .str s, _, fuel, room, rest, hf, _, _ => by
    cases fuel with
    | zero => simp [Json.size] at hf
    | succ f =>
      have htext : (Json.str s).render ++ rest = '"' :: (escapeString s ++ '"' :: rest) := by
        simp [Json.render, quote]
      have h := scanString_quote s rest
      rw [htext, parseValue, skipWS_cons '"' _ (by decide)]
      simp only [Char.reduceEq, if_false, if_true]
      rw [h]
  | .coerced rs, hc, _, _, _, _, _, _ => absurd hc (by simp [Json.Canon])
  | .arr [], _, fuel, room, rest, hf, hd, _ => by
    cases fuel with
    | zero => simp [Json.size] at hf
    | succ f =>
      cases room with
      | zero => simp [Json.depth] at hd
      | succ r => simp [Json.render, Json.render.renderElems, parseValue, skipWS, isSpace]
  | .arr (x :: xs), hc, fuel, room, rest, hf, hd, _ => by
    cases fuel with
    | zero => simp [Json.size] at hf
    | succ f =>
      cases room with
      | zero => simp [Json.depth] at hd
      | succ r =>
        have hf2 : Json.size.sizeElems (x :: xs) ≤ f := by
          simp only [Json.size] at hf
          omega
        have hd2 : Json.depth.depthElems (x :: xs) ≤ r := by
          simp only [Json.depth] at hd
          omega
        have ih := parseElems_render (x :: xs) (by simp) hc f r rest hf2 hd2
        have hx : x.Canon := hc.1
        obtain ⟨c, tl, hr, hsp, hne⟩ := render_head x hx
        have hhead : ∃ tl2, Json.render.renderElems (x :: xs) ++ ']' :: rest = c :: tl2 := by
          cases xs with
          | nil => exact ⟨tl ++ ']' :: rest, by simp [Json.render.renderElems, hr]⟩
          | cons y ys =>
            exact ⟨tl ++ ',' :: (Json.render.renderElems (y :: ys) ++ ']' :: rest), by
              simp [Json.render.renderElems, hr]⟩
        obtain ⟨tl2, htl2⟩ := hhead
        have htext : (Json.arr (x :: xs)).render ++ rest
            = '[' :: (Json.render.renderElems (x :: xs) ++ ']' :: rest) := by
          simp [Json.render]
        rw [htext, htl2, parseValue, skipWS_cons '[' _ (by decide)]
        rw [htl2] at ih
        simp only [Char.reduceEq, if_false, if_true, skipWS_cons c tl2 hsp]
        split
        · rename_i heq
          injection heq with e1 _
          exact absurd e1 hne
        · simp [ih]
  | .obj [], _, fuel, room, rest, hf, hd, _ => by
    cases fuel with
    | zero => simp [Json.size] at hf
    | succ f =>
      cases room with
      | zero => simp [Json.depth] at hd
      | succ r => simp [Json.render, Json.render.renderMembers, parseValue, skipWS, isSpace]
  | .obj (kv :: kvs), hc, fuel, room, rest, hf, hd, _ => by
    cases fuel with
    | zero => simp [Json.size] at hf
    | succ f =>
      cases room with
      | zero => simp [Json.depth] at hd
      | succ r =>
        have hf2 : Json.size.sizeMembers (kv :: kvs) ≤ f := by
          simp only [Json.size] at hf
          omega
        have hd2 : Json.depth.depthMembers (kv :: kvs) ≤ r := by
          simp only [Json.depth] at hd
          omega
        have ih := parseMembers_render (kv :: kvs) (by simp) hc f r rest hf2 hd2
        have hhead : ∃ tl2,
            Json.render.renderMembers (kv :: kvs) ++ '}' :: rest = '"' :: tl2 := by
          obtain ⟨k, v⟩ := kv
          cases kvs with
          | nil =>
            exact ⟨escapeString k ++ '"' :: ':' :: (v.render ++ '}' :: rest), by
              simp [Json.render.renderMembers, quote]⟩
          | cons y ys =>
            exact ⟨escapeString k ++ '"' :: ':' :: (v.render ++ ',' ::
              (Json.render.renderMembers (y :: ys) ++ '}' :: rest)), by
              simp [Json.render.renderMembers, quote]⟩
        obtain ⟨tl2, htl2⟩ := hhead
        have htext : (Json.obj (kv :: kvs)).render ++ rest
            = '{' :: (Json.render.renderMembers (kv :: kvs) ++ '}' :: rest) := by
          simp [Json.render]
        rw [htext, htl2, parseValue, skipWS_cons '{' _ (by decide)]
        rw [htl2] at ih
        simp only [Char.reduceEq, if_false, if_true, skipWS_cons '"' tl2 (by decide)]
        split
        · rename_i heq
          injection heq with e1 _
          exact absurd e1 (by decide)
        · simp [ih]
/-- The elements of an array, read back up to the closing bracket. -/
theorem parseElems_render : ∀ (xs : List Json), xs ≠ [] → Json.Canon.canonElems xs →
    ∀ (fuel room : Nat) (rest : Text), Json.size.sizeElems xs ≤ fuel →
      Json.depth.depthElems xs ≤ room →
      parseElems fuel room (Json.render.renderElems xs ++ ']' :: rest) = some (xs, rest)
  | [], hne, _, _, _, _, _, _ => absurd rfl hne
  | [x], _, hc, fuel, room, rest, hf, hd => by
    cases fuel with
    | zero => simp [Json.size.sizeElems] at hf
    | succ f =>
      have hf2 : x.size ≤ f := by
        simp only [Json.size.sizeElems] at hf
        omega
      have hd2 : x.depth ≤ room := by
        simp only [Json.depth.depthElems] at hd
        omega
      have ih := parseValue_render x hc.1 f room (']' :: rest) hf2 hd2 (stops_bracket rest)
      simp [Json.render.renderElems, parseElems, ih, skipWS, isSpace]
  | x :: y :: ys, _, hc, fuel, room, rest, hf, hd => by
    cases fuel with
    | zero => simp [Json.size.sizeElems] at hf
    | succ f =>
      have hf2 : x.size ≤ f := by
        simp only [Json.size.sizeElems] at hf
        omega
      have hf3 : Json.size.sizeElems (y :: ys) ≤ f := by
        simp only [Json.size.sizeElems] at hf ⊢
        omega
      have hd2 : x.depth ≤ room := by
        simp only [Json.depth.depthElems] at hd
        omega
      have hd3 : Json.depth.depthElems (y :: ys) ≤ room := by
        simp only [Json.depth.depthElems] at hd ⊢
        omega
      have ih1 := parseValue_render x hc.1 f room
        (',' :: (Json.render.renderElems (y :: ys) ++ ']' :: rest)) hf2 hd2 (stops_comma _)
      have ih2 := parseElems_render (y :: ys) (by simp) hc.2 f room rest hf3 hd3
      simp [Json.render.renderElems, parseElems, ih1, ih2, skipWS, isSpace]
/-- The members of an object, read back up to the closing brace. -/
theorem parseMembers_render : ∀ (kvs : List (Text × Json)), kvs ≠ [] →
    Json.Canon.canonMembers kvs →
    ∀ (fuel room : Nat) (rest : Text), Json.size.sizeMembers kvs ≤ fuel →
      Json.depth.depthMembers kvs ≤ room →
      parseMembers fuel room (Json.render.renderMembers kvs ++ '}' :: rest) = some (kvs, rest)
  | [], hne, _, _, _, _, _, _ => absurd rfl hne
  | [(k, v)], _, hc, fuel, room, rest, hf, hd => by
    cases fuel with
    | zero => simp [Json.size.sizeMembers] at hf
    | succ f =>
      have hf2 : v.size ≤ f := by
        simp only [Json.size.sizeMembers] at hf
        omega
      have hd2 : v.depth ≤ room := by
        simp only [Json.depth.depthMembers] at hd
        omega
      have ih := parseValue_render v hc.1 f room ('}' :: rest) hf2 hd2 (stops_brace rest)
      have hk := scanString_quote k (':' :: (v.render ++ '}' :: rest))
      have htext : Json.render.renderMembers [(k, v)] ++ '}' :: rest
          = '"' :: (escapeString k ++ '"' :: ':' :: (v.render ++ '}' :: rest)) := by
        simp [Json.render.renderMembers, quote]
      rw [htext, parseMembers, skipWS_cons '"' _ (by decide)]
      simp only []
      rw [hk]
      simp [ih, skipWS, isSpace]
  | (k, v) :: kv2 :: kvs, _, hc, fuel, room, rest, hf, hd => by
    cases fuel with
    | zero => simp [Json.size.sizeMembers] at hf
    | succ f =>
      have hf2 : v.size ≤ f := by
        simp only [Json.size.sizeMembers] at hf
        omega
      have hf3 : Json.size.sizeMembers (kv2 :: kvs) ≤ f := by
        simp only [Json.size.sizeMembers] at hf ⊢
        omega
      have hd2 : v.depth ≤ room := by
        simp only [Json.depth.depthMembers] at hd
        omega
      have hd3 : Json.depth.depthMembers (kv2 :: kvs) ≤ room := by
        simp only [Json.depth.depthMembers] at hd ⊢
        omega
      have ih1 := parseValue_render v hc.1 f room
        (',' :: (Json.render.renderMembers (kv2 :: kvs) ++ '}' :: rest)) hf2 hd2 (stops_comma _)
      have ih2 := parseMembers_render (kv2 :: kvs) (by simp) hc.2 f room rest hf3 hd3
      have hk := scanString_quote k
        (':' :: (v.render ++ ',' :: (Json.render.renderMembers (kv2 :: kvs) ++ '}' :: rest)))
      have htext : Json.render.renderMembers ((k, v) :: kv2 :: kvs) ++ '}' :: rest
          = '"' :: (escapeString k ++ '"' :: ':' :: (v.render ++ ',' ::
              (Json.render.renderMembers (kv2 :: kvs) ++ '}' :: rest))) := by
        simp [Json.render.renderMembers, quote]
      rw [htext, parseMembers, skipWS_cons '"' _ (by decide)]
      simp only []
      rw [hk]
      simp [ih1, ih2, skipWS, isSpace]
end

mutual
theorem size_le_length : ∀ (J : Json), J.Canon → J.size ≤ J.render.length
  | .null, _ => by simp [Json.size, render_null]
  | .bool true, _ => by simp [Json.size, render_true]
  | .bool false, _ => by simp [Json.size, render_false]
  | .num lit, hc => by
    obtain ⟨c, cs, hcs, _⟩ := numLit_head lit hc
    simp [Json.size, Json.render, hcs]
  | .str s, _ => by simp [Json.size, Json.render, quote]
  | .coerced rs, _ => by simp [Json.size, Json.render]
  | .arr [], _ => by simp [Json.size, Json.render, Json.size.sizeElems]
  | .arr (x :: xs), hc => by
    have := sizeElems_le_length (x :: xs) (by simp) hc
    simp only [Json.size, Json.render, List.length_cons, List.length_append, List.length_nil]
    omega
  | .obj [], _ => by simp [Json.size, Json.render, Json.size.sizeMembers]
  | .obj (kv :: kvs), hc => by
    have := sizeMembers_le_length (kv :: kvs) (by simp) hc
    simp only [Json.size, Json.render, List.length_cons, List.length_append, List.length_nil]
    omega
theorem sizeElems_le_length : ∀ (xs : List Json), xs ≠ [] → Json.Canon.canonElems xs →
    Json.size.sizeElems xs ≤ (Json.render.renderElems xs).length + 1
  | [], hne, _ => absurd rfl hne
  | [x], _, hc => by
    have := size_le_length x hc.1
    simp only [Json.size.sizeElems, Json.render.renderElems]
    omega
  | x :: y :: ys, _, hc => by
    have h1 := size_le_length x hc.1
    have h2 := sizeElems_le_length (y :: ys) (by simp) hc.2
    simp only [Json.size.sizeElems, Json.render.renderElems, List.length_append,
      List.length_cons] at h2 ⊢
    omega
theorem sizeMembers_le_length : ∀ (kvs : List (Text × Json)), kvs ≠ [] →
    Json.Canon.canonMembers kvs →
    Json.size.sizeMembers kvs ≤ (Json.render.renderMembers kvs).length + 1
  | [], hne, _ => absurd rfl hne
  | [(k, v)], _, hc => by
    have := size_le_length v hc.1
    simp only [Json.size.sizeMembers, Json.render.renderMembers, List.length_append,
      List.length_cons]
    omega
  | (k, v) :: kv2 :: kvs, _, hc => by
    have h1 := size_le_length v hc.1
    have h2 := sizeMembers_le_length (kv2 :: kvs) (by simp) hc.2
    simp only [Json.size.sizeMembers, Json.render.renderMembers, List.length_append,
      List.length_cons] at h2 ⊢
    omega
end

/-- The text `json.Marshal` writes for a document reads back as the document,
as long as the document is not nested deeper than `maxNestingDepth`. -/
theorem parseJSON_render (J : Json) (h : J.Canon) (hd : J.depth ≤ maxNestingDepth) :
    parseJSON J.render = some J := by
  have h1 := parseValue_render J h (J.render.length + 1) maxNestingDepth [] (by
    have := size_le_length J h
    omega) hd (Or.inl rfl)
  rw [List.append_nil] at h1
  simp [parseJSON, h1, skipWS]

/-! ## The scanner and the nesting of what it reads -/

mutual
/-- The scanner yields no document nested deeper than it had room for. -/
theorem parseValue_depth : ∀ (fuel room : Nat) (cs : Text) (j : Json) (rest : Text),
    parseValue fuel room cs = some (j, rest) → j.depth ≤ room
  | 0, _, _, _, _, h => by simp [parseValue] at h
  | fuel + 1, room, cs, j, rest, h => by
    rw [parseValue] at h
    split at h
    · cases h
    · rename_i c tl _
      split at h
      · cases room with
        | zero => cases h
        | succ r =>
          simp only [] at h
          split at h
          · injection h with h
            injection h with h1 _
            subst h1
            simp [Json.depth, Json.depth.depthMembers]
          · split at h
            · rename_i kvs rest2 hm
              injection h with h
              injection h with h1 _
              subst h1
              have := parseMembers_depth fuel r _ kvs rest2 hm
              simp only [Json.depth]
              omega
            · cases h
      · split at h
        · cases room with
          | zero => cases h
          | succ r =>
            simp only [] at h
            split at h
            · injection h with h
              injection h with h1 _
              subst h1
              simp [Json.depth, Json.depth.depthElems]
            · split at h
              · rename_i xs rest2 hm
                injection h with h
                injection h with h1 _
                subst h1
                have := parseElems_depth fuel r _ xs rest2 hm
                simp only [Json.depth]
                omega
              · cases h
        · split at h
          · split at h
            · injection h with h
              injection h with h1 _
              subst h1
              simp [Json.depth]
            · cases h
          · split at h
            · split at h
              · injection h with h
                injection h with h1 _
                subst h1
                simp [Json.depth]
              · cases h
            · split at h
              · split at h
                · injection h with h
                  injection h with h1 _
                  subst h1
                  simp [Json.depth]
                · cases h
              · split at h
                · split at h
                  · injection h with h
                    injection h with h1 _
                    subst h1
                    simp [Json.depth]
                  · cases h
                · split at h
                  · injection h with h
                    injection h with h1 _
                    subst h1
                    simp [Json.depth]
                  · cases h
theorem parseElems_depth : ∀ (fuel room : Nat) (cs : Text) (xs : List Json) (rest : Text),
    parseElems fuel room cs = some (xs, rest) → Json.depth.depthElems xs ≤ room
  | 0, _, _, _, _, h => by simp [parseElems] at h
  | fuel + 1, room, cs, xs, rest, h => by
    rw [parseElems] at h
    cases hv : parseValue fuel room cs with
    | none => simp [hv] at h
    | some res =>
      obtain ⟨x, rest1⟩ := res
      have hx := parseValue_depth fuel room cs x rest1 hv
      simp only [hv] at h
      split at h
      · split at h
        · rename_i ys rest2 hm
          injection h with h
          injection h with h1 _
          subst h1
          have := parseElems_depth fuel room _ ys rest2 hm
          simp only [Json.depth.depthElems]
          omega
        · cases h
      · injection h with h
        injection h with h1 _
        subst h1
        simp only [Json.depth.depthElems]
        omega
      · cases h
theorem parseMembers_depth : ∀ (fuel room : Nat) (cs : Text) (kvs : List (Text × Json))
    (rest : Text),
    parseMembers fuel room cs = some (kvs, rest) → Json.depth.depthMembers kvs ≤ room
  | 0, _, _, _, _, h => by simp [parseMembers] at h
  | fuel + 1, room, cs, kvs, rest, h => by
    rw [parseMembers] at h
    split at h
    · split at h
      · split at h
        · rename_i rest2 _
          cases hv : parseValue fuel room rest2 with
          | none => simp [hv] at h
          | some res =>
            obtain ⟨v, rest3⟩ := res
            have hx := parseValue_depth fuel room rest2 v rest3 hv
            simp only [hv] at h
            split at h
            · split at h
              · rename_i ys rest5 hm
                injection h with h
                injection h with h1 _
                subst h1
                have := parseMembers_depth fuel room _ ys rest5 hm
                simp only [Json.depth.depthMembers]
                omega
              · cases h
            · injection h with h
              injection h with h1 _
              subst h1
              simp only [Json.depth.depthMembers]
              omega
            · cases h
        · cases h
      · cases h
    · cases h
end

mutual
/-- More room does not change what the scanner reads. -/
theorem parseValue_mono : ∀ (fuel room room2 : Nat) (cs : Text) (r : Json × Text),
    parseValue fuel room cs = some r → room ≤ room2 → parseValue fuel room2 cs = some r
  | 0, _, _, _, _, h, _ => by simp [parseValue] at h
  | fuel + 1, room, room2, cs, r, h, hle => by
    rw [parseValue] at h ⊢
    cases hs : skipWS cs with
    | nil =>
      rw [hs] at h
      cases h
    | cons c tl =>
      rw [hs] at h
      simp only [] at h ⊢
      by_cases h1 : c = '{'
      · simp only [h1, if_true] at h ⊢
        cases room with
        | zero => cases h
        | succ r0 =>
          cases room2 with
          | zero => omega
          | succ r1 =>
            simp only [] at h ⊢
            split at h
            · exact h
            · split at h
              · rename_i kvs rest2 hm
                have := parseMembers_mono fuel r0 r1 _ _ hm (by omega)
                simp only [this]
                exact h
              · cases h
      · by_cases h2 : c = '['
        · simp only [h2, if_true, Char.reduceEq, if_false] at h ⊢
          cases room with
          | zero => cases h
          | succ r0 =>
            cases room2 with
            | zero => omega
            | succ r1 =>
              simp only [] at h ⊢
              split at h
              · exact h
              · split at h
                · rename_i xs rest2 hm
                  have := parseElems_mono fuel r0 r1 _ _ hm (by omega)
                  simp only [this]
                  exact h
                · cases h
        · simp only [h1, h2, if_false] at h ⊢
          exact h
theorem parseElems_mono : ∀ (fuel room room2 : Nat) (cs : Text) (r : List Json × Text),
    parseElems fuel room cs = some r → room ≤ room2 → parseElems fuel room2 cs = some r
  | 0, _, _, _, _, h, _ => by simp [parseElems] at h
  | fuel + 1, room, room2, cs, r, h, hle => by
    rw [parseElems] at h ⊢
    split at h
    · rename_i x rest hv
      have h1 := parseValue_mono fuel room room2 cs _ hv hle
      simp only [h1]
      split at h
      · split at h
        · rename_i xs rest2 hm
          have h2 := parseElems_mono fuel room room2 _ _ hm hle
          simp only [h2]
          exact h
        · cases h
      · exact h
      · cases h
    · cases h
theorem parseMembers_mono : ∀ (fuel room room2 : Nat) (cs : Text)
    (r : List (Text × Json) × Text),
    parseMembers fuel room cs = some r → room ≤ room2 → parseMembers fuel room2 cs = some r
  | 0, _, _, _, _, h, _ => by simp [parseMembers] at h
  | fuel + 1, room, room2, cs, r, h, hle => by
    rw [parseMembers] at h ⊢
    split at h
    · split at h
      · split at h
        · rename_i rest2 heq2
          split at h
          · rename_i v rest3 hv
            have h1 := parseValue_mono fuel room room2 rest2 _ hv hle
            simp only [h1]
            split at h
            · split at h
              · rename_i kvs rest5 hm
                have h2 := parseMembers_mono fuel room room2 _ _ hm hle
                simp only [h2]
                exact h
              · cases h
            · exact h
            · cases h
          · cases h
        · cases h
      · cases h
    · cases h
end

/-- A document nested deeper than `maxNestingDepth` does not read back: the
scanner turns its text down. -/
theorem parseJSON_too_deep (J : Json) (hc : J.Canon) (hd : maxNestingDepth < J.depth) :
    parseJSON J.render = none := by
  unfold parseJSON
  cases h : parseValue (J.render.length + 1) maxNestingDepth J.render with
  | none => rfl
  | some r =>
    exfalso
    have h1 := parseValue_mono _ _ J.depth _ _ h (by omega)
    have h2 := parseValue_render J hc (J.render.length + 1) J.depth [] (by
      have := size_le_length J hc
      omega) (le_refl _) (Or.inl rfl)
    rw [List.append_nil, h1] at h2
    injection h2 with h2
    subst h2
    have := parseValue_depth _ _ _ _ _ h
    omega

/-- A document that the scanner yields is not nested deeper than
`maxNestingDepth`. -/
theorem parseJSON_depth (text : Text) (j : Json) (h : parseJSON text = some j) :
    j.depth ≤ maxNestingDepth := by
  unfold parseJSON at h
  split at h
  · rename_i j1 rest hv
    split at h
    · injection h with h
      subst h
      exact parseValue_depth _ _ _ _ _ hv
    · cases h
  · cases h

/-! ## The two passes of `Client.Do` on the document of a value -/

theorem toJson_eq_of_isSome (v : GoVal) (h : (toJson v).isSome = true) :
    toJson v = some (toJsonD v) := by
  unfold toJsonD
  cases hv : toJson v with
  | none => simp [hv] at h
  | some j => rfl

theorem elemsToJson_eq (vs : List GoVal) (h : ∀ v ∈ vs, (toJson v).isSome = true) :
    toJson.elemsToJson vs = some (vs.map toJsonD) := by
  induction vs with
  | nil => rfl
  | cons v vs ih =>
    have h1 := toJson_eq_of_isSome v (h v (List.mem_cons_self _ _))
    have h2 := ih (fun w hw => h w (List.mem_cons_of_mem _ hw))
    simp [toJson.elemsToJson, h1, h2]

theorem entriesToJson_eq (kvs : List (Text × GoVal))
    (h : ∀ kv ∈ kvs, (toJson kv.2).isSome = true) :
    toJson.entriesToJson kvs = some (kvs.map fun kv => (kv.1, toJsonD kv.2)) := by
  induction kvs with
  | nil => rfl
  | cons kv kvs ih =>
    obtain ⟨k, v⟩ := kv
    have h1 := toJson_eq_of_isSome v (h (k, v) (List.mem_cons_self _ _))
    have h2 := ih (fun w hw => h w (List.mem_cons_of_mem _ hw))
    simp [toJson.entriesToJson, h1, h2]

theorem fieldsToJson_eq (fvs : List (Field × GoVal))
    (h : ∀ fv ∈ fvs, (toJson fv.2).isSome = true) :
    toJson.fieldsToJson fvs
      = some ((fvs.filter fun fv => !omitted fv).map fun fv => (fv.1.name, toJsonD fv.2)) := by
  induction fvs with
  | nil => rfl
  | cons fv fvs ih =>
    obtain ⟨f, v⟩ := fv
    have h1 := toJson_eq_of_isSome v (h (f, v) (List.mem_cons_self _ _))
    have h2 := ih (fun w hw => h w (List.mem_cons_of_mem _ hw))
    simp only [toJson.fieldsToJson, h1, h2, List.filter, omitted]
    cases hom : (f.omitEmpty && isEmptyValue v) <;> simp

theorem canonElems_iff (xs : List Json) :
    Json.Canon.canonElems xs ↔ ∀ x ∈ xs, x.Canon := by
  induction xs with
  | nil => simp [Json.Canon.canonElems]
  | cons x xs ih => simp [Json.Canon.canonElems, ih]

theorem canonMembers_iff (kvs : List (Text × Json)) :
    Json.Canon.canonMembers kvs ↔ ∀ kv ∈ kvs, kv.2.Canon := by
  induction kvs with
  | nil => simp [Json.Canon.canonMembers]
  | cons kv kvs ih =>
    obtain ⟨k, v⟩ := kv
    simp [Json.Canon.canonMembers, ih]

theorem elemsToInterface_eq (xs : List Json) (h : ∀ x ∈ xs, (toInterface x).2 = none) :
    toInterface.elemsToInterface xs = (xs.map fun x => (toInterface x).1, none) := by
  induction xs with
  | nil => rfl
  | cons x xs ih =>
    have h1 := h x (List.mem_cons_self _ _)
    have h2 := ih (fun w hw => h w (List.mem_cons_of_mem _ hw))
    simp [toInterface.elemsToInterface, h1, h2, firstError]

theorem mapInsert_perm (k : Text) (v : GoVal) (m : List (Text × GoVal))
    (h : k ∉ m.map Prod.fst) : (mapInsert k v m).Perm ((k, v) :: m) := by
  induction m with
  | nil => exact List.Perm.refl _
  | cons kv rest ih =>
    obtain ⟨k1, v1⟩ := kv
    have hk : k ≠ k1 := by
      intro hk
      apply h
      simp [hk]
    have hrest : k ∉ rest.map Prod.fst := by
      intro hm
      apply h
      simp only [List.map_cons, List.mem_cons]
      exact Or.inr hm
    simp only [mapInsert, hk, if_false]
    split
    · exact List.Perm.refl _
    · exact ((ih hrest).cons (k1, v1)).trans (List.Perm.swap _ _ _)

theorem membersToInterface_perm (kvs : List (Text × Json)) (m : List (Text × GoVal))
    (hnd : (kvs.map Prod.fst ++ m.map Prod.fst).Nodup) :
    ((toInterface.membersToInterface kvs m).1).Perm
        ((kvs.map fun kv => (kv.1, (toInterface kv.2).1)) ++ m)
      ∧ ((∀ kv ∈ kvs, (toInterface kv.2).2 = none) →
          (toInterface.membersToInterface kvs m).2 = none) := by
  induction kvs generalizing m with
  | nil => exact ⟨List.Perm.refl _, fun _ => rfl⟩
  | cons kv rest ih =>
    obtain ⟨k, v⟩ := kv
    simp only [List.map_cons, List.cons_append, List.nodup_cons, List.mem_append, not_or] at hnd
    obtain ⟨⟨hk1, hk2⟩, hnd2⟩ := hnd
    have hins := mapInsert_perm k (toInterface v).1 m hk2
    have hnd3 : (rest.map Prod.fst ++ (mapInsert k (toInterface v).1 m).map Prod.fst).Nodup := by
      have hp : (rest.map Prod.fst ++ (mapInsert k (toInterface v).1 m).map Prod.fst).Perm
          (k :: (rest.map Prod.fst ++ m.map Prod.fst)) := by
        have := (hins.map Prod.fst).append_left (rest.map Prod.fst)
        simp only [List.map_cons] at this
        exact this.trans List.perm_middle
      rw [hp.nodup_iff, List.nodup_cons]
      exact ⟨by simp [List.mem_append, hk1, hk2], hnd2⟩
    obtain ⟨ih1, ih2⟩ := ih (mapInsert k (toInterface v).1 m) hnd3
    constructor
    · simp only [toInterface.membersToInterface, List.map_cons, List.cons_append]
      exact (ih1.trans (hins.append_left _)).trans List.perm_middle
    · intro herr
      simp only [toInterface.membersToInterface]
      rw [herr (k, v) (List.mem_cons_self _ _),
        ih2 (fun w hw => herr w (List.mem_cons_of_mem _ hw))]
      rfl

theorem setField_length (cfs : List (Field × GoVal)) (i : Nat) (v : GoVal) :
    (setField cfs i v).length = cfs.length := by
  induction cfs generalizing i with
  | nil => simp [setField]
  | cons fv rest ih =>
    obtain ⟨f, w⟩ := fv
    cases i with
    | zero => simp [setField]
    | succ i => simp [setField, ih]

theorem setField_get_same (cfs : List (Field × GoVal)) (i : Nat) (v : GoVal) (f : Field)
    (w : GoVal) (h : cfs[i]? = some (f, w)) : (setField cfs i v)[i]? = some (f, v) := by
  induction cfs generalizing i with
  | nil => simp at h
  | cons fv rest ih =>
    obtain ⟨g, u⟩ := fv
    cases i with
    | zero =>
      simp only [List.getElem?_cons_zero, Option.some.injEq, Prod.mk.injEq] at h
      simp [setField, h.1]
    | succ i =>
      simp only [List.getElem?_cons_succ] at h
      simp [setField, ih i h]

theorem setField_get_other (cfs : List (Field × GoVal)) (i j : Nat) (v : GoVal) (h : j ≠ i) :
    (setField cfs i v)[j]? = cfs[j]? := by
  induction cfs generalizing i j with
  | nil => simp [setField]
  | cons fv rest ih =>
    obtain ⟨g, u⟩ := fv
    cases i with
    | zero =>
      cases j with
      | zero => exact absurd rfl h
      | succ j => simp [setField]
    | succ i =>
      cases j with
      | zero => simp [setField]
      | succ j => simp [setField, ih i j (by omega)]

theorem distinctNames_inj (fs : List (Field × GoType)) (hd : distinctNames fs = true)
    (i j : Nat) (a b : Field × GoType) (hi : fs[i]? = some a) (hj : fs[j]? = some b)
    (hab : a.1.name = b.1.name) : i = j := by
  induction fs generalizing i j with
  | nil => simp at hi
  | cons ft rest ih =>
    obtain ⟨f, t⟩ := ft
    simp only [distinctNames, Bool.and_eq_true, Bool.not_eq_true', List.any_eq_false,
      decide_eq_true_eq] at hd
    obtain ⟨hd1, hd2⟩ := hd
    cases i with
    | zero =>
      cases j with
      | zero => rfl
      | succ j =>
        simp only [List.getElem?_cons_zero, Option.some.injEq] at hi
        simp only [List.getElem?_cons_succ] at hj
        exfalso
        have := hd1 b (List.getElem?_mem hj)
        rw [← hi] at hab
        exact this hab.symm
    | succ i =>
      cases j with
      | zero =>
        simp only [List.getElem?_cons_zero, Option.some.injEq] at hj
        simp only [List.getElem?_cons_succ] at hi
        exfalso
        have := hd1 a (List.getElem?_mem hi)
        rw [← hj] at hab
        exact this hab
      | succ j =>
        simp only [List.getElem?_cons_succ] at hi hj
        rw [ih hd2 i j hi hj]

theorem findIndex_first {α : Type} (p : α → Bool) (l : List α) (i : Nat) (x : α)
    (hx : l[i]? = some x) (hp : p x = true)
    (hfirst : ∀ j y, j < i → l[j]? = some y → p y = false) : findIndex p l = some i := by
  induction l generalizing i with
  | nil => simp at hx
  | cons a rest ih =>
    cases i with
    | zero =>
      simp only [List.getElem?_cons_zero, Option.some.injEq] at hx
      simp [findIndex, hx, hp]
    | succ i =>
      simp only [List.getElem?_cons_succ] at hx
      have h0 : p a = false := hfirst 0 a (by omega) (by simp)
      have := ih i hx (fun j y hj hy => hfirst (j + 1) y (by omega) (by simpa using hy))
      simp [findIndex, h0, this]

/-- With distinct field names, a key that is the name of field `i` is decoded
into field `i`. -/
theorem findField_exact (fs : List (Field × GoType)) (hd : distinctNames fs = true) (i : Nat)
    (ft : Field × GoType) (h : fs[i]? = some ft) : findField fs ft.1.name = some i := by
  have := findIndex_first (fun g : Field × GoType => decide (g.1.name = ft.1.name)) fs i ft h
    (by simp) (by
      intro j y hj hy
      simp only [decide_eq_false_iff_not]
      intro hname
      have := distinctNames_inj fs hd j i y ft hy h hname
      omega)
  simp [findField, this]

/-- Decoding the rewritten members of a struct value into the zero fields
gives the fields of the value.  Stated with the fields still to come: every
member of `L` belongs to a field that is still zero, and every field either
has its value already, or is zero and is either among the members to come or
has the zero value. -/
theorem decodeMembers_fields (fs : List (Field × GoType)) (vs : List (Field × GoVal))
    (hd : distinctNames fs = true) (hlen : vs.length = fs.length)
    (hrt : ∀ (i : Nat) (ft : Field × GoType) (fv : Field × GoVal), fs[i]? = some ft → vs[i]? = some fv →
      ft.1 = fv.1 ∧ decode ft.2 (rewritten fv.2) ft.2.zero = (fv.2, none)) :
    ∀ (L : List (Text × Json)) (cfs : List (Field × GoVal)),
      cfs.length = fs.length →
      (L.map Prod.fst).Nodup →
      (∀ kv ∈ L, ∃ (i : Nat) (ft : Field × GoType) (fv : Field × GoVal), fs[i]? = some ft ∧ vs[i]? = some fv
        ∧ kv = (ft.1.name, rewritten fv.2) ∧ cfs[i]? = some (ft.1, ft.2.zero)) →
      (∀ (i : Nat) (ft : Field × GoType) (fv : Field × GoVal), fs[i]? = some ft → vs[i]? = some fv →
        cfs[i]? = some fv
          ∨ (cfs[i]? = some (ft.1, ft.2.zero)
              ∧ ((ft.1.name, rewritten fv.2) ∈ L ∨ fv.2 = ft.2.zero))) →
      decodeMembers fs L cfs = (vs, none) := by
  intro L
  induction L with
  | nil =>
    intro cfs hclen _ _ hinv
    simp only [decodeMembers, Prod.mk.injEq, and_true]
    apply List.ext_getElem?
    intro i
    by_cases hi : i < fs.length
    · obtain ⟨ft, hft⟩ : ∃ ft, fs[i]? = some ft := by
        exact ⟨_, List.getElem?_eq_getElem hi⟩
      obtain ⟨fv, hfv⟩ : ∃ fv, vs[i]? = some fv := by
        exact ⟨_, List.getElem?_eq_getElem (by omega)⟩
      rcases hinv i ft fv hft hfv with h | ⟨h1, h2 | h2⟩
      · rw [h, hfv]
      · simp at h2
      · rw [h1, hfv]
        have := (hrt i ft fv hft hfv).1
        rw [this, ← h2]
    · rw [List.getElem?_eq_none (by omega), List.getElem?_eq_none (by omega)]
  | cons kv rest ih =>
    intro cfs hclen hnd hmem hinv
    obtain ⟨i, ft, fv, hft, hfv, hkv, hcur⟩ := hmem kv (List.mem_cons_self _ _)
    subst hkv
    simp only [List.map_cons, List.nodup_cons] at hnd
    obtain ⟨hnotin, hnd2⟩ := hnd
    have hfind := findField_exact fs hd i ft hft
    have hdec := (hrt i ft fv hft hfv).2
    have hfeq := (hrt i ft fv hft hfv).1
    have hty : fieldType fs i = ft.2 := by simp [fieldType, hft]
    have hval : fieldValue cfs fs i = ft.2.zero := by simp [fieldValue, hcur]
    rw [decodeMembers]
    simp only [hfind, hty, hval, hdec]
    have key := ih (setField cfs i fv.2) (by rw [setField_length]; exact hclen) hnd2 (by
      intro kv2 hkv2
      obtain ⟨j, ft2, fv2, hft2, hfv2, hkv2eq, hcur2⟩ := hmem kv2 (List.mem_cons_of_mem _ hkv2)
      refine ⟨j, ft2, fv2, hft2, hfv2, hkv2eq, ?_⟩
      have hji : j ≠ i := by
        intro hji
        subst hji
        rw [hft] at hft2
        injection hft2 with hft2
        subst hft2
        apply hnotin
        rw [hkv2eq] at hkv2
        exact List.mem_map_of_mem Prod.fst hkv2
      rw [setField_get_other cfs i j fv.2 hji]
      exact hcur2) (by
      intro j ft2 fv2 hft2 hfv2
      by_cases hji : j = i
      · subst hji
        left
        rw [hft] at hft2
        injection hft2 with hft2
        rw [hfv] at hfv2
        injection hfv2 with hfv2
        subst hft2 hfv2
        rw [setField_get_same cfs j fv.2 ft.1 ft.2.zero hcur, hfeq]
      · rw [setField_get_other cfs i j fv.2 hji]
        rcases hinv j ft2 fv2 hft2 hfv2 with h | ⟨h1, h2 | h2⟩
        · exact Or.inl h
        · right
          refine ⟨h1, Or.inl ?_⟩
          rcases List.mem_cons.mp h2 with h3 | h3
          · exfalso
            injection h3 with h4 _
            exact hji (distinctNames_inj fs hd j i ft2 ft hft2 hft h4)
          · exact h3
        · exact Or.inr ⟨h1, Or.inr h2⟩)
    rw [key]
    rfl

/-! ## The nesting of a document through the two passes -/

theorem elemsToJson_some (vs : List GoVal) (js : List Json)
    (h : toJson.elemsToJson vs = some js) : js = vs.map toJsonD := by
  induction vs generalizing js with
  | nil =>
    simp only [toJson.elemsToJson, Option.some.injEq] at h
    subst h
    rfl
  | cons v vs ih =>
    unfold toJson.elemsToJson at h
    cases hv : toJson v with
    | none => simp [hv] at h
    | some j =>
      cases hvs : toJson.elemsToJson vs with
      | none => simp [hv, hvs] at h
      | some js1 =>
        simp only [hv, hvs, Option.some.injEq] at h
        subst h
        simp [toJsonD, hv, ih js1 hvs]

theorem entriesToJson_some (m : List (Text × GoVal)) (js : List (Text × Json))
    (h : toJson.entriesToJson m = some js) : js = m.map fun e => (e.1, toJsonD e.2) := by
  induction m generalizing js with
  | nil =>
    simp only [toJson.entriesToJson, Option.some.injEq] at h
    subst h
    rfl
  | cons e m ih =>
    obtain ⟨k, v⟩ := e
    unfold toJson.entriesToJson at h
    cases hv : toJson v with
    | none => simp [hv] at h
    | some j =>
      cases hvs : toJson.entriesToJson m with
      | none => simp [hv, hvs] at h
      | some js1 =>
        simp only [hv, hvs, Option.some.injEq] at h
        subst h
        simp [toJsonD, hv, ih js1 hvs]

theorem depthElems_le (xs : List Json) (D : Nat) :
    Json.depth.depthElems xs ≤ D ↔ ∀ x ∈ xs, x.depth ≤ D := by
  induction xs with
  | nil => simp [Json.depth.depthElems]
  | cons x xs ih => simp [Json.depth.depthElems, ih]

theorem depthMembers_le (kvs : List (Text × Json)) (D : Nat) :
    Json.depth.depthMembers kvs ≤ D ↔ ∀ kv ∈ kvs, kv.2.depth ≤ D := by
  induction kvs with
  | nil => simp [Json.depth.depthMembers]
  | cons kv kvs ih =>
    obtain ⟨k, v⟩ := kv
    simp [Json.depth.depthMembers, ih]

theorem elemsToInterface_fst (xs : List Json) :
    (toInterface.elemsToInterface xs).1 = xs.map fun x => (toInterface x).1 := by
  induction xs with
  | nil => rfl
  | cons x xs ih => simp [toInterface.elemsToInterface, ih]

theorem mem_mapInsert (k : Text) (v : GoVal) (m : List (Text × GoVal)) (e : Text × GoVal)
    (h : e ∈ mapInsert k v m) : e = (k, v) ∨ e ∈ m := by
  induction m with
  | nil =>
    simp only [mapInsert, List.mem_singleton] at h
    exact Or.inl h
  | cons kv rest ih =>
    obtain ⟨k1, v1⟩ := kv
    unfold mapInsert at h
    by_cases h1 : k = k1
    · simp only [h1, if_true, List.mem_cons] at h
      rcases h with h4 | h4
      · exact Or.inl (by rw [h4, h1])
      · exact Or.inr (List.mem_cons_of_mem _ h4)
    · by_cases h2 : keyLt k k1 = true
      · simp only [h1, if_false, h2, if_true, List.mem_cons] at h
        rcases h with h4 | h4 | h4
        · exact Or.inl h4
        · exact Or.inr (List.mem_cons.mpr (Or.inl h4))
        · exact Or.inr (List.mem_cons_of_mem _ h4)
      · simp only [h1, if_false, h2, Bool.false_eq_true, List.mem_cons] at h
        rcases h with h4 | h4
        · exact Or.inr (List.mem_cons.mpr (Or.inl h4))
        · rcases ih h4 with h3 | h3
          · exact Or.inl h3
          · exact Or.inr (List.mem_cons_of_mem _ h3)

/-- An entry of the map that the untyped pass builds comes from a member of
the object. -/
theorem mem_membersToInterface (kvs : List (Text × Json)) (m : List (Text × GoVal))
    (e : Text × GoVal) (h : e ∈ (toInterface.membersToInterface kvs m).1) :
    e ∈ m ∨ ∃ kv ∈ kvs, e = (kv.1, (toInterface kv.2).1) := by
  induction kvs generalizing m with
  | nil => exact Or.inl h
  | cons kv kvs ih =>
    obtain ⟨k, v⟩ := kv
    simp only [toInterface.membersToInterface] at h
    rcases ih _ h with h1 | ⟨kv1, hkv1, h1⟩
    · rcases mem_mapInsert _ _ _ _ h1 with h2 | h2
      · exact Or.inr ⟨(k, v), List.mem_cons_self _ _, h2⟩
      · exact Or.inl h2
    · exact Or.inr ⟨kv1, List.mem_cons_of_mem _ hkv1, h1⟩

theorem depth_toJsonD_slice (vs : List GoVal) (D : Nat)
    (h : ∀ v ∈ vs, (toJsonD v).depth ≤ D) : (toJsonD (.slice vs)).depth ≤ 1 + D := by
  unfold toJsonD
  simp only [toJson]
  cases hjs : toJson.elemsToJson vs with
  | none => simp [Json.depth]
  | some js =>
    have hjs2 := elemsToJson_some vs js hjs
    subst hjs2
    simp only [Option.map_some', Option.getD_some, Json.depth, Nat.add_le_add_iff_left]
    rw [depthElems_le]
    intro x hx
    obtain ⟨v, hv, rfl⟩ := List.mem_map.mp hx
    exact h v hv

theorem depth_toJsonD_map (m : List (Text × GoVal)) (D : Nat)
    (h : ∀ e ∈ m, (toJsonD e.2).depth ≤ D) : (toJsonD (.map m)).depth ≤ 1 + D := by
  unfold toJsonD
  simp only [toJson]
  cases hjs : toJson.entriesToJson m with
  | none => simp [Json.depth]
  | some js =>
    have hjs2 := entriesToJson_some m js hjs
    subst hjs2
    simp only [Option.map_some', Option.getD_some, Json.depth, Nat.add_le_add_iff_left]
    rw [depthMembers_le]
    intro x hx
    obtain ⟨e, he, rfl⟩ := List.mem_map.mp hx
    exact h e he

theorem depth_toJsonD_float (f : F64) : (toJsonD (.float f)).depth = 0 := by
  unfold toJsonD
  simp only [toJson]
  cases formatFloat f <;> rfl

mutual
/-- What `Client.Do` writes again from the untyped value of a document is not
nested deeper than the document. -/
theorem depth_rewrite : ∀ (j : Json), (toJsonD (toInterface j).1).depth ≤ j.depth
  | .null => by simp [toInterface, toJsonD, toJson, Json.depth]
  | .bool b => by simp [toInterface, toJsonD, toJson, Json.depth]
  | .num lit => by
    simp only [toInterface]
    cases literalToFloat lit with
    | none => simp [toJsonD, toJson, Json.depth]
    | some f => simp [depth_toJsonD_float]
  | .str s => by simp [toInterface, toJsonD, toJson, Json.depth]
  | .coerced rs => by simp [toInterface, toJsonD, toJson, Json.depth]
  | .arr xs => by
    simp only [toInterface, Json.depth, elemsToInterface_fst]
    apply depth_toJsonD_slice
    intro v hv
    obtain ⟨x, hx, rfl⟩ := List.mem_map.mp hv
    exact depth_rewrite_elems xs x hx
  | .obj kvs => by
    simp only [toInterface, Json.depth]
    apply depth_toJsonD_map
    intro e he
    rcases mem_membersToInterface kvs [] e he with h | ⟨kv, hkv, rfl⟩
    · cases h
    · exact depth_rewrite_members kvs kv hkv
theorem depth_rewrite_elems : ∀ (xs : List Json) (x : Json), x ∈ xs →
    (toJsonD (toInterface x).1).depth ≤ Json.depth.depthElems xs
  | [], _, h => by cases h
  | y :: ys, x, h => by
    simp only [Json.depth.depthElems]
    rcases List.mem_cons.mp h with h1 | h1
    · subst h1
      exact le_trans (depth_rewrite x) (le_max_left _ _)
    · exact le_trans (depth_rewrite_elems ys x h1) (le_max_right _ _)
theorem depth_rewrite_members : ∀ (kvs : List (Text × Json)) (kv : Text × Json), kv ∈ kvs →
    (toJsonD (toInterface kv.2).1).depth ≤ Json.depth.depthMembers kvs
  | [], _, h => by cases h
  | (k, v) :: rest, kv, h => by
    simp only [Json.depth.depthMembers]
    rcases List.mem_cons.mp h with h1 | h1
    · subst h1
      exact le_trans (depth_rewrite v) (le_max_left _ _)
    · exact le_trans (depth_rewrite_members rest kv h1) (le_max_right _ _)
end

/-! ## Values that survive the two passes -/

theorem decode_ptr (t : GoType) (j : Json) (cur : GoVal) (hj : j ≠ .null) :
    decode (.ptr t) j cur
      = (.ptr (decode t j (match cur with | .ptr v => v | _ => t.zero)).1,
          (decode t j (match cur with | .ptr v => v | _ => t.zero)).2) := by
  cases j with
  | null => exact absurd rfl hj
  | bool b =>
    simp only [decode, pointee, wrapPtr]
    split <;> rfl
  | num lit =>
    simp only [decode, pointee, wrapPtr]
    split
    · split <;> rfl
    · split <;> rfl
    · rfl
  | str s =>
    simp only [decode, pointee, wrapPtr]
    split <;> rfl
  | coerced rs => simp only [decode, pointee, wrapPtr]
  | arr xs =>
    simp only [decode, pointee, wrapPtr]
    split <;> rfl
  | obj kvs =>
    simp only [decode, pointee, wrapPtr]
    split <;> rfl

theorem roundTrips_bool (b : Bool) : RoundTrips .bool (.bool b) := by
  refine ⟨rfl, trivial, rfl, rfl, trivial, ?_, fun _ => ?_⟩
  · simp [rewritten, reread, toJsonD, toJson, toInterface, decode, pointee, wrapPtr]
  · simp [rewritten, reread, toJsonD, toJson, toInterface]

theorem roundTrips_string (s : Text) : RoundTrips .string (.str s) := by
  refine ⟨rfl, trivial, rfl, rfl, trivial, ?_, fun _ => ?_⟩
  · simp [rewritten, reread, toJsonD, toJson, toInterface, decode, pointee, wrapPtr]
  · simp [rewritten, reread, toJsonD, toJson, toInterface]

theorem roundTrips_int (n : Int) (h : n.natAbs < 2 ^ 53) : RoundTrips .int (.int n) := by
  obtain ⟨f, hf1, hf2⟩ := float_intDigits n h
  have hint : literalToInt (intDigits n) = some n :=
    literalToInt_intDigits n (by omega) (by omega)
  have h1 : toJsonD (.int n) = .num (intDigits n) := rfl
  have h2 : reread (.int n) = .float f := by simp [reread, h1, toInterface, hf1]
  have h3 : rewritten (.int n) = .num (intDigits n) := by
    simp [rewritten, h2, toJsonD, toJson, hf2]
  refine ⟨rfl, numLit_intDigits n, ?_, ?_, ?_, ?_, fun _ => ?_⟩
  · simp [h1, toInterface, hf1]
  · simp [h2, toJson, hf2]
  · rw [h3]; exact numLit_intDigits n
  · rw [h3]
    simp [decode, pointee, wrapPtr, hint]
  · rw [h3]; simp

theorem roundTrips_nil_ptr (t : GoType) : RoundTrips (.ptr t) .nil := by
  refine ⟨rfl, trivial, rfl, rfl, trivial, ?_, fun h => ?_⟩
  · simp [rewritten, reread, toJsonD, toJson, toInterface, decode, storeNull, GoType.zero]
  · simp [encodesNull] at h

theorem roundTrips_nil_slice (t : GoType) : RoundTrips (.slice t) .nil := by
  refine ⟨rfl, trivial, rfl, rfl, trivial, ?_, fun h => ?_⟩
  · simp [rewritten, reread, toJsonD, toJson, toInterface, decode, storeNull, GoType.zero]
  · simp [encodesNull] at h

theorem roundTrips_ptr (t : GoType) (v : GoVal) (h : RoundTrips t v)
    (hn : encodesNull v = false) : RoundTrips (.ptr t) (.ptr v) := by
  obtain ⟨h1, h2, h3, h4, h5, h6, h7⟩ := h
  have e1 : toJsonD (.ptr v) = toJsonD v := by simp [toJsonD, toJson]
  have e2 : reread (.ptr v) = reread v := by simp [reread, e1]
  have e3 : rewritten (.ptr v) = rewritten v := by simp [rewritten, e2]
  refine ⟨by simpa [toJson] using h1, by rw [e1]; exact h2, by rw [e1]; exact h3,
    by rw [e2]; exact h4, by rw [e3]; exact h5, ?_, fun _ => by rw [e3]; exact h7 hn⟩
  rw [e3, decode_ptr t _ _ (h7 hn)]
  simp [GoType.zero, h6]

theorem decodeElems_rewritten (t : GoType) (vs : List GoVal)
    (h : ∀ v ∈ vs, RoundTrips t v) : decodeElems t (vs.map rewritten) [] = (vs, none) := by
  induction vs with
  | nil => simp [decodeElems]
  | cons v vs ih =>
    have h1 := (h v (List.mem_cons_self _ _)).2.2.2.2.2.1
    have h2 := ih (fun w hw => h w (List.mem_cons_of_mem _ hw))
    simp [decodeElems, h1, h2, firstError]

theorem roundTrips_slice (t : GoType) (vs : List GoVal) (h : ∀ v ∈ vs, RoundTrips t v) :
    RoundTrips (.slice t) (.slice vs) := by
  have hj : toJson (.slice vs) = some (.arr (vs.map toJsonD)) := by
    simp [toJson, elemsToJson_eq vs (fun v hv => (h v hv).1)]
  have e1 : toJsonD (.slice vs) = .arr (vs.map toJsonD) := by simp [toJsonD, hj]
  have hi : toInterface (.arr (vs.map toJsonD)) = (.slice (vs.map reread), none) := by
    have := elemsToInterface_eq (vs.map toJsonD) (by
      intro x hx
      obtain ⟨v, hv, rfl⟩ := List.mem_map.mp hx
      exact (h v hv).2.2.1)
    simp [toInterface, this, List.map_map, reread, Function.comp_def]
  have e2 : reread (.slice vs) = .slice (vs.map reread) := by simp [reread, e1, hi]
  have hj2 : toJson (.slice (vs.map reread)) = some (.arr (vs.map rewritten)) := by
    have := elemsToJson_eq (vs.map reread) (by
      intro x hx
      obtain ⟨v, hv, rfl⟩ := List.mem_map.mp hx
      exact (h v hv).2.2.2.1)
    simp [toJson, this, List.map_map, rewritten, Function.comp_def]
  have e3 : rewritten (.slice vs) = .arr (vs.map rewritten) := by
    simp [rewritten, e2, toJsonD, hj2]
  refine ⟨by simp [hj], ?_, by rw [e1, hi], by rw [e2, hj2]; rfl, ?_, ?_,
    fun _ => by rw [e3]; simp⟩
  · rw [e1]
    show Json.Canon.canonElems _
    rw [canonElems_iff]
    intro x hx
    obtain ⟨v, hv, rfl⟩ := List.mem_map.mp hx
    exact (h v hv).2.1
  · rw [e3]
    show Json.Canon.canonElems _
    rw [canonElems_iff]
    intro x hx
    obtain ⟨v, hv, rfl⟩ := List.mem_map.mp hx
    exact (h v hv).2.2.2.2.1
  · rw [e3]
    simp [decode, pointee, wrapPtr, GoType.zero, elemsOf, decodeElems_rewritten t vs h]

theorem nodup_names (fs : List (Field × GoType)) (hd : distinctNames fs = true) :
    (fs.map fun ft => ft.1.name).Nodup := by
  induction fs with
  | nil => simp
  | cons ft rest ih =>
    obtain ⟨f, t⟩ := ft
    simp only [distinctNames, Bool.and_eq_true, Bool.not_eq_true', List.any_eq_false,
      decide_eq_true_eq] at hd
    simp only [List.map_cons, List.nodup_cons, List.mem_map, not_exists, not_and]
    exact ⟨fun g hg => hd.1 g hg, ih hd.2⟩

theorem zeroFields_length (fs : List (Field × GoType)) :
    (GoType.zero.zeroFields fs).length = fs.length := by
  induction fs with
  | nil => rfl
  | cons ft rest ih =>
    obtain ⟨f, t⟩ := ft
    simp [GoType.zero.zeroFields, ih]

theorem zeroFields_get (fs : List (Field × GoType)) (i : Nat) (ft : Field × GoType)
    (h : fs[i]? = some ft) : (GoType.zero.zeroFields fs)[i]? = some (ft.1, ft.2.zero) := by
  induction fs generalizing i with
  | nil => simp at h
  | cons gt rest ih =>
    obtain ⟨g, t⟩ := gt
    cases i with
    | zero =>
      simp only [List.getElem?_cons_zero, Option.some.injEq] at h
      subst h
      simp [GoType.zero.zeroFields]
    | succ i =>
      simp only [List.getElem?_cons_succ] at h
      simp [GoType.zero.zeroFields, ih i h]

theorem toJsonD_map (M : List (Text × GoVal)) (h : ∀ kv ∈ M, (toJson kv.2).isSome = true) :
    toJsonD (.map M) = .obj (M.map fun kv => (kv.1, toJsonD kv.2)) := by
  have h1 := entriesToJson_eq M h
  show (toJson (.map M)).getD .null = _
  rw [toJson, h1]
  rfl

/-- A struct survives the two passes when its fields do. -/
theorem roundTrips_struct (fs : List (Field × GoType)) (vs : List (Field × GoVal))
    (hd : distinctNames fs = true) (hlen : vs.length = fs.length)
    (hf : ∀ (i : Nat) (ft : Field × GoType) (fv : Field × GoVal),
      fs[i]? = some ft → vs[i]? = some fv →
        ft.1 = fv.1 ∧ RoundTrips ft.2 fv.2 ∧ (omitted fv = true → fv.2 = ft.2.zero)) :
    RoundTrips (.struct fs) (.struct vs) := by
  -- every field value, with its index
  have hidx : ∀ fv ∈ vs, ∃ (i : Nat) (ft : Field × GoType), fs[i]? = some ft ∧ vs[i]? = some fv := by
    intro fv hfv
    obtain ⟨i, hi, hget⟩ := List.getElem_of_mem hfv
    have hi2 : i < fs.length := by omega
    exact ⟨i, fs[i], List.getElem?_eq_getElem hi2, by rw [List.getElem?_eq_getElem hi, hget]⟩
  have hrt : ∀ fv ∈ vs, ∃ t, RoundTrips t fv.2 := by
    intro fv hfv
    obtain ⟨i, ft, h1, h2⟩ := hidx fv hfv
    exact ⟨ft.2, (hf i ft fv h1 h2).2.1⟩
  -- the three documents
  have hj : toJson (.struct vs)
      = some (.obj ((vs.filter fun fv => !omitted fv).map fun fv => (fv.1.name, toJsonD fv.2))) := by
    simp [toJson, fieldsToJson_eq vs (fun fv hfv => (hrt fv hfv).choose_spec.1)]
  have e1 : toJsonD (.struct vs)
      = .obj ((vs.filter fun fv => !omitted fv).map fun fv => (fv.1.name, toJsonD fv.2)) := by
    simp [toJsonD, hj]
  have hnames : (vs.map fun fv => fv.1.name) = fs.map fun ft => ft.1.name := by
    apply List.ext_getElem?
    intro i
    simp only [List.getElem?_map]
    by_cases hi : i < fs.length
    · have hi2 : i < vs.length := by omega
      have h1 : fs[i]? = some fs[i] := List.getElem?_eq_getElem hi
      have h2 : vs[i]? = some vs[i] := List.getElem?_eq_getElem hi2
      rw [h1, h2]
      simp [(hf i _ _ h1 h2).1]
    · rw [List.getElem?_eq_none (by omega), List.getElem?_eq_none (by omega)]
      rfl
  have hndE : (((vs.filter fun fv => !omitted fv).map fun fv => (fv.1.name, toJsonD fv.2)).map
      Prod.fst).Nodup := by
    rw [List.map_map]
    have hsub : ((vs.filter fun fv => !omitted fv).map fun fv => fv.1.name).Sublist
        (vs.map fun fv => fv.1.name) := (List.filter_sublist vs).map _
    have hnd := nodup_names fs hd
    rw [← hnames] at hnd
    exact hnd.sublist hsub
  obtain ⟨hperm, herr⟩ := membersToInterface_perm
    ((vs.filter fun fv => !omitted fv).map fun fv => (fv.1.name, toJsonD fv.2)) []
    (by simpa using hndE)
  have herr2 := herr (by
    intro kv hkv
    obtain ⟨fv, hfv, rfl⟩ := List.mem_map.mp hkv
    exact (hrt fv (List.mem_of_mem_filter hfv)).choose_spec.2.2.1)
  simp only [List.append_nil, List.map_map] at hperm
  have hperm2 : (toInterface.membersToInterface
      ((vs.filter fun fv => !omitted fv).map fun fv => (fv.1.name, toJsonD fv.2)) []).1.Perm
      ((vs.filter fun fv => !omitted fv).map fun fv => (fv.1.name, reread fv.2)) := hperm
  have e2 : reread (.struct vs) = .map (toInterface.membersToInterface
      ((vs.filter fun fv => !omitted fv).map fun fv => (fv.1.name, toJsonD fv.2)) []).1 := by
    simp [reread, e1, toInterface]
  have hsomeM : ∀ kv ∈ (toInterface.membersToInterface
      ((vs.filter fun fv => !omitted fv).map fun fv => (fv.1.name, toJsonD fv.2)) []).1,
      (toJson kv.2).isSome = true := by
    intro kv hkv
    obtain ⟨fv, hfv, rfl⟩ := List.mem_map.mp (hperm2.mem_iff.mp hkv)
    exact (hrt fv (List.mem_of_mem_filter hfv)).choose_spec.2.2.2.1
  have e3 : rewritten (.struct vs) = .obj ((toInterface.membersToInterface
      ((vs.filter fun fv => !omitted fv).map fun fv => (fv.1.name, toJsonD fv.2)) []).1.map
        fun kv => (kv.1, toJsonD kv.2)) := by
    rw [rewritten, e2, toJsonD_map _ hsomeM]
  have hpermL : ((toInterface.membersToInterface
      ((vs.filter fun fv => !omitted fv).map fun fv => (fv.1.name, toJsonD fv.2)) []).1.map
        fun kv => (kv.1, toJsonD kv.2)).Perm
      ((vs.filter fun fv => !omitted fv).map fun fv => (fv.1.name, rewritten fv.2)) := by
    have := hperm2.map fun kv : Text × GoVal => (kv.1, toJsonD kv.2)
    simpa [List.map_map, Function.comp_def, rewritten] using this
  refine ⟨by simp [hj], ?_, ?_, ?_, ?_, ?_, fun _ => by rw [e3]; simp⟩
  · rw [e1]
    show Json.Canon.canonMembers _
    rw [canonMembers_iff]
    intro kv hkv
    obtain ⟨fv, hfv, rfl⟩ := List.mem_map.mp hkv
    exact (hrt fv (List.mem_of_mem_filter hfv)).choose_spec.2.1
  · rw [e1]
    simp [toInterface, herr2]
  · rw [e2]
    simp [toJson, entriesToJson_eq _ hsomeM]
  · rw [e3]
    show Json.Canon.canonMembers _
    rw [canonMembers_iff]
    intro kv hkv
    obtain ⟨fv, hfv, rfl⟩ := List.mem_map.mp (hpermL.mem_iff.mp hkv)
    exact (hrt fv (List.mem_of_mem_filter hfv)).choose_spec.2.2.2.2.1
  · rw [e3]
    have key := decodeMembers_fields fs vs hd hlen
      (fun i ft fv h1 h2 => ⟨(hf i ft fv h1 h2).1, (hf i ft fv h1 h2).2.1.2.2.2.2.2.1⟩)
      _ (GoType.zero.zeroFields fs) (zeroFields_length fs)
      (by
        rw [(hpermL.map Prod.fst).nodup_iff, List.map_map]
        have hsub : ((vs.filter fun fv => !omitted fv).map fun fv => fv.1.name).Sublist
            (vs.map fun fv => fv.1.name) := (List.filter_sublist vs).map _
        have hnd := nodup_names fs hd
        rw [← hnames] at hnd
        exact hnd.sublist hsub)
      (by
        intro kv hkv
        obtain ⟨fv, hfv, rfl⟩ := List.mem_map.mp (hpermL.mem_iff.mp hkv)
        obtain ⟨i, ft, h1, h2⟩ := hidx fv (List.mem_of_mem_filter hfv)
        refine ⟨i, ft, fv, h1, h2, ?_, zeroFields_get fs i ft h1⟩
        rw [(hf i ft fv h1 h2).1])
      (by
        intro i ft fv h1 h2
        right
        refine ⟨zeroFields_get fs i ft h1, ?_⟩
        by_cases hom : omitted fv = true
        · exact Or.inr ((hf i ft fv h1 h2).2.2 hom)
        · left
          rw [hpermL.mem_iff, (hf i ft fv h1 h2).1]
          exact List.mem_map_of_mem _ (List.mem_filter.mpr ⟨List.getElem?_mem h2, by simpa using hom⟩))
    simp [decode, pointee, wrapPtr, GoType.zero, fieldsOf, key]

theorem conforms_empty_zero (t : GoType) (v : GoVal) (hc : Conforms t v = true)
    (he : isEmptyValue v = true) (hs : isEmptySlice v = false) : v = t.zero := by
  cases v with
  | nil => cases t <;> simp_all [Conforms, GoType.zero]
  | bool b => cases t <;> simp_all [Conforms, GoType.zero, isEmptyValue]
  | int n => cases t <;> simp_all [Conforms, GoType.zero, isEmptyValue]
  | float f => cases t <;> simp_all [Conforms]
  | str s => cases t <;> simp_all [Conforms, GoType.zero, isEmptyValue]
  | bytes bs => cases t <;> simp_all [Conforms]
  | ptr w => simp [isEmptyValue] at he
  | slice ws =>
    cases ws with
    | nil => simp [isEmptySlice] at hs
    | cons w ws => simp [isEmptyValue] at he
  | map kvs => cases t <;> simp_all [Conforms]
  | struct fvs => simp [isEmptyValue] at he

mutual
/-- A value that conforms to a type survives the two passes of `Client.Do`. -/
theorem roundTrips_of_conforms : ∀ (x : GoVal) (t : GoType), Conforms t x = true →
    RoundTrips t x
  | .nil, t, h => by
    cases t with
    | ptr t1 => exact roundTrips_nil_ptr t1
    | slice t1 => exact roundTrips_nil_slice t1
    | bool => simp [Conforms] at h
    | int => simp [Conforms] at h
    | string => simp [Conforms] at h
    | iface => simp [Conforms] at h
    | struct fs => simp [Conforms] at h
  | .bool b, t, h => by
    cases t <;> first | exact roundTrips_bool b | simp [Conforms] at h
  | .int n, t, h => by
    cases t with
    | int => exact roundTrips_int n (by simpa [Conforms] using h)
    | bool => simp [Conforms] at h
    | ptr t1 => simp [Conforms] at h
    | slice t1 => simp [Conforms] at h
    | string => simp [Conforms] at h
    | iface => simp [Conforms] at h
    | struct fs => simp [Conforms] at h
  | .float f, t, h => by cases t <;> simp [Conforms] at h
  | .str s, t, h => by
    cases t <;> first | exact roundTrips_string s | simp [Conforms] at h
  | .bytes bs, t, h => by cases t <;> simp [Conforms] at h
  | .map kvs, t, h => by cases t <;> simp [Conforms] at h
  | .ptr v, t, h => by
    cases t with
    | ptr t1 =>
      simp only [Conforms, Bool.and_eq_true, Bool.not_eq_true'] at h
      exact roundTrips_ptr t1 v (roundTrips_of_conforms v t1 h.2) h.1
    | bool => simp [Conforms] at h
    | int => simp [Conforms] at h
    | slice t1 => simp [Conforms] at h
    | string => simp [Conforms] at h
    | iface => simp [Conforms] at h
    | struct fs => simp [Conforms] at h
  | .slice vs, t, h => by
    cases t with
    | slice t1 =>
      simp only [Conforms] at h
      exact roundTrips_slice t1 vs (roundTrips_elems vs t1 h)
    | bool => simp [Conforms] at h
    | int => simp [Conforms] at h
    | ptr t1 => simp [Conforms] at h
    | string => simp [Conforms] at h
    | iface => simp [Conforms] at h
    | struct fs => simp [Conforms] at h
  | .struct vs, t, h => by
    cases t with
    | struct fs =>
      simp only [Conforms, Bool.and_eq_true] at h
      have := roundTrips_fields vs fs h.2
      exact roundTrips_struct fs vs h.1 this.1 this.2
    | bool => simp [Conforms] at h
    | int => simp [Conforms] at h
    | ptr t1 => simp [Conforms] at h
    | string => simp [Conforms] at h
    | iface => simp [Conforms] at h
    | slice t1 => simp [Conforms] at h
/-- The elements of a conforming slice. -/
theorem roundTrips_elems : ∀ (vs : List GoVal) (t : GoType),
    Conforms.conformsAll t vs = true → ∀ v ∈ vs, RoundTrips t v
  | [], _, _ => by simp
  | w :: ws, t, h => by
    simp only [Conforms.conformsAll, Bool.and_eq_true] at h
    intro v hv
    rcases List.mem_cons.mp hv with hv | hv
    · rw [hv]; exact roundTrips_of_conforms w t h.1
    · exact roundTrips_elems ws t h.2 v hv
/-- The fields of a conforming struct. -/
theorem roundTrips_fields : ∀ (vs : List (Field × GoVal)) (fs : List (Field × GoType)),
    Conforms.conformsFields fs vs = true →
    vs.length = fs.length
      ∧ ∀ (i : Nat) (ft : Field × GoType) (fv : Field × GoVal),
          fs[i]? = some ft → vs[i]? = some fv →
            ft.1 = fv.1 ∧ RoundTrips ft.2 fv.2 ∧ (omitted fv = true → fv.2 = ft.2.zero)
  | [], fs, h => by
    cases fs with
    | nil => simp
    | cons ft rest =>
      obtain ⟨f, t⟩ := ft
      simp [Conforms.conformsFields] at h
  | (g, v) :: vs, fs, h => by
    cases fs with
    | nil => simp [Conforms.conformsFields] at h
    | cons ft rest =>
      obtain ⟨f, t⟩ := ft
      simp only [Conforms.conformsFields, Bool.and_eq_true, decide_eq_true_eq,
        Bool.not_eq_true', Bool.and_eq_false_iff] at h
      obtain ⟨⟨⟨hfg, hcv⟩, hom⟩, hrest⟩ := h
      have ih := roundTrips_fields vs rest hrest
      have hv := roundTrips_of_conforms v t hcv
      refine ⟨by simp [ih.1], ?_⟩
      intro i ft fv h1 h2
      cases i with
      | zero =>
        simp only [List.getElem?_cons_zero, Option.some.injEq] at h1 h2
        subst h1 h2
        refine ⟨hfg, hv, ?_⟩
        intro ho
        simp only [omitted, Bool.and_eq_true] at ho
        apply conforms_empty_zero t v hcv ho.2
        rcases hom with hom | hom
        · rw [ho.1] at hom; cases hom
        · exact hom
      | succ i =>
        simp only [List.getElem?_cons_succ] at h1 h2
        exact ih.2 i ft fv h1 h2
end

/-! ## The envelope, there and back -/

theorem decode_iface (j : Json) : decode .iface j .nil = toInterface j := by
  cases j with
  | null => rfl
  | bool b => rfl
  | num lit =>
    simp only [decode, pointee, wrapPtr, toInterface]
  | str s => rfl
  | coerced rs => rfl
  | arr xs => rfl
  | obj kvs => rfl

/-- The text of a payload inside the envelope. -/
theorem marshal_bodyOf (p : GoVal) (h : (toJson p).isSome = true) :
    Marshal (bodyOf p) = .ok (Json.render (.obj [("data".toList, toJsonD p)])) := by
  have hp := toJson_eq_of_isSome p h
  simp [Marshal, bodyOf, toJson, toJson.fieldsToJson, hp]

/-- The envelope decoded into a `body`: the `data` member, untyped. -/
theorem decode_body (kvs : List (Text × Json)) (j : Json)
    (hkvs : kvs = [("data".toList, j)]
      ∨ kvs = [("error_message".toList, .str []), ("data".toList, j)]) :
    decode bodyType (.obj kvs) bodyType.zero
      = (.struct [(⟨"data".toList, false⟩, (toInterface j).1)], (toInterface j).2) := by
  have hfind : findField [((⟨"data".toList, false⟩ : Field), GoType.iface)] "data".toList
      = some 0 := by rfl
  have hskip : findField [((⟨"data".toList, false⟩ : Field), GoType.iface)]
      "error_message".toList = none := by rfl
  rcases hkvs with h | h <;> subst h
  · simp only [decode, bodyType, pointee, wrapPtr, fieldsOf, GoType.zero, GoType.zero.zeroFields,
      decodeMembers, hfind, fieldType, fieldValue, setField, List.get?, decode_iface, firstError]
    cases (toInterface j).2 <;> rfl
  · simp only [decode, bodyType, pointee, wrapPtr, fieldsOf, GoType.zero, GoType.zero.zeroFields,
      decodeMembers, hfind, hskip, fieldType, fieldValue, setField, List.get?, decode_iface,
      firstError]
    cases (toInterface j).2 <;> rfl

/-- No error message is read from the envelope. -/
theorem errorMessage_of_envelope (kvs : List (Text × Json)) (j : Json)
    (hkvs : kvs = [("data".toList, j)]
      ∨ kvs = [("error_message".toList, .str []), ("data".toList, j)]) :
    stringOf (firstField (.ptr bodyErrorType (decode bodyErrorType (.obj kvs) bodyErrorType.zero).1))
      = [] := by
  have hno : ∀ kv ∈ [("data".toList, j)],
      foldEq (⟨"error_message".toList, false⟩ : Field).name kv.1 = true →
        ∀ s, kv.2 ≠ .str s := by
    intro kv hkv hfold
    rw [List.mem_singleton] at hkv
    subst hkv
    have hne : foldEq "error_message".toList "data".toList = false := by decide
    rw [hne] at hfold
    cases hfold
  have key : (decodeMembers [((⟨"error_message".toList, false⟩ : Field), GoType.string)] kvs
      [(⟨"error_message".toList, false⟩, .str [])]).1
      = [(⟨"error_message".toList, false⟩, .str [])] := by
    rcases hkvs with h | h <;> subst h
    · exact decodeMembers_single_keep _ _ _ hno
    · exact decodeMembers_single_last ⟨"error_message".toList, false⟩ [] _ [] _ hno
  simp only [decode, bodyErrorType, pointee, wrapPtr, fieldsOf, GoType.zero,
    GoType.zero.zeroFields] at key ⊢
  rw [key]
  rfl

/-- The unpacking block on an envelope around the document of a value that
survives the two passes: the target ends up holding the value, and neither
`err` is set. -/
theorem unpack_roundTrips (t : GoType) (x : GoVal) (h : RoundTrips t x)
    (hd : (rewritten x).depth ≤ maxNestingDepth) (text : Text)
    (kvs : List (Text × Json)) (hparse : parseJSON text = some (.obj kvs))
    (hkvs : kvs = [("data".toList, toJsonD x)]
      ∨ kvs = [("error_message".toList, .str []), ("data".toList, toJsonD x)]) :
    unpack text (.ptr t t.zero) = { target := .ptr t x, err := none, blockErr := none } := by
  obtain ⟨_, _, h3, h4, h5, h6, _⟩ := h
  have hbody := decode_body kvs (toJsonD x) hkvs
  rw [h3] at hbody
  have hm : Marshal (reread x) = .ok (rewritten x).render := by
    simp [Marshal, toJson_eq_of_isSome _ h4, rewritten]
  have hre := parseJSON_render (rewritten x) h5 hd
  simp only [unpack, Unmarshal, hparse, hbody, firstField]
  have hfirst : (toInterface (toJsonD x)).1 = reread x := rfl
  simp only [hfirst, hm, hre, h6]

/-- The untyped pass on the account with version `2 ^ 53 + 1`, and what is
written again from it. -/
theorem rewritten_big_version :
    toInterface (accountDoc "9007199254740993") = (accountTree (.finite false 1 53), none)
      ∧ Marshal (accountTree (.finite false 1 53))
        = .ok (accountDoc "9007199254740992").render :=
  ⟨rfl, rfl⟩

/-- The unpacking block on the envelope around the account with version
`2 ^ 53 + 1`. -/
theorem unpack_big_version (text : Text)
    (hparse : parseJSON text = some (.obj [("data".toList, accountDoc "9007199254740993")])) :
    unpack text (.ptr accountType accountType.zero)
      = { target := .ptr accountType
            (accountValue "1".toList "2".toList "accounts".toList 9007199254740992)
          err := none, blockErr := none } := by
  have hbody := decode_body _ (accountDoc "9007199254740993") (Or.inl rfl)
  rw [rewritten_big_version.1] at hbody
  have hre : parseJSON (accountDoc "9007199254740992").render
      = some (accountDoc "9007199254740992") := rfl
  have hdec : decode accountType (accountDoc "9007199254740992") accountType.zero
      = (accountValue "1".toList "2".toList "accounts".toList 9007199254740992, none) := rfl
  simp only [unpack, Unmarshal, hparse, hbody, firstField, rewritten_big_version.2, hre, hdec]

/-- The unpacking block, pass by pass: the envelope is parsed, its `data` is
read untyped and written again, and the text is parsed and decoded into the
target. -/
theorem unpack_stages (text : Text) (j : Json) (v : GoVal) (text2 : Text) (j2 : Json)
    (t : GoType) (y : GoVal) (e : Option GoError)
    (h1 : parseJSON text = some (.obj [("data".toList, j)]))
    (h2 : toInterface j = (v, none))
    (h3 : Marshal v = .ok text2)
    (h4 : parseJSON text2 = some j2)
    (h5 : decode t j2 t.zero = (y, e)) :
    unpack text (.ptr t t.zero) = { target := .ptr t y, err := none, blockErr := e } := by
  have hbody := decode_body _ j (Or.inl rfl)
  rw [h2] at hbody
  simp only [unpack, Unmarshal, h1, hbody, firstField, h3, h4, h5]

/-- The body of a request for a payload that `json.Marshal` accepts. -/
theorem createRequest_text (rt : Runtime) (c : Client) (method url : Text) (p : GoVal)
    (hp : (toJson p).isSome = true)
    (hacc : rt.newRequestError method (c.reqUrl url) = none) :
    (c.createRequest rt method url (some p)).toOption.map Request.Body
      = some (some (Json.obj [("data".toList, toJsonD p)]).render) := by
  simp only [Client.createRequest, hacc, marshal_bodyOf p hp]
  rfl

/-- The unpacking block on an envelope whose `data` is nested as deep as the
scanner allows, or deeper: the envelope is one level more, and the scanner
turns it down. -/
theorem unpack_too_deep (j : Json) (hc : j.Canon) (hd : maxNestingDepth ≤ j.depth)
    (target : Target) :
    unpack (Json.obj [("data".toList, j)]).render target
      = { target := target, err := some .syntaxError, blockErr := none } := by
  have hparse : parseJSON (Json.obj [("data".toList, j)]).render = none := by
    apply parseJSON_too_deep
    · exact ⟨hc, trivial⟩
    · simp only [Json.depth, Json.depth.depthMembers]
      omega
  simp only [unpack, Unmarshal, hparse]

theorem toJson_nestedSlice (n : Nat) : toJson (nestedSlice n) = some (nestedArray n) := by
  induction n with
  | zero => rfl
  | succ n ih => simp only [nestedSlice, toJson, toJson.elemsToJson, ih, Option.map, nestedArray]

theorem canon_nestedArray (n : Nat) : (nestedArray n).Canon := by
  induction n with
  | zero => trivial
  | succ n ih => exact ⟨ih, trivial⟩

theorem depth_nestedArray (n : Nat) : (nestedArray n).depth = n + 1 := by
  induction n with
  | zero => rfl
  | succ n ih =>
    simp only [nestedArray, Json.depth, Json.depth.depthElems, ih]
    omega

theorem conforms_nestedSlice (n : Nat) : Conforms (nestedSliceType n) (nestedSlice n) = true := by
  induction n with
  | zero => rfl
  | succ n ih => simp [nestedSlice, nestedSliceType, Conforms, Conforms.conformsAll, ih]

/-- C3, as the code has it.  Take a payload `x` of a type built from `bool`,
`int`, `string`, pointers, slices and structs whose fields all have their own
JSON name, such that (`Conforms`) every `int` is below `2 ^ 53` in magnitude,
every string is valid UTF-8, no non-nil pointer points to a value that is
written as `null`, and no `omitempty` field holds an empty slice that is not
nil; let its document nest fewer than `maxNestingDepth` arrays and objects.
Handed to `createRequest` as it is or behind a pointer, the body of the
request (whenever `http.NewRequest` accepts method and address), unpacked the
way `Client.Do` does into a zero variable of that type, leaves the payload in
the variable, without error. -/
theorem unwrap_wrap (rt : Runtime) (c : Client) (method url : Text) (t : GoType) (x p : GoVal)
    (hx : Conforms t x = true) (hdepth : (toJsonD x).depth < maxNestingDepth)
    (hp : p = x ∨ p = .ptr x)
    (hacc : rt.newRequestError method (c.reqUrl url) = none) :
    ∃ req text, c.createRequest rt method url (some p) = .ok req ∧ req.Body = some text
      ∧ unpack text (.ptr t t.zero) = { target := .ptr t x, err := none, blockErr := none } := by
  have hrt := roundTrips_of_conforms x t hx
  have hpj : toJson p = toJson x := by
    rcases hp with h | h <;> subst h <;> simp [toJson]
  have hsome : (toJson p).isSome = true := by rw [hpj]; exact hrt.1
  have hpd : toJsonD p = toJsonD x := by simp [toJsonD, hpj]
  have hm := marshal_bodyOf p hsome
  rw [hpd] at hm
  have hcanon : (Json.obj [("data".toList, toJsonD x)]).Canon := ⟨hrt.2.1, trivial⟩
  have hd1 : (Json.obj [("data".toList, toJsonD x)]).depth ≤ maxNestingDepth := by
    simp only [Json.depth, Json.depth.depthMembers]
    omega
  have hd2 : (rewritten x).depth ≤ maxNestingDepth := by
    have := depth_rewrite (toJsonD x)
    simp only [rewritten, reread]
    omega
  refine ⟨{ Method := method, URL := c.reqUrl url,
            Header := [("Content-Type".toList, "application/json".toList),
              ("Date".toList, rt.now)],
            Body := some (Json.obj [("data".toList, toJsonD x)]).render,
            ctx := Context.background },
    (Json.obj [("data".toList, toJsonD x)]).render, ?_, rfl, ?_⟩
  · simp only [Client.createRequest, hacc, hm]
  · exact unpack_roundTrips t x hrt hd2 _ _ (parseJSON_render _ hcanon hd1) (Or.inl rfl)

/-- C3 on the account of the tests, `MakeAccount("1", "2")`. -/
theorem unwrap_wrap_witness :
    ∃ req text, Client.createRequest strictRuntime (clientOf 201 []) "POST".toList
        accountsBaseEndpoint (some (MakeAccount "1".toList "2".toList)) = .ok req
      ∧ req.Body = some text
      ∧ unpack text (.ptr accountType accountType.zero)
        = { target := .ptr accountType (accountValue "1".toList "2".toList "accounts".toList 0)
            err := none, blockErr := none } :=
  unwrap_wrap strictRuntime (clientOf 201 []) "POST".toList accountsBaseEndpoint accountType
    (accountValue "1".toList "2".toList "accounts".toList 0) (MakeAccount "1".toList "2".toList)
    rfl (by decide) (Or.inr rfl) rfl

/-- C3 as stated fails, in each of these ways.  The account with version
9007199254740993 (`2 ^ 53 + 1`) is sent with that version and comes back with
version 9007199254740992.  The account whose `ID` is the byte `0xff` is sent
with the `ID` `\ufffd` and comes back with the rune U+FFFD as its `ID`.  The
payload of 10000 slices inside one another is sent as 10000 arrays inside the
envelope, which the scanner turns down: the block ends with a syntax error and
the target as it was.  An `int` in an interface field comes back as a
`float64`, a pointer to a nil pointer as a nil pointer, and an empty slice in
an `omitempty` field as a nil slice. -/
theorem unwrap_wrap_fails :
    ((Client.createRequest strictRuntime (clientOf 201 []) "POST".toList accountsBaseEndpoint
          (some (.ptr (accountValue "1".toList "2".toList "accounts".toList
            9007199254740993)))).toOption.map Request.Body
        = some (some ("\x7b\"data\":\x7b\"id\":\"1\",\"organisation_id\":\"2\","
            ++ "\"type\":\"accounts\",\"version\":9007199254740993\x7d\x7d").toList)
      ∧ unpack ("\x7b\"data\":\x7b\"id\":\"1\",\"organisation_id\":\"2\","
            ++ "\"type\":\"accounts\",\"version\":9007199254740993\x7d\x7d").toList
          (.ptr accountType accountType.zero)
        = { target := .ptr accountType
              (accountValue "1".toList "2".toList "accounts".toList 9007199254740992),
            err := none, blockErr := none }
      ∧ (9007199254740992 : Int) ≠ 9007199254740993)
    ∧ ((Client.createRequest strictRuntime (clientOf 201 []) "POST".toList accountsBaseEndpoint
          (some (.ptr accountWithBadID))).toOption.map Request.Body
        = some (some ("\x7b\"data\":\x7b\"id\":\"\\ufffd\",\"organisation_id\":\"2\","
            ++ "\"type\":\"accounts\",\"version\":0\x7d\x7d").toList)
      ∧ unpack ("\x7b\"data\":\x7b\"id\":\"\\ufffd\",\"organisation_id\":\"2\","
            ++ "\"type\":\"accounts\",\"version\":0\x7d\x7d").toList
          (.ptr accountType accountType.zero)
        = { target := .ptr accountType
              (accountValue [Char.ofNat 0xFFFD] "2".toList "accounts".toList 0),
            err := none, blockErr := none }
      ∧ accountValue [Char.ofNat 0xFFFD] "2".toList "accounts".toList 0 ≠ accountWithBadID)
    ∧ (Conforms (nestedSliceType 9999) (nestedSlice 9999) = true
      ∧ ∃ text, (Client.createRequest strictRuntime (clientOf 201 []) "POST".toList
            accountsBaseEndpoint (some (nestedSlice 9999))).toOption.map Request.Body
          = some (some text)
        ∧ unpack text (.ptr (nestedSliceType 9999) (nestedSliceType 9999).zero)
          = { target := .ptr (nestedSliceType 9999) (nestedSliceType 9999).zero,
              err := some .syntaxError, blockErr := none })
    ∧ (unpack "\x7b\"data\":\x7b\"A\":1\x7d\x7d".toList
          (.ptr (.struct [(plain "A", .iface)]) (GoType.struct [(plain "A", .iface)]).zero)
        = { target := .ptr (.struct [(plain "A", .iface)])
              (.struct [(plain "A", .float (.finite false 1 0))]),
            err := none, blockErr := none }
      ∧ Marshal (bodyOf (.struct [(plain "A", .int 1)])) = .ok "\x7b\"data\":\x7b\"A\":1\x7d\x7d".toList)
    ∧ (unpack "\x7b\"data\":\x7b\"A\":null\x7d\x7d".toList
          (.ptr (.struct [(plain "A", .ptr (.ptr .string))])
            (GoType.struct [(plain "A", .ptr (.ptr .string))]).zero)
        = { target := .ptr (.struct [(plain "A", .ptr (.ptr .string))])
              (.struct [(plain "A", .nil)]),
            err := none, blockErr := none }
      ∧ Marshal (bodyOf (.struct [(plain "A", .ptr .nil)]))
        = .ok "\x7b\"data\":\x7b\"A\":null\x7d\x7d".toList)
    ∧ (unpack "\x7b\"data\":\x7b\x7d\x7d".toList
          (.ptr (.struct [(omitempty "a", .slice .string)])
            (GoType.struct [(omitempty "a", .slice .string)]).zero)
        = { target := .ptr (.struct [(omitempty "a", .slice .string)])
              (.struct [(omitempty "a", .nil)]),
            err := none, blockErr := none }
      ∧ Marshal (bodyOf (.struct [(omitempty "a", .slice [])])) = .ok "\x7b\"data\":\x7b\x7d\x7d".toList) := by
  refine ⟨⟨rfl, unpack_big_version _ rfl, by decide⟩, ⟨rfl, ?_, ?_⟩, ⟨conforms_nestedSlice 9999, ?_⟩,
    ⟨?_, rfl⟩, ⟨?_, rfl⟩, ⟨?_, rfl⟩⟩
  · exact unpack_stages _ _ _ _ _ _ _ _ rfl rfl rfl rfl rfl
  · simp [accountValue, accountWithBadID]
  · have hj := toJson_nestedSlice 9999
    have hjd : toJsonD (nestedSlice 9999) = nestedArray 9999 := by simp only [toJsonD, hj]; rfl
    refine ⟨_, createRequest_text strictRuntime (clientOf 201 []) "POST".toList
      accountsBaseEndpoint (nestedSlice 9999) (by rw [hj]; rfl) rfl, ?_⟩
    rw [hjd]
    exact unpack_too_deep _ (canon_nestedArray 9999)
      (by rw [depth_nestedArray]; decide) _
  · exact unpack_stages _ _ _ _ _ _ _ _ rfl rfl rfl rfl rfl
  · exact unpack_stages _ _ _ _ _ _ _ _ rfl rfl rfl rfl rfl
  · exact unpack_stages _ _ _ _ _ _ _ _ rfl rfl rfl rfl rfl

/-! ## Bodies without an error message, bodies that do not parse -/

theorem errorMessages_cons_string (k s : Text) (rest : List (Text × Json))
    (hk : foldEq "error_message".toList k = true) :
    errorMessages ((k, .str s) :: rest) = s :: errorMessages rest := by
  unfold errorMessages
  rw [List.filterMap_cons]
  simp only [hk, if_true, Json.text]

theorem errorMessages_cons_other (k : Text) (j : Json) (rest : List (Text × Json))
    (h : foldEq "error_message".toList k = false ∨ ∀ s, j ≠ .str s) :
    errorMessages ((k, j) :: rest) = errorMessages rest := by
  unfold errorMessages
  rw [List.filterMap_cons]
  rcases h with h | h
  · simp only [h, Bool.false_eq_true, if_false]
  · have ht : j.text = none := by
      cases j with
      | str s => exact absurd rfl (h s)
      | null | bool _ | num _ | coerced _ | arr _ | obj _ => rfl
    simp only [ht, ite_self]

/-- A single string field ends up with the last string that a matching member
holds. -/
theorem decodeMembers_single_messages (kvs : List (Text × Json)) (s0 : Text) :
    (decodeMembers [(⟨"error_message".toList, false⟩, .string)] kvs
        [(⟨"error_message".toList, false⟩, .str s0)]).1
      = [(⟨"error_message".toList, false⟩, .str ((errorMessages kvs).getLastD s0))] := by
  induction kvs generalizing s0 with
  | nil => simp [decodeMembers, errorMessages]
  | cons kv rest ih =>
    obtain ⟨k, j⟩ := kv
    rw [decodeMembers, findField_single]
    by_cases hk : foldEq "error_message".toList k = true
    · simp only [hk, if_true, setField, fieldType, List.get?, fieldValue]
      by_cases hj : ∃ s, j = .str s
      · obtain ⟨s, rfl⟩ := hj
        rw [decode_string_str, ih s, errorMessages_cons_string k s rest hk, List.getLastD_cons]
      · have hj2 : ∀ s, j ≠ .str s := fun s h => hj ⟨s, h⟩
        rw [decode_string_of_not_str j _ hj2, ih s0,
          errorMessages_cons_other k j rest (Or.inr hj2)]
    · simp only [hk, Bool.false_eq_true, if_false]
      rw [ih s0, errorMessages_cons_other k j rest (Or.inl (by simpa using hk))]

/-- The error message `Do` reads from a body is the one the body offers. -/
theorem errorMessage_eq_parsed (text : Text) :
    stringOf (firstField (Unmarshal text (.ptr bodyErrorType bodyErrorType.zero)).1)
      = parsedErrorMessage text := by
  unfold parsedErrorMessage Unmarshal
  cases hp : parseJSON text with
  | none => rfl
  | some j =>
    cases j with
    | obj kvs =>
      have key := decodeMembers_single_messages kvs []
      simp only [bodyErrorType, decode, pointee, wrapPtr, fieldsOf,
        GoType.zero, GoType.zero.zeroFields] at key ⊢
      rw [key]
      rfl
    | null => rfl
    | bool _ => rfl
    | num _ => rfl
    | str _ => rfl
    | coerced _ => rfl
    | arr _ => rfl

/-- C11: for every response body from which no non-empty error message can be
parsed (the body is no JSON document, the empty body included; the document is
no object; or the last string that a member named `error_message` holds is
empty, or no such member holds a string), `Client.Do` called with a nil target
returns a nil error together with the `Response` that wraps the answer; the
error of parsing the body for an error message is not returned. -/
theorem do_without_target (c : Client) (cx : Context) (req : Request) (resp : HTTPResponse)
    (text : Text)
    (hsend : c.httpClient { req with ctx := cx } = .ok resp)
    (hread : resp.Body = .ok text)
    (hmsg : parsedErrorMessage text = []) :
    (c.Do (some cx) req .none).err = none
      ∧ (c.Do (some cx) req .none).response = some (newResponse resp) := by
  have h := errorMessage_eq_parsed text
  rw [hmsg] at h
  simp only [Client.Do, hsend, hread, h, ne_eq, not_true_eq_false, if_false, and_self]

/-- C11 on a delete answered with status 204 and an empty body, whose parse for
an error message fails with a syntax error, and on bodies that are no JSON, have
no `error_message`, an empty one, or one that is a number. -/
theorem do_without_target_witness :
    (Unmarshal [] (.ptr bodyErrorType bodyErrorType.zero)).2 = some .syntaxError
      ∧ ((clientOf 204 []).Do (some Context.background) sampleRequest .none).err = none
      ∧ (((clientOf 204 []).Do (some Context.background) sampleRequest .none).response.map
          fun r => r.Response.StatusCode) = some 204
      ∧ ((clientOf 200 "<html>".toList).Do (some Context.background) sampleRequest .none).err
          = none
      ∧ ((clientOf 200 "\x7b\"data\":1\x7d".toList).Do (some Context.background) sampleRequest
          .none).err = none
      ∧ ((clientOf 200 "\x7b\"error_message\":\"\"\x7d".toList).Do (some Context.background)
          sampleRequest .none).err = none
      ∧ ((clientOf 200 "\x7b\"error_message\":5\x7d".toList).Do (some Context.background)
          sampleRequest .none).err = none := by
  have h204 := do_without_target (clientOf 204 []) Context.background sampleRequest
    ⟨204, [], .ok []⟩ [] rfl rfl rfl
  refine ⟨rfl, h204.1, ?_, ?_, ?_, ?_, ?_⟩
  · rw [h204.2]
    rfl
  · exact (do_without_target (clientOf 200 "<html>".toList) Context.background sampleRequest
      ⟨200, [], .ok "<html>".toList⟩ _ rfl rfl rfl).1
  · exact (do_without_target (clientOf 200 "\x7b\"data\":1\x7d".toList) Context.background
      sampleRequest ⟨200, [], .ok "\x7b\"data\":1\x7d".toList⟩ _ rfl rfl rfl).1
  · exact (do_without_target (clientOf 200 "\x7b\"error_message\":\"\"\x7d".toList)
      Context.background sampleRequest ⟨200, [], .ok "\x7b\"error_message\":\"\"\x7d".toList⟩ _
      rfl rfl rfl).1
  · exact (do_without_target (clientOf 200 "\x7b\"error_message\":5\x7d".toList)
      Context.background sampleRequest ⟨200, [], .ok "\x7b\"error_message\":5\x7d".toList⟩ _
      rfl rfl rfl).1

/-- C12: for every response body that is no well-formed JSON document (the
empty body included) and every non-nil target, `Client.Do` returns the syntax
error of parsing the envelope, together with the `Response` that wraps the
answer, and leaves the target as it was. -/
theorem do_malformed_body (c : Client) (cx : Context) (req : Request) (resp : HTTPResponse)
    (text : Text) (target : Target)
    (hsend : c.httpClient { req with ctx := cx } = .ok resp)
    (hread : resp.Body = .ok text)
    (hbad : parseJSON text = none)
    (htarget : target ≠ .none) :
    (c.Do (some cx) req target).err = some .syntaxError
      ∧ (c.Do (some cx) req target).err ≠ none
      ∧ (c.Do (some cx) req target).response = some (newResponse resp)
      ∧ (c.Do (some cx) req target).target = target := by
  have hmsg : parsedErrorMessage text = [] := by
    unfold parsedErrorMessage
    rw [hbad]
  have h := errorMessage_eq_parsed text
  rw [hmsg] at h
  have hun : unpack text target
      = { target := target, err := some .syntaxError, blockErr := none } := by
    simp only [unpack, Unmarshal, hbad]
  cases target with
  | none => exact absurd rfl htarget
  | invalid =>
    simp only [Client.Do, hsend, hread, h, ne_eq, not_true_eq_false, if_false, hun]
    simp
  | ptr t cur =>
    simp only [Client.Do, hsend, hread, h, ne_eq, not_true_eq_false, if_false, hun]
    simp

/-- C12 on an empty body and on a document cut short, with an account asked
for, and on a body that is no JSON with a target that is no pointer. -/
theorem do_malformed_body_witness :
    ((clientOf 200 []).Do (some Context.background) sampleRequest
        (.ptr accountType accountType.zero)).err = some .syntaxError
      ∧ ((clientOf 200 "\x7b\"data\":\x7b\"id\":\"1\"".toList).Do (some Context.background)
          sampleRequest (.ptr accountType accountType.zero)).err = some .syntaxError
      ∧ ((clientOf 502 "Bad Gateway".toList).Do (some Context.background) sampleRequest
          .invalid).err = some .syntaxError :=
  ⟨(do_malformed_body (clientOf 200 []) Context.background sampleRequest ⟨200, [], .ok []⟩ []
      (.ptr accountType accountType.zero) rfl rfl rfl (by simp)).1,
    (do_malformed_body (clientOf 200 "\x7b\"data\":\x7b\"id\":\"1\"".toList) Context.background
      sampleRequest ⟨200, [], .ok "\x7b\"data\":\x7b\"id\":\"1\"".toList⟩ _
      (.ptr accountType accountType.zero) rfl rfl rfl (by simp)).1,
    (do_malformed_body (clientOf 502 "Bad Gateway".toList) Context.background sampleRequest
      ⟨502, [], .ok "Bad Gateway".toList⟩ _ .invalid rfl rfl rfl (by simp)).1⟩

/-! ## The requests of the accounts service -/

theorem digitChar_eq (n : Nat) : digitChar n = Nat.digitChar (n % 10) := by
  have h : n % 10 < 10 := Nat.mod_lt _ (by decide)
  unfold digitChar
  generalize n % 10 = m at h
  interval_cases m <;> rfl

theorem natDigitsAux_eq (fuel n : Nat) (acc : Text) :
    natDigitsAux fuel n acc = Nat.toDigitsCore 10 fuel n acc := by
  induction fuel generalizing n acc with
  | zero => rfl
  | succ f ih =>
    rw [natDigitsAux, Nat.toDigitsCore]
    by_cases h : n < 10
    · have h0 : n / 10 = 0 := Nat.div_eq_of_lt h
      simp only [h, if_true, h0, digitChar_eq]
    · have h0 : n / 10 ≠ 0 := by omega
      simp only [h, if_false, h0, ih, digitChar_eq]

theorem natDigits_eq (n : Nat) : natDigits n = (toString n).toList := by
  show natDigits n = (Nat.repr n).toList
  unfold natDigits Nat.repr Nat.toDigits
  rw [natDigitsAux_eq]
  rfl

/-- What `%d` prints is the integer in decimal. -/
theorem intDigits_eq (n : Int) : intDigits n = decimal n := by
  unfold intDigits decimal
  cases n with
  | ofNat m =>
    have h : ¬ (Int.ofNat m < 0) := by simp
    rw [if_neg h]
    exact natDigits_eq m
  | negSucc m =>
    have h : Int.negSucc m < 0 := Int.negSucc_lt_zero m
    rw [if_pos h]
    show '-' :: natDigits (m + 1) = ("-" ++ toString (m + 1)).toList
    rw [natDigits_eq]
    rfl

/-- The request a client builds, as a transport that fails on every request
and reports the method and the address of the request in its error shows it. -/
theorem do_reports_request (rt : Runtime) (c : Client) (cx : Context) (method url : Text)
    (payload : Option GoVal) (target : Target) (f : Text → Text → GoError)
    (haccept : rt.newRequestError method (c.reqUrl url) = none)
    (hprobe : ∀ r, c.httpClient r = .error (f r.Method r.URL)) :
    ∃ req, c.createRequest rt method url payload = .ok req
      ∧ c.Do (some cx) req target
        = { response := none, err := some (f method (c.reqUrl url)), target := target
            sent := [{ req with ctx := cx }] } := by
  refine ⟨_, by simp only [Client.createRequest, haccept]; rfl, ?_⟩
  simp only [Client.Do, hprobe]

/-- C13: each operation of the accounts service builds its request with a
fixed verb and relative path.  For every runtime and every client whose
transport fails with an error made from the method and the address of the
request it is handed, an operation whose own method and address
`http.NewRequest` accepts fails with the error made from: `POST` and the
address of `/organisation/accounts` for `Create`; `GET` and the address of
`/organisation/accounts/<id>` for `ByID`; `GET` and the address of
`/organisation/accounts` for `List` without options, of
`/organisation/accounts?page[number]=<Number>&page[size]=<Size>` with options,
`Size` in decimal; `DELETE` and the address of
`/organisation/accounts/<id>?version=<version>` for `Delete`, `version` in
decimal. -/
theorem accounts_requests (rt : Runtime) (c : Client) (cx : Context)
    (f : Text → Text → GoError)
    (hprobe : ∀ r, c.httpClient r = .error (f r.Method r.URL)) :
    (∀ data,
        rt.newRequestError "POST".toList (c.reqUrl "/organisation/accounts".toList) = none →
        AccountsService.Create rt ⟨c⟩ (some cx) data
          = (none, none, some (f "POST".toList (c.reqUrl "/organisation/accounts".toList))))
      ∧ (∀ id,
        rt.newRequestError "GET".toList (c.reqUrl ("/organisation/accounts/".toList ++ id))
            = none →
        AccountsService.ByID rt ⟨c⟩ (some cx) id
          = (none, none,
              some (f "GET".toList (c.reqUrl ("/organisation/accounts/".toList ++ id)))))
      ∧ (rt.newRequestError "GET".toList (c.reqUrl "/organisation/accounts".toList) = none →
        AccountsService.List rt ⟨c⟩ (some cx) none
          = (none, none, some (f "GET".toList (c.reqUrl "/organisation/accounts".toList))))
      ∧ (∀ o : AccountListOptions,
        rt.newRequestError "GET".toList
            (c.reqUrl ("/organisation/accounts?page[number]=".toList ++ o.Number
              ++ "&page[size]=".toList ++ decimal o.Size)) = none →
        AccountsService.List rt ⟨c⟩ (some cx) (some o)
          = (none, none,
              some (f "GET".toList (c.reqUrl ("/organisation/accounts?page[number]=".toList
                ++ o.Number ++ "&page[size]=".toList ++ decimal o.Size)))))
      ∧ (∀ id version,
        rt.newRequestError "DELETE".toList
            (c.reqUrl ("/organisation/accounts/".toList ++ id ++ "?version=".toList
              ++ decimal version)) = none →
        AccountsService.Delete rt ⟨c⟩ (some cx) id version
          = (none,
              some (f "DELETE".toList (c.reqUrl ("/organisation/accounts/".toList ++ id
                ++ "?version=".toList ++ decimal version))))) := by
  refine ⟨?_, ?_, ?_, ?_, ?_⟩
  · intro data haccept
    obtain ⟨req, hreq, hdo⟩ := do_reports_request rt c cx "POST".toList
      "/organisation/accounts".toList (some data) (.ptr accountType accountType.zero) f
      haccept hprobe
    simp only [AccountsService.Create, Client.POST, accountsBaseEndpoint, hreq, hdo]
  · intro id haccept
    obtain ⟨req, hreq, hdo⟩ := do_reports_request rt c cx "GET".toList
      ("/organisation/accounts/".toList ++ id) none (.ptr accountType accountType.zero) f
      haccept hprobe
    have hurl : "/organisation/accounts".toList ++ '/' :: id
        = "/organisation/accounts/".toList ++ id := by simp
    simp only [AccountsService.ByID, Client.GET, accountsBaseEndpoint, hurl, hreq, hdo]
  · intro haccept
    obtain ⟨req, hreq, hdo⟩ := do_reports_request rt c cx "GET".toList
      "/organisation/accounts".toList none
      (.ptr (.slice (.ptr accountType)) (GoType.slice (.ptr accountType)).zero) f
      haccept hprobe
    simp only [AccountsService.List, Client.GET, accountsBaseEndpoint, hreq, hdo]
  · intro o haccept
    obtain ⟨req, hreq, hdo⟩ := do_reports_request rt c cx "GET".toList
      ("/organisation/accounts?page[number]=".toList ++ o.Number ++ "&page[size]=".toList
        ++ decimal o.Size) none
      (.ptr (.slice (.ptr accountType)) (GoType.slice (.ptr accountType)).zero) f
      haccept hprobe
    have hurl : "/organisation/accounts".toList ++ "?page[number]=".toList ++ o.Number
          ++ "&page[size]=".toList ++ intDigits o.Size
        = "/organisation/accounts?page[number]=".toList ++ o.Number ++ "&page[size]=".toList
          ++ decimal o.Size := by
      rw [intDigits_eq]
      simp
    simp only [AccountsService.List, Client.GET, accountsBaseEndpoint, hurl, hreq, hdo]
  · intro id version haccept
    obtain ⟨req, hreq, hdo⟩ := do_reports_request rt c cx "DELETE".toList
      ("/organisation/accounts/".toList ++ id ++ "?version=".toList ++ decimal version) none
      .none f haccept hprobe
    have hurl : "/organisation/accounts".toList ++ '/' :: id ++ "?version=".toList
          ++ intDigits version
        = "/organisation/accounts/".toList ++ id ++ "?version=".toList ++ decimal version := by
      rw [intDigits_eq]
      simp
    simp only [AccountsService.Delete, Client.DELETE, accountsBaseEndpoint, hurl, hreq, hdo]

/-- C13 under a runtime that turns addresses with control characters down, on
the transport that spells out the request: the page `3` of size `1` is a `GET`,
and deleting the versions `0` and `-2` of the account `1` is a `DELETE`, at
these addresses; creating is a `POST` and fetching the account `1` a `GET`. -/
theorem accounts_requests_witness :
    AccountsService.List strictRuntime ⟨echoClient "http://localhost:8080/v1/".toList⟩
        (some Context.background) (some ⟨"3".toList, 1⟩)
      = (none, none, some (.other ("GET http://localhost:8080/v1/organisation/accounts"
          ++ "?page[number]=3&page[size]=1").toList))
      ∧ AccountsService.Delete strictRuntime
          ⟨echoClient "http://localhost:8080/v1/".toList⟩ (some Context.background) "1".toList 0
        = (none, some (.other
            "DELETE http://localhost:8080/v1/organisation/accounts/1?version=0".toList))
      ∧ AccountsService.Delete strictRuntime
          ⟨echoClient "http://localhost:8080/v1/".toList⟩ (some Context.background) "1".toList (-2)
        = (none, some (.other
            "DELETE http://localhost:8080/v1/organisation/accounts/1?version=-2".toList))
      ∧ AccountsService.Create strictRuntime
          ⟨echoClient "http://localhost:8080/v1/".toList⟩ (some Context.background)
          (MakeAccount "1".toList "2".toList)
        = (none, none, some (.other
            "POST http://localhost:8080/v1/organisation/accounts".toList))
      ∧ AccountsService.ByID strictRuntime
          ⟨echoClient "http://localhost:8080/v1/".toList⟩ (some Context.background) "1".toList
        = (none, none, some (.other
            "GET http://localhost:8080/v1/organisation/accounts/1".toList))
      ∧ AccountsService.List strictRuntime ⟨echoClient "http://localhost:8080/v1/".toList⟩
          (some Context.background) none
        = (none, none, some (.other
            "GET http://localhost:8080/v1/organisation/accounts".toList)) := by
  have h := accounts_requests strictRuntime
    (echoClient "http://localhost:8080/v1/".toList) Context.background
    (fun m u => .other (m ++ ' ' :: u)) (fun _ => rfl)
  refine ⟨?_, ?_, ?_, ?_, ?_, ?_⟩
  · rw [h.2.2.2.1 ⟨"3".toList, 1⟩ rfl]
    rfl
  · rw [h.2.2.2.2 "1".toList 0 rfl]
    rfl
  · rw [h.2.2.2.2 "1".toList (-2) (by decide)]
    rfl
  · rw [h.1 (MakeAccount "1".toList "2".toList) rfl]
    rfl
  · rw [h.2.1 "1".toList rfl]
    rfl
  · rw [h.2.2.1 rfl]
    rfl

/-! ## The transport is consulted on the request of the operation only -/

/-- `Do` depends on the transport through its answer to the request alone. -/
theorem do_congr (c1 c2 : Client) (ctx : Option Context) (req : Request) (target : Target)
    (h : ∀ cx, c1.httpClient { req with ctx := cx } = c2.httpClient { req with ctx := cx }) :
    c1.Do ctx req target = c2.Do ctx req target := by
  cases ctx with
  | none => rfl
  | some cx => simp only [Client.Do, h cx]

/-- The request `createRequest` builds has the method it was given and the
address of the path, and does not depend on the transport. -/
theorem createRequest_congr (rt : Runtime) (c1 c2 : Client) (method url : Text)
    (payload : Option GoVal) (hbase : c1.BaseURL = c2.BaseURL) :
    c1.createRequest rt method url payload = c2.createRequest rt method url payload
      ∧ ∀ req, c1.createRequest rt method url payload = .ok req →
          req.Method = method ∧ req.URL = c1.reqUrl url := by
  refine ⟨by simp only [Client.createRequest, Client.reqUrl, hbase], ?_⟩
  intro req hreq
  unfold Client.createRequest at hreq
  cases hn : rt.newRequestError method (c1.reqUrl url) with
  | some e => simp [hn] at hreq
  | none =>
    simp only [hn, Except.ok.injEq] at hreq
    subst hreq
    exact ⟨rfl, rfl⟩

/-- Two clients with the same base address whose transports give the same
answer to every request with the verb and the address of an operation give the
same outcome of the operation: `POST` and `/organisation/accounts` for
`Create`, `GET` and `/organisation/accounts/<id>` for `ByID`, `GET` and
`/organisation/accounts` or its page for `List`, `DELETE` and
`/organisation/accounts/<id>?version=<version>` for `Delete`. -/
theorem accounts_transport_use (rt : Runtime) (c1 c2 : Client) (ctx : Option Context)
    (hbase : c1.BaseURL = c2.BaseURL) :
    (∀ data, (∀ r, r.Method = "POST".toList →
          r.URL = c1.reqUrl "/organisation/accounts".toList →
          c1.httpClient r = c2.httpClient r) →
        AccountsService.Create rt ⟨c1⟩ ctx data = AccountsService.Create rt ⟨c2⟩ ctx data)
      ∧ (∀ id, (∀ r, r.Method = "GET".toList →
          r.URL = c1.reqUrl ("/organisation/accounts/".toList ++ id) →
          c1.httpClient r = c2.httpClient r) →
        AccountsService.ByID rt ⟨c1⟩ ctx id = AccountsService.ByID rt ⟨c2⟩ ctx id)
      ∧ ((∀ r, r.Method = "GET".toList →
          r.URL = c1.reqUrl "/organisation/accounts".toList →
          c1.httpClient r = c2.httpClient r) →
        AccountsService.List rt ⟨c1⟩ ctx none = AccountsService.List rt ⟨c2⟩ ctx none)
      ∧ (∀ o : AccountListOptions, (∀ r, r.Method = "GET".toList →
          r.URL = c1.reqUrl ("/organisation/accounts?page[number]=".toList ++ o.Number
            ++ "&page[size]=".toList ++ decimal o.Size) →
          c1.httpClient r = c2.httpClient r) →
        AccountsService.List rt ⟨c1⟩ ctx (some o) = AccountsService.List rt ⟨c2⟩ ctx (some o))
      ∧ (∀ id version, (∀ r, r.Method = "DELETE".toList →
          r.URL = c1.reqUrl ("/organisation/accounts/".toList ++ id ++ "?version=".toList
            ++ decimal version) →
          c1.httpClient r = c2.httpClient r) →
        AccountsService.Delete rt ⟨c1⟩ ctx id version
          = AccountsService.Delete rt ⟨c2⟩ ctx id version) := by
  have key : ∀ (method url : Text) (payload : Option GoVal) (target : Target),
      (∀ r, r.Method = method → r.URL = c1.reqUrl url → c1.httpClient r = c2.httpClient r) →
      c1.createRequest rt method url payload = c2.createRequest rt method url payload
        ∧ ∀ req, c1.createRequest rt method url payload = .ok req →
            c1.Do ctx req target = c2.Do ctx req target := by
    intro method url payload target h
    obtain ⟨h1, h2⟩ := createRequest_congr rt c1 c2 method url payload hbase
    refine ⟨h1, fun req hreq => do_congr c1 c2 ctx req target fun cx => ?_⟩
    exact h _ (h2 req hreq).1 (h2 req hreq).2
  refine ⟨?_, ?_, ?_, ?_, ?_⟩
  · intro data h
    obtain ⟨h1, h2⟩ := key "POST".toList "/organisation/accounts".toList (some data)
      (.ptr accountType accountType.zero) h
    simp only [AccountsService.Create, Client.POST, accountsBaseEndpoint]
    rw [← h1]
    cases hreq : c1.createRequest rt "POST".toList "/organisation/accounts".toList
      (some data) with
    | error e => rfl
    | ok req => simp only [h2 req hreq]
  · intro id h
    obtain ⟨h1, h2⟩ := key "GET".toList ("/organisation/accounts/".toList ++ id) none
      (.ptr accountType accountType.zero) h
    have hurl : "/organisation/accounts".toList ++ '/' :: id
        = "/organisation/accounts/".toList ++ id := by simp
    simp only [AccountsService.ByID, Client.GET, accountsBaseEndpoint, hurl]
    rw [← h1]
    cases hreq : c1.createRequest rt "GET".toList ("/organisation/accounts/".toList ++ id)
      none with
    | error e => rfl
    | ok req => simp only [h2 req hreq]
  · intro h
    obtain ⟨h1, h2⟩ := key "GET".toList "/organisation/accounts".toList none
      (.ptr (.slice (.ptr accountType)) (GoType.slice (.ptr accountType)).zero) h
    simp only [AccountsService.List, Client.GET, accountsBaseEndpoint]
    rw [← h1]
    cases hreq : c1.createRequest rt "GET".toList "/organisation/accounts".toList none with
    | error e => rfl
    | ok req => simp only [h2 req hreq]
  · intro o h
    obtain ⟨h1, h2⟩ := key "GET".toList ("/organisation/accounts?page[number]=".toList
        ++ o.Number ++ "&page[size]=".toList ++ decimal o.Size) none
      (.ptr (.slice (.ptr accountType)) (GoType.slice (.ptr accountType)).zero) h
    have hurl : "/organisation/accounts".toList ++ "?page[number]=".toList ++ o.Number
          ++ "&page[size]=".toList ++ intDigits o.Size
        = "/organisation/accounts?page[number]=".toList ++ o.Number ++ "&page[size]=".toList
          ++ decimal o.Size := by
      rw [intDigits_eq]
      simp
    simp only [AccountsService.List, Client.GET, accountsBaseEndpoint, hurl]
    rw [← h1]
    cases hreq : c1.createRequest rt "GET".toList
      ("/organisation/accounts?page[number]=".toList ++ o.Number ++ "&page[size]=".toList
        ++ decimal o.Size) none with
    | error e => rfl
    | ok req => simp only [h2 req hreq]
  · intro id version h
    obtain ⟨h1, h2⟩ := key "DELETE".toList ("/organisation/accounts/".toList ++ id
        ++ "?version=".toList ++ decimal version) none .none h
    have hurl : "/organisation/accounts".toList ++ '/' :: id ++ "?version=".toList
          ++ intDigits version
        = "/organisation/accounts/".toList ++ id ++ "?version=".toList ++ decimal version := by
      rw [intDigits_eq]
      simp
    simp only [AccountsService.Delete, Client.DELETE, accountsBaseEndpoint, hurl]
    rw [← h1]
    cases hreq : c1.createRequest rt "DELETE".toList ("/organisation/accounts/".toList ++ id
        ++ "?version=".toList ++ decimal version) none with
    | error e => rfl
    | ok req => simp only [h2 req hreq]

/-! ## The number literals of `float64` values -/

theorem allDigits_natDigits (n : Nat) : AllDigits (natDigits n) := by
  obtain ⟨c, cs, hcs, hc, _, hall⟩ := natDigits_shape n
  intro d hd
  rw [hcs] at hd
  rcases List.mem_cons.mp hd with h | h
  · rw [h]; exact hc
  · exact hall d h

theorem allDigits_replicate (k : Nat) : AllDigits (List.replicate k '0') := by
  intro d hd
  rw [List.mem_replicate] at hd
  rw [hd.2]
  decide

theorem allDigits_append (a b : Text) (ha : AllDigits a) (hb : AllDigits b) :
    AllDigits (a ++ b) := by
  intro d hd
  rcases List.mem_append.mp hd with h | h
  · exact ha d h
  · exact hb d h

theorem allDigits_take (a : Text) (k : Nat) (ha : AllDigits a) : AllDigits (a.take k) :=
  fun d hd => ha d (List.mem_of_mem_take hd)

theorem allDigits_drop (a : Text) (k : Nat) (ha : AllDigits a) : AllDigits (a.drop k) :=
  fun d hd => ha d (List.mem_of_mem_drop hd)

/-- The integer part of a number literal: digits that are a lone `0` or do not
begin with `0`. -/
theorem intPart_of_digits (d : Char) (ds : Text) (hd : isDigit d = true) (hds : AllDigits ds)
    (h0 : d = '0' → ds = []) :
    d :: ds = ['0'] ∨ ∃ c cs, d :: ds = c :: cs ∧ isDigit c = true ∧ c ≠ '0' ∧ AllDigits cs := by
  by_cases h : d = '0'
  · left
    rw [h0 h, h]
  · exact Or.inr ⟨d, ds, rfl, hd, h, hds⟩

/-- The `%e` form of a number is a number literal. -/
theorem numLit_formatExp (sign : Text) (hs : sign = [] ∨ sign = ['-']) (n : Nat) (dp : Int) :
    NumLit (sign ++ formatExp (natDigits n) dp) := by
  obtain ⟨c, cs, hcs, hc, _, hall⟩ := natDigits_shape n
  have hexp : ∃ s, (s = '+' ∨ s = '-')
      ∧ ('e' :: (if dp - 1 < 0 then '-' else '+') :: natDigits (dp - 1).natAbs)
        = 'e' :: s :: natDigits (dp - 1).natAbs := by
    by_cases hx : dp - 1 < 0
    · exact ⟨'-', Or.inr rfl, by simp [hx]⟩
    · exact ⟨'+', Or.inl rfl, by simp [hx]⟩
  obtain ⟨s, hs1, hs2⟩ := hexp
  have hep : ∃ s1 ds, 'e' :: s :: natDigits (dp - 1).natAbs = 'e' :: s1 :: ds
      ∧ (s1 = '+' ∨ s1 = '-') ∧ ds ≠ [] ∧ AllDigits ds :=
    ⟨s, _, rfl, hs1, natDigits_ne_nil _, allDigits_natDigits _⟩
  have hip : [c] = ['0'] ∨ ∃ d ds, [c] = d :: ds ∧ isDigit d = true ∧ d ≠ '0' ∧ AllDigits ds :=
    intPart_of_digits c [] hc (by intro d hd; cases hd) (fun _ => rfl)
  cases cs with
  | nil =>
    refine ⟨sign, [c], [], 'e' :: s :: natDigits (dp - 1).natAbs, ?_, hs, hip, Or.inl rfl,
      Or.inr hep⟩
    simp only [formatExp, hcs, hs2, List.nil_append, List.cons_append]
  | cons c2 cs2 =>
    refine ⟨sign, [c], '.' :: c2 :: cs2, 'e' :: s :: natDigits (dp - 1).natAbs, ?_, hs, hip,
      Or.inr ⟨c2 :: cs2, rfl, by simp, hall⟩, Or.inr hep⟩
    simp only [formatExp, hcs, hs2, List.nil_append, List.cons_append]

/-- The `%f` form of a number is a number literal. -/
theorem numLit_formatFixed (sign : Text) (hs : sign = [] ∨ sign = ['-']) (n : Nat) (dp : Int)
    (hz : n = 0 → dp = 1) : NumLit (sign ++ formatFixed (natDigits n) dp) := by
  obtain ⟨c, cs, hcs, hc, hc0, hall⟩ := natDigits_shape n
  have hds : AllDigits (natDigits n) := allDigits_natDigits n
  have hlen : (natDigits n).length = cs.length + 1 := by rw [hcs]; rfl
  by_cases hpos : 0 < dp
  · -- the integer part is the first `dp` digits, padded with zeros
    obtain ⟨k, hk⟩ : ∃ k : Nat, dp.toNat = k + 1 := ⟨dp.toNat - 1, by omega⟩
    have hint : (natDigits n).take dp.toNat ++ List.replicate (dp.toNat - (natDigits n).length) '0'
        = c :: (cs.take k ++ List.replicate (dp.toNat - (natDigits n).length) '0') := by
      rw [hcs, hk]
      rfl
    have hip : c :: (cs.take k ++ List.replicate (dp.toNat - (natDigits n).length) '0') = ['0']
        ∨ ∃ d ds, c :: (cs.take k ++ List.replicate (dp.toNat - (natDigits n).length) '0')
            = d :: ds ∧ isDigit d = true ∧ d ≠ '0' ∧ AllDigits ds := by
      apply intPart_of_digits c _ hc
        (allDigits_append _ _ (allDigits_take cs k hall) (allDigits_replicate _))
      intro h0
      have hn := hc0 h0
      have hdp := hz hn
      subst hn
      have h1 : natDigits 0 = ['0'] := rfl
      rw [h1] at hcs
      injection hcs with _ h2
      subst h2
      have : dp.toNat - (natDigits 0).length = 0 := by rw [h1, hdp]; rfl
      rw [this]
      simp
    by_cases hfrac : dp < ((natDigits n).length : Int)
    · have hne : (natDigits n).drop dp.toNat ≠ [] := by
        intro h
        have := List.drop_eq_nil_iff.mp h
        omega
      refine ⟨sign, _, '.' :: (natDigits n).drop dp.toNat, [], ?_, hs, hip,
        Or.inr ⟨_, rfl, hne, allDigits_drop _ _ hds⟩, Or.inl rfl⟩
      have hneg : (-dp).toNat = 0 := by omega
      simp only [formatFixed, hpos, if_true, hfrac, hint, hneg, List.replicate_zero,
        List.nil_append, List.append_nil]
    · refine ⟨sign, _, [], [], ?_, hs, hip, Or.inl rfl, Or.inl rfl⟩
      simp only [formatFixed, hpos, if_true, hfrac, if_false, hint, List.append_nil]
  · -- a lone zero, then the fraction
    have hfrac : dp < ((natDigits n).length : Int) := by omega
    have hto : dp.toNat = 0 := by omega
    refine ⟨sign, ['0'], '.' :: (List.replicate (-dp).toNat '0' ++ natDigits n), [], ?_, hs,
      Or.inl rfl, Or.inr ⟨_, rfl, ?_, allDigits_append _ _ (allDigits_replicate _) hds⟩,
      Or.inl rfl⟩
    · simp only [formatFixed, hpos, if_false, hfrac, if_true, hto, List.drop_zero,
        List.append_nil]
    · intro h
      have := List.append_eq_nil.mp h
      exact natDigits_ne_nil n this.2

theorem stripZeros_ne_zero (fuel d : Nat) (s : Int) (hd : d ≠ 0) :
    (stripZeros fuel d s).1 ≠ 0 := by
  induction fuel generalizing d s with
  | zero => simpa [stripZeros] using hd
  | succ k ih =>
    rw [stripZeros]
    simp only [hd, if_false]
    by_cases h10 : d % 10 = 0
    · simp only [h10, if_true]
      exact ih (d / 10) (s + 1) (by omega)
    · simpa [h10] using hd

theorem stripZeros_zero (fuel d : Nat) (s : Int)
    (h : (stripZeros (fuel + 1) d s).1 = 0) : stripZeros (fuel + 1) d s = (0, 0) := by
  by_cases hd : d = 0
  · subst hd
    simp [stripZeros]
  · exact absurd h (stripZeros_ne_zero _ d s hd)

/-- What `json.Marshal` writes for a `float64` is a number literal. -/
theorem numLit_formatFloat (f : F64) (lit : Text) (h : formatFloat f = some lit) :
    NumLit lit := by
  cases f with
  | nan => simp [formatFloat] at h
  | inf neg => simp [formatFloat] at h
  | finite neg m e =>
    have hs : (if neg = true then ['-'] else ([] : Text)) = []
        ∨ (if neg = true then ['-'] else ([] : Text)) = ['-'] := by
      cases neg
      · exact Or.inl rfl
      · exact Or.inr rfl
    simp only [formatFloat] at h
    split at h
    · injection h with h
      subst h
      exact numLit_natDigits _ hs 0
    · split at h
      · injection h with h
        subst h
        exact numLit_natDigits _ hs _
      · split at h
        · injection h with h
          subst h
          exact numLit_formatExp _ hs _ _
        · injection h with h
          subst h
          apply numLit_formatFixed _ hs
          intro h0
          have := stripZeros_zero 17 _ _ h0
          rw [h0, this]
          have h1 : natDigits 0 = ['0'] := rfl
          rw [h1]
          rfl

/-! ## Integers through `float64` -/

theorem allDigits_of_digitsValue (ds : Text) (a m : Nat) (h : digitsValue ds a = some m) :
    AllDigits ds := by
  induction ds generalizing a with
  | nil => intro d hd; cases hd
  | cons c cs ih =>
    unfold digitsValue at h
    by_cases hc : isDigit c = true
    · simp only [hc, if_true] at h
      intro d hd
      rcases List.mem_cons.mp hd with h1 | h1
      · rw [h1]; exact hc
      · exact ih _ h d h1
    · simp [hc] at h

/-- The digits `c :: cs` of a natural number below `2 ^ 53`, read as a
`float64` with the sign `neg` and written again, are the digits of the number
without leading zeros. -/
theorem float_of_digits (neg : Bool) (c : Char) (cs : Text) (m : Nat)
    (hd : digitsValue (c :: cs) 0 = some m) (hm : m < 2 ^ 53) :
    ∃ f, literalToFloat ((if neg then ['-'] else []) ++ c :: cs) = some f
      ∧ formatFloat f = some ((if neg then ['-'] else []) ++ natDigits m) := by
  have hm2 : m < 9007199254740992 := by simpa using hm
  have hall := allDigits_of_digitsValue (c :: cs) 0 m hd
  have hc : c ≠ '-' := by
    intro h
    have := hall c (List.mem_cons_self _ _)
    rw [h] at this
    exact absurd this (by decide)
  have hspan : spanDigits (c :: cs) = (c :: cs, []) := by
    have := spanDigits_append (c :: cs) [] hall endsDigits_nil
    simpa using this
  by_cases h0 : m = 0
  · subst h0
    refine ⟨.finite neg 0 0, ?_, ?_⟩
    · cases neg
      · simp [literalToFloat, hc, hspan, hd, exponentValue, decimalToFloat]
      · simp [literalToFloat, hspan, hd, exponentValue, decimalToFloat]
    · cases neg <;> rfl
  · obtain ⟨hs1, hs2, hs3⟩ := stripTwos_spec 64 m 0 h0
    simp only [Int.sub_zero] at hs3
    refine ⟨.finite neg (stripTwos 64 m 0).1 (stripTwos 64 m 0).2, ?_, ?_⟩
    · cases neg
      · simp [literalToFloat, hc, hspan, hd, exponentValue, decimalToFloat, h0, hm2]
      · simp [literalToFloat, hspan, hd, exponentValue, decimalToFloat, h0, hm2]
    · cases neg <;> simp [formatFloat, hs1, hs2, hs3, hm2]

/-- An integer literal below `2 ^ 53` in magnitude passes through `float64`:
read as a `float64` and written again, it is a number literal that denotes the
same integer. -/
theorem float_of_int (lit : Text) (n : Int) (hl : literalToInt lit = some n)
    (h : n.natAbs < 2 ^ 53) :
    ∃ f lit2, literalToFloat lit = some f ∧ formatFloat f = some lit2
      ∧ literalToInt lit2 = some n ∧ NumLit lit2 := by
  have h2 : n.natAbs < 9007199254740992 := by simpa using h
  cases lit with
  | nil => simp [literalToInt] at hl
  | cons c cs =>
    by_cases hc : c = '-'
    · subst hc
      cases cs with
      | nil => simp [literalToInt] at hl
      | cons d ds =>
        simp only [literalToInt, reduceCtorEq, if_false] at hl
        cases hdv : digitsValue (d :: ds) 0 with
        | none => simp [hdv] at hl
        | some m =>
          simp only [hdv] at hl
          split at hl
          · injection hl with hl
            have hm : m < 2 ^ 53 := by
              have : n.natAbs = m := by omega
              omega
            obtain ⟨f, hf1, hf2⟩ := float_of_digits true d ds m hdv hm
            refine ⟨f, _, hf1, hf2, ?_, numLit_natDigits ['-'] (Or.inr rfl) m⟩
            have h63 : m ≤ 9223372036854775808 := by omega
            simp [literalToInt, natDigits_ne_nil, natDigits_value, h63, hl]
          · cases hl
    · have hl2 : (match digitsValue (c :: cs) 0 with
          | some n => if n < 2 ^ 63 then some (n : Int) else none
          | none => none) = some n := by
        simpa [literalToInt, hc] using hl
      cases hdv : digitsValue (c :: cs) 0 with
      | none => simp [hdv] at hl2
      | some m =>
        simp only [hdv] at hl2
        split at hl2
        · injection hl2 with hl2
          have hm : m < 2 ^ 53 := by
            have : n.natAbs = m := by omega
            omega
          obtain ⟨f, hf1, hf2⟩ := float_of_digits false c cs m hdv hm
          refine ⟨f, _, hf1, hf2, ?_, numLit_natDigits [] (Or.inl rfl) m⟩
          have hint := literalToInt_intDigits (m : Int) (by omega) (by omega)
          have hdig : intDigits (m : Int) = natDigits m := by simp [intDigits]
          rw [hdig] at hint
          simp only [Bool.false_eq_true, if_false, List.nil_append, hint, hl2]
        · cases hl2

/-! ## The map of the untyped pass -/

theorem membersToInterface_noerr (kvs : List (Text × Json)) (m : List (Text × GoVal))
    (h : ∀ kv ∈ kvs, (toInterface kv.2).2 = none) :
    (toInterface.membersToInterface kvs m).2 = none := by
  induction kvs generalizing m with
  | nil => rfl
  | cons kv kvs ih =>
    obtain ⟨k, v⟩ := kv
    have h1 := h (k, v) (List.mem_cons_self _ _)
    have h2 := ih (mapInsert k (toInterface v).1 m) (fun w hw => h w (List.mem_cons_of_mem _ hw))
    simp only [toInterface.membersToInterface, h1, h2, firstError]

theorem mapInsert_key_mem (k : Text) (v : GoVal) (m : List (Text × GoVal)) :
    k ∈ (mapInsert k v m).map Prod.fst := by
  induction m with
  | nil => simp [mapInsert]
  | cons kv rest ih =>
    obtain ⟨k1, v1⟩ := kv
    unfold mapInsert
    by_cases h1 : k = k1
    · simp [h1]
    · by_cases h2 : keyLt k k1 = true
      · simp [h1, h2]
      · simp only [h1, if_false, h2, Bool.false_eq_true, List.map_cons, List.mem_cons]
        exact Or.inr ih

theorem mapInsert_key_keep (k k0 : Text) (v : GoVal) (m : List (Text × GoVal))
    (h : k0 ∈ m.map Prod.fst) : k0 ∈ (mapInsert k v m).map Prod.fst := by
  induction m with
  | nil => simp at h
  | cons kv rest ih =>
    obtain ⟨k1, v1⟩ := kv
    simp only [List.map_cons, List.mem_cons] at h
    unfold mapInsert
    by_cases h1 : k = k1
    · simp only [h1, if_true, List.map_cons, List.mem_cons]
      exact h
    · by_cases h2 : keyLt k k1 = true
      · simp only [h1, if_false, h2, if_true, List.map_cons, List.mem_cons]
        exact Or.inr h
      · simp only [h1, if_false, h2, Bool.false_eq_true, List.map_cons, List.mem_cons]
        rcases h with h | h
        · exact Or.inl h
        · exact Or.inr (ih h)

theorem mapInsert_keys (k k0 : Text) (v : GoVal) (m : List (Text × GoVal))
    (h : k0 ∈ (mapInsert k v m).map Prod.fst) : k0 = k ∨ k0 ∈ m.map Prod.fst := by
  obtain ⟨e, he, hk⟩ := List.mem_map.mp h
  rcases mem_mapInsert k v m e he with h1 | h1
  · left
    rw [← hk, h1]
  · right
    exact List.mem_map.mpr ⟨e, h1, hk⟩

theorem keyLt_irrefl (a : Text) : keyLt a a = false := by
  induction a with
  | nil => rfl
  | cons c cs ih => simp [keyLt, ih]

theorem keyLt_trans (a b c : Text) (h1 : keyLt a b = true) (h2 : keyLt b c = true) :
    keyLt a c = true := by
  induction a generalizing b c with
  | nil =>
    cases b with
    | nil => simp [keyLt] at h1
    | cons y ys =>
      cases c with
      | nil => simp [keyLt] at h2
      | cons z zs => rfl
  | cons x xs ih =>
    cases b with
    | nil => simp [keyLt] at h1
    | cons y ys =>
      cases c with
      | nil => simp [keyLt] at h2
      | cons z zs =>
        unfold keyLt at h1 h2 ⊢
        by_cases hxy : x.toNat < y.toNat
        · by_cases hyz : y.toNat < z.toNat
          · have : x.toNat < z.toNat := by omega
            simp [this]
          · by_cases hzy : z.toNat < y.toNat
            · simp [hyz, hzy] at h2
            · have : x.toNat < z.toNat := by omega
              simp [this]
        · by_cases hyx : y.toNat < x.toNat
          · simp [hxy, hyx] at h1
          · simp only [hxy, if_false, hyx] at h1
            by_cases hyz : y.toNat < z.toNat
            · have : x.toNat < z.toNat := by omega
              simp [this]
            · by_cases hzy : z.toNat < y.toNat
              · simp [hyz, hzy] at h2
              · simp only [hyz, if_false, hzy] at h2
                have h3 : ¬ x.toNat < z.toNat := by omega
                have h4 : ¬ z.toNat < x.toNat := by omega
                simp only [h3, if_false, h4]
                exact ih ys zs h1 h2

theorem keyLt_total (a b : Text) (hne : a ≠ b) (h : keyLt a b = false) : keyLt b a = true := by
  induction a generalizing b with
  | nil =>
    cases b with
    | nil => exact absurd rfl hne
    | cons y ys => simp [keyLt] at h
  | cons x xs ih =>
    cases b with
    | nil => rfl
    | cons y ys =>
      unfold keyLt at h ⊢
      by_cases hxy : x.toNat < y.toNat
      · simp [hxy] at h
      · by_cases hyx : y.toNat < x.toNat
        · simp [hyx]
        · simp only [hxy, if_false, hyx] at h
          simp only [hyx, if_false, hxy]
          have hx : x = y := by
            have h1 : x.toNat = y.toNat := by omega
            rw [← Char.ofNat_toNat x, ← Char.ofNat_toNat y, h1]
          apply ih ys _ h
          intro hxs
          exact hne (by rw [hx, hxs])

theorem mapInsert_sorted (k : Text) (v : GoVal) (m : List (Text × GoVal)) (h : KeysSorted m) :
    KeysSorted (mapInsert k v m) := by
  induction m with
  | nil => simp [mapInsert, KeysSorted]
  | cons kv rest ih =>
    obtain ⟨k1, v1⟩ := kv
    simp only [KeysSorted, List.map_cons, List.pairwise_cons] at h
    unfold mapInsert
    by_cases h1 : k = k1
    · simp only [h1, if_true, KeysSorted, List.map_cons, List.pairwise_cons]
      exact h
    · by_cases h2 : keyLt k k1 = true
      · simp only [h1, if_false, h2, if_true, KeysSorted, List.map_cons, List.pairwise_cons,
          List.mem_cons]
        refine ⟨?_, h⟩
        intro a ha
        rcases ha with ha | ha
        · rw [ha]; exact h2
        · exact keyLt_trans _ _ _ h2 (h.1 a ha)
      · simp only [h1, if_false, h2, Bool.false_eq_true, KeysSorted, List.map_cons,
          List.pairwise_cons]
        refine ⟨?_, ih h.2⟩
        intro a ha
        rcases mapInsert_keys k a v rest ha with h3 | h3
        · rw [h3]
          exact keyLt_total k k1 h1 (by simpa using h2)
        · exact h.1 a h3

theorem membersToInterface_sorted (kvs : List (Text × Json)) (m : List (Text × GoVal))
    (h : KeysSorted m) : KeysSorted (toInterface.membersToInterface kvs m).1 := by
  induction kvs generalizing m with
  | nil => exact h
  | cons kv kvs ih =>
    obtain ⟨k, v⟩ := kv
    simp only [toInterface.membersToInterface]
    exact ih _ (mapInsert_sorted k _ m h)

theorem keysSorted_nodup (m : List (Text × GoVal)) (h : KeysSorted m) :
    (m.map Prod.fst).Nodup := by
  unfold KeysSorted at h
  refine List.Pairwise.imp ?_ h
  intro a b hab heq
  rw [heq, keyLt_irrefl] at hab
  cases hab

/-- Every key of the object is a key of the map. -/
theorem membersToInterface_key_mem (kvs : List (Text × Json)) (m : List (Text × GoVal))
    (k : Text) (h : k ∈ kvs.map Prod.fst ∨ k ∈ m.map Prod.fst) :
    k ∈ (toInterface.membersToInterface kvs m).1.map Prod.fst := by
  induction kvs generalizing m with
  | nil =>
    rcases h with h | h
    · simp at h
    · exact h
  | cons kv kvs ih =>
    obtain ⟨k1, v1⟩ := kv
    simp only [toInterface.membersToInterface]
    apply ih
    rcases h with h | h
    · simp only [List.map_cons, List.mem_cons] at h
      rcases h with h | h
      · right
        rw [h]
        exact mapInsert_key_mem _ _ _
      · exact Or.inl h
    · exact Or.inr (mapInsert_key_keep _ _ _ _ h)

/-! ## Documents that pass through the two passes -/

theorem literalToFloat_finite (lit : Text) (f : F64) (h : literalToFloat lit = some f) :
    ∃ neg m e, f = .finite neg m e := by
  unfold literalToFloat at h
  simp only [] at h
  split at h
  · split at h
    · injection h with h
      exact ⟨_, _, _, h.symm⟩
    · cases h
  · cases h

theorem formatFloat_finite (neg : Bool) (m : Nat) (e : Int) :
    (formatFloat (.finite neg m e)).isSome = true := by
  simp only [formatFloat]
  split
  · rfl
  · split
    · rfl
    · split <;> rfl

theorem good_slice (vs : List GoVal)
    (h : ∀ v ∈ vs, (toJson v).isSome = true ∧ (toJsonD v).Canon) :
    (toJson (.slice vs)).isSome = true ∧ (toJsonD (.slice vs)).Canon
      ∧ toJsonD (.slice vs) = .arr (vs.map toJsonD) := by
  have h1 := elemsToJson_eq vs (fun v hv => (h v hv).1)
  have h2 : toJsonD (.slice vs) = .arr (vs.map toJsonD) := by
    show (toJson (.slice vs)).getD .null = _
    rw [toJson, h1]
    rfl
  refine ⟨by rw [toJson, h1]; rfl, ?_, h2⟩
  rw [h2]
  show Json.Canon.canonElems _
  rw [canonElems_iff]
  intro x hx
  obtain ⟨v, hv, rfl⟩ := List.mem_map.mp hx
  exact (h v hv).2

theorem good_map (m : List (Text × GoVal))
    (h : ∀ e ∈ m, (toJson e.2).isSome = true ∧ (toJsonD e.2).Canon) :
    (toJson (.map m)).isSome = true ∧ (toJsonD (.map m)).Canon
      ∧ toJsonD (.map m) = .obj (m.map fun e => (e.1, toJsonD e.2)) := by
  have h1 := entriesToJson_eq m (fun e he => (h e he).1)
  have h2 := toJsonD_map m (fun e he => (h e he).1)
  refine ⟨by rw [toJson, h1]; rfl, ?_, h2⟩
  rw [h2]
  show Json.Canon.canonMembers _
  rw [canonMembers_iff]
  intro x hx
  obtain ⟨e, he, rfl⟩ := List.mem_map.mp hx
  exact (h e he).2

mutual
/-- A passable document is read untyped without error, and what is written
again from it is a document that reads back. -/
theorem passable_ok : ∀ (j : Json), Passable j = true →
    (toInterface j).2 = none ∧ (toJson (toInterface j).1).isSome = true
      ∧ (toJsonD (toInterface j).1).Canon
  | .null, _ => ⟨rfl, rfl, trivial⟩
  | .bool _, _ => ⟨rfl, rfl, trivial⟩
  | .str _, _ => ⟨rfl, rfl, trivial⟩
  | .coerced _, h => by simp [Passable] at h
  | .num lit, h => by
    simp only [Passable] at h
    cases hf : literalToFloat lit with
    | none => simp [hf] at h
    | some f =>
      obtain ⟨neg, m, e, rfl⟩ := literalToFloat_finite lit f hf
      have hs := formatFloat_finite neg m e
      cases hlit : formatFloat (.finite neg m e) with
      | none => simp [hlit] at hs
      | some lit2 =>
        have hn := numLit_formatFloat _ _ hlit
        simp only [toInterface, hf, toJson, toJsonD, hlit, Option.map_some', Option.isSome_some,
          Option.getD_some, Json.Canon, true_and]
        exact hn
  | .arr xs, h => by
    simp only [Passable] at h
    have hall := passable_elems xs h
    have h1 := elemsToInterface_eq xs (fun x hx => (hall x hx).1)
    have h2 := good_slice (xs.map fun x => (toInterface x).1) (by
      intro v hv
      obtain ⟨x, hx, rfl⟩ := List.mem_map.mp hv
      exact (hall x hx).2)
    simp only [toInterface, h1]
    exact ⟨trivial, h2.1, h2.2.1⟩
  | .obj kvs, h => by
    simp only [Passable] at h
    have hall := passable_members kvs h
    have h1 := membersToInterface_noerr kvs [] (fun kv hkv => (hall kv hkv).1)
    have h2 := good_map (toInterface.membersToInterface kvs []).1 (by
      intro e he
      rcases mem_membersToInterface kvs [] e he with h3 | ⟨kv, hkv, rfl⟩
      · cases h3
      · exact (hall kv hkv).2)
    simp only [toInterface, h1]
    exact ⟨trivial, h2.1, h2.2.1⟩
theorem passable_elems : ∀ (xs : List Json), Passable.passElems xs = true →
    ∀ x ∈ xs, (toInterface x).2 = none ∧ (toJson (toInterface x).1).isSome = true
      ∧ (toJsonD (toInterface x).1).Canon
  | [], _, _, hx => by cases hx
  | y :: ys, h, x, hx => by
    simp only [Passable.passElems, Bool.and_eq_true] at h
    rcases List.mem_cons.mp hx with h1 | h1
    · subst h1
      exact passable_ok x h.1
    · exact passable_elems ys h.2 x h1
theorem passable_members : ∀ (kvs : List (Text × Json)), Passable.passMembers kvs = true →
    ∀ kv ∈ kvs, (toInterface kv.2).2 = none ∧ (toJson (toInterface kv.2).1).isSome = true
      ∧ (toJsonD (toInterface kv.2).1).Canon
  | [], _, _, hx => by cases hx
  | (k, v) :: rest, h, kv, hx => by
    simp only [Passable.passMembers, Bool.and_eq_true] at h
    rcases List.mem_cons.mp hx with h1 | h1
    · subst h1
      exact passable_ok v h.1
    · exact passable_members rest h.2 kv h1
end

/-! ## Members and fields -/

theorem setField_get (cfs : List (Field × GoVal)) (i : Nat) (v : GoVal) :
    (setField cfs i v)[i]? = (cfs[i]?).map fun fv => (fv.1, v) := by
  induction cfs generalizing i with
  | nil => simp [setField]
  | cons fv rest ih =>
    obtain ⟨g, u⟩ := fv
    cases i with
    | zero => simp [setField]
    | succ k => simpa [setField] using ih k

theorem fieldValue_setField_other (cfs : List (Field × GoVal)) (fs : List (Field × GoType))
    (i j : Nat) (v : GoVal) (h : j ≠ i) :
    fieldValue (setField cfs i v) fs j = fieldValue cfs fs j := by
  simp only [fieldValue, List.get?_eq_getElem?, setField_get_other cfs i j v h]

theorem findIndex_lt {α : Type} (p : α → Bool) (l : List α) (i : Nat)
    (h : findIndex p l = some i) : ∃ x, l[i]? = some x := by
  induction l generalizing i with
  | nil => simp [findIndex] at h
  | cons a rest ih =>
    unfold findIndex at h
    by_cases hp : p a = true
    · simp only [hp, if_true, Option.some.injEq] at h
      subst h
      exact ⟨a, by simp⟩
    · simp only [hp, Bool.false_eq_true, if_false, Option.map_eq_some'] at h
      obtain ⟨k, hk, rfl⟩ := h
      obtain ⟨x, hx⟩ := ih k hk
      exact ⟨x, by simpa using hx⟩

/-- A member names a field that the struct has. -/
theorem findField_lt (fs : List (Field × GoType)) (k : Text) (i : Nat)
    (h : findField fs k = some i) : ∃ ft, fs[i]? = some ft := by
  unfold findField at h
  split at h
  · rename_i j hj
    injection h with h
    subst h
    exact findIndex_lt _ _ _ hj
  · exact findIndex_lt _ _ _ h

theorem fieldType_get (fs : List (Field × GoType)) (i : Nat) (ft : Field × GoType)
    (h : fs[i]? = some ft) : fieldType fs i = ft.2 := by
  simp [fieldType, List.get?_eq_getElem?, h]

theorem fieldValue_zero (fs : List (Field × GoType)) (i : Nat) (ft : Field × GoType)
    (h : fs[i]? = some ft) : fieldValue (GoType.zero.zeroFields fs) fs i = ft.2.zero := by
  simp [fieldValue, List.get?_eq_getElem?, zeroFields_get fs i ft h]

/-- Two members that name the same field are the same member, when no two
members clash. -/
theorem target_unique (fs : List (Field × GoType)) (L : List (Text × Json))
    (hnd : (L.filterMap fun kv => findField fs kv.1).Nodup) (a b : Text × Json)
    (ha : a ∈ L) (hb : b ∈ L) (i : Nat) (hai : findField fs a.1 = some i)
    (hbi : findField fs b.1 = some i) : a = b := by
  induction L with
  | nil => cases ha
  | cons x rest ih =>
    cases hx : findField fs x.1 with
    | none =>
      simp only [List.filterMap_cons, hx] at hnd
      have ha2 : a ∈ rest := by
        rcases List.mem_cons.mp ha with h | h
        · rw [h, hx] at hai; cases hai
        · exact h
      have hb2 : b ∈ rest := by
        rcases List.mem_cons.mp hb with h | h
        · rw [h, hx] at hbi; cases hbi
        · exact h
      exact ih hnd ha2 hb2
    | some j =>
      simp only [List.filterMap_cons, hx, List.nodup_cons] at hnd
      have hin : ∀ c ∈ rest, findField fs c.1 = some i → i ∈ rest.filterMap fun kv =>
          findField fs kv.1 := fun c hc hci => List.mem_filterMap.mpr ⟨c, hc, hci⟩
      rcases List.mem_cons.mp ha with h1 | h1
      · rcases List.mem_cons.mp hb with h2 | h2
        · rw [h1, h2]
        · exfalso
          rw [h1, hx] at hai
          injection hai with hai
          subst hai
          exact hnd.1 (hin b h2 hbi)
      · rcases List.mem_cons.mp hb with h2 | h2
        · exfalso
          rw [h2, hx] at hbi
          injection hbi with hbi
          subst hbi
          exact hnd.1 (hin a h1 hai)
        · exact ih hnd.2 h1 h2

theorem memberFor_of_mem (fs : List (Field × GoType)) (kvs : List (Text × Json))
    (hnd : (kvs.filterMap fun kv => findField fs kv.1).Nodup) (kv : Text × Json)
    (hkv : kv ∈ kvs) (i : Nat) (hi : findField fs kv.1 = some i) :
    memberFor fs kvs i = some kv.2 := by
  unfold memberFor
  cases hf : kvs.find? fun kv => decide (findField fs kv.1 = some i) with
  | none =>
    have := List.find?_eq_none.mp hf kv hkv
    simp [hi] at this
  | some kv2 =>
    have h1 := List.find?_some hf
    have h2 := List.mem_of_find?_eq_some hf
    simp only [decide_eq_true_eq] at h1
    have := target_unique fs kvs hnd kv2 kv h2 hkv i h1 hi
    rw [this]
    rfl

theorem memberFor_none (fs : List (Field × GoType)) (kvs : List (Text × Json)) (i : Nat)
    (h : ∀ kv ∈ kvs, findField fs kv.1 ≠ some i) : memberFor fs kvs i = none := by
  unfold memberFor
  have : kvs.find? (fun kv => decide (findField fs kv.1 = some i)) = none := by
    apply List.find?_eq_none.mpr
    intro kv hkv
    simpa using h kv hkv
  rw [this]
  rfl

theorem fitsFields_get (rest all : List (Field × GoType)) (kvs : List (Text × Json)) (i : Nat)
    (h : Fits.fitsFields rest all kvs i = true) (idx : Nat) (ft : Field × GoType)
    (hidx : rest[idx]? = some ft) :
    (match memberFor all kvs (i + idx) with
      | some v => Fits ft.2 v
      | none => true) = true := by
  induction rest generalizing i idx with
  | nil => simp at hidx
  | cons gt rest ih =>
    obtain ⟨g, t⟩ := gt
    simp only [Fits.fitsFields, Bool.and_eq_true] at h
    cases idx with
    | zero =>
      simp only [List.getElem?_cons_zero, Option.some.injEq] at hidx
      subst hidx
      exact h.1
    | succ k =>
      simp only [List.getElem?_cons_succ] at hidx
      have := ih (i + 1) h.2 k hidx
      have he : i + 1 + k = i + (k + 1) := by omega
      rw [he] at this
      exact this

theorem fieldsAs_length (rest all : List (Field × GoType)) (kvs : List (Text × Json)) (i : Nat) :
    (valueAs.fieldsAs rest all kvs i).length = rest.length := by
  induction rest generalizing i with
  | nil => rfl
  | cons gt rest ih =>
    obtain ⟨g, t⟩ := gt
    simp [valueAs.fieldsAs, ih]

theorem fieldsAs_get (rest all : List (Field × GoType)) (kvs : List (Text × Json)) (i : Nat)
    (idx : Nat) (ft : Field × GoType) (hidx : rest[idx]? = some ft) :
    (valueAs.fieldsAs rest all kvs i)[idx]?
      = some (ft.1, match memberFor all kvs (i + idx) with
          | some v => valueAs ft.2 v
          | none => ft.2.zero) := by
  induction rest generalizing i idx with
  | nil => simp at hidx
  | cons gt rest ih =>
    obtain ⟨g, t⟩ := gt
    cases idx with
    | zero =>
      simp only [List.getElem?_cons_zero, Option.some.injEq] at hidx
      subst hidx
      simp [valueAs.fieldsAs]
    | succ k =>
      simp only [List.getElem?_cons_succ] at hidx
      have := ih (i + 1) k hidx
      have he : i + 1 + k = i + (k + 1) := by omega
      rw [he] at this
      simpa [valueAs.fieldsAs] using this

/-- The members of an object stored into a struct, when no two of them name
the same field and none fails: a field that a member names holds what the
member decodes to, and the other fields are left alone. -/
theorem decodeMembers_spec (fs : List (Field × GoType)) :
    ∀ (L : List (Text × Json)) (cfs : List (Field × GoVal)),
    (L.filterMap fun kv => findField fs kv.1).Nodup →
    (∀ kv ∈ L, ∀ i, findField fs kv.1 = some i →
      (decode (fieldType fs i) kv.2 (fieldValue cfs fs i)).2 = none) →
    (decodeMembers fs L cfs).2 = none
      ∧ (decodeMembers fs L cfs).1.length = cfs.length
      ∧ (∀ kv ∈ L, ∀ i, findField fs kv.1 = some i →
          (decodeMembers fs L cfs).1[i]?
            = (cfs[i]?).map fun fv =>
                (fv.1, (decode (fieldType fs i) kv.2 (fieldValue cfs fs i)).1))
      ∧ (∀ i, (∀ kv ∈ L, findField fs kv.1 ≠ some i) →
          (decodeMembers fs L cfs).1[i]? = cfs[i]?) := by
  intro L
  induction L with
  | nil =>
    intro cfs _ _
    refine ⟨by simp [decodeMembers], by simp [decodeMembers], ?_, ?_⟩
    · intro kv hkv
      cases hkv
    · intro i _
      simp [decodeMembers]
  | cons x rest ih =>
    intro cfs hnd hok
    obtain ⟨k, w⟩ := x
    rw [decodeMembers]
    cases hf : findField fs k with
    | none =>
      have hnd2 : (rest.filterMap fun kv => findField fs kv.1).Nodup := by
        simpa only [List.filterMap_cons, hf] using hnd
      obtain ⟨h1, h2, h3, h4⟩ := ih cfs hnd2
        (fun kv hkv i hi => hok kv (List.mem_cons_of_mem _ hkv) i hi)
      simp only []
      refine ⟨h1, h2, ?_, ?_⟩
      · intro kv hkv i hi
        rcases List.mem_cons.mp hkv with h | h
        · rw [h] at hi
          simp only [] at hi
          rw [hf] at hi
          cases hi
        · exact h3 kv h i hi
      · intro i hi
        exact h4 i (fun kv hkv => hi kv (List.mem_cons_of_mem _ hkv))
    | some i0 =>
      simp only [List.filterMap_cons, hf, List.nodup_cons] at hnd
      have hd := hok (k, w) (List.mem_cons_self _ _) i0 hf
      have hne : ∀ kv ∈ rest, ∀ i, findField fs kv.1 = some i → i ≠ i0 := by
        intro kv hkv i hi h
        subst h
        exact hnd.1 (List.mem_filterMap.mpr ⟨kv, hkv, hi⟩)
      obtain ⟨h1, h2, h3, h4⟩ := ih
        (setField cfs i0 (decode (fieldType fs i0) w (fieldValue cfs fs i0)).1) hnd.2
        (by
          intro kv hkv i hi
          rw [fieldValue_setField_other cfs fs i0 i _ (hne kv hkv i hi)]
          exact hok kv (List.mem_cons_of_mem _ hkv) i hi)
      simp only []
      refine ⟨by simp only [hd, h1, firstError], by rw [h2, setField_length], ?_, ?_⟩
      · intro kv hkv i hi
        rcases List.mem_cons.mp hkv with h | h
        · subst h
          simp only [] at hi
          rw [hf] at hi
          injection hi with hi
          subst hi
          rw [h4 i0 (fun kv2 hkv2 h5 => hne kv2 hkv2 i0 h5 rfl), setField_get]
        · have hi0 := hne kv h i hi
          rw [h3 kv h i hi, setField_get_other cfs i0 i _ hi0,
            fieldValue_setField_other cfs fs i0 i _ hi0]
      · intro i hi
        have hi0 : i ≠ i0 := by
          intro h
          subst h
          exact hi (k, w) (List.mem_cons_self _ _) hf
        rw [h4 i (fun kv hkv => hi kv (List.mem_cons_of_mem _ hkv)),
          setField_get_other cfs i0 i _ hi0]

/-! ## A document that conforms to a shape, through the two passes -/

theorem passElems_of (xs : List Json) (h : ∀ x ∈ xs, Passable x = true) :
    Passable.passElems xs = true := by
  induction xs with
  | nil => rfl
  | cons x xs ih =>
    simp only [Passable.passElems, Bool.and_eq_true]
    exact ⟨h x (List.mem_cons_self _ _), ih (fun y hy => h y (List.mem_cons_of_mem _ hy))⟩

theorem passMembers_of (kvs : List (Text × Json)) (h : ∀ kv ∈ kvs, Passable kv.2 = true) :
    Passable.passMembers kvs = true := by
  induction kvs with
  | nil => rfl
  | cons kv kvs ih =>
    obtain ⟨k, v⟩ := kv
    simp only [Passable.passMembers, Bool.and_eq_true]
    exact ⟨h (k, v) (List.mem_cons_self _ _), ih (fun y hy => h y (List.mem_cons_of_mem _ hy))⟩

/-- The array that is written again for an array. -/
theorem rewrite_arr (xs : List Json) (h : Passable (.arr xs) = true) :
    toJsonD (toInterface (.arr xs)).1 = .arr (xs.map fun x => toJsonD (toInterface x).1) := by
  simp only [Passable] at h
  have hall := passable_elems xs h
  have h1 := elemsToInterface_eq xs (fun x hx => (hall x hx).1)
  have h2 := good_slice (xs.map fun x => (toInterface x).1) (by
    intro v hv
    obtain ⟨x, hx, rfl⟩ := List.mem_map.mp hv
    exact (hall x hx).2)
  simp only [toInterface, h1]
  rw [h2.2.2, List.map_map]
  rfl

/-- The object that is written again for an object: the entries of the map it
was read into. -/
theorem rewrite_obj (kvs : List (Text × Json)) (h : Passable (.obj kvs) = true) :
    toJsonD (toInterface (.obj kvs)).1
      = .obj ((toInterface.membersToInterface kvs []).1.map fun e => (e.1, toJsonD e.2)) := by
  simp only [Passable] at h
  have hall := passable_members kvs h
  have h2 := good_map (toInterface.membersToInterface kvs []).1 (by
    intro e he
    rcases mem_membersToInterface kvs [] e he with h3 | ⟨kv, hkv, rfl⟩
    · cases h3
    · exact (hall kv hkv).2)
  simp only [toInterface]
  exact h2.2.2

theorem rewrite_ne_null (j : Json) (hj : j ≠ .null) (hp : Passable j = true) :
    toJsonD (toInterface j).1 ≠ .null := by
  cases j with
  | null => exact absurd rfl hj
  | bool b => simp [toInterface, toJsonD, toJson]
  | str s => simp [toInterface, toJsonD, toJson]
  | coerced rs => simp [Passable] at hp
  | num lit =>
    simp only [Passable] at hp
    cases hf : literalToFloat lit with
    | none => simp [hf] at hp
    | some f =>
      obtain ⟨neg, m, e, rfl⟩ := literalToFloat_finite lit f hf
      have hs := formatFloat_finite neg m e
      cases hlit : formatFloat (.finite neg m e) with
      | none => simp [hlit] at hs
      | some lit2 => simp [toInterface, hf, toJson, toJsonD, hlit]
  | arr xs =>
    rw [rewrite_arr xs hp]
    simp
  | obj kvs =>
    rw [rewrite_obj kvs hp]
    simp

theorem fits_ptr (t : GoType) (j : Json) (hj : j ≠ .null) : Fits (.ptr t) j = Fits t j := by
  cases j with
  | null => exact absurd rfl hj
  | bool _ | num _ | str _ | coerced _ | arr _ | obj _ => simp only [Fits]

theorem valueAs_ptr (t : GoType) (j : Json) (hj : j ≠ .null) :
    valueAs (.ptr t) j = .ptr (valueAs t j) := by
  cases j with
  | null => exact absurd rfl hj
  | bool _ | num _ | str _ | coerced _ | arr _ | obj _ => simp only [valueAs]

/-- The elements of an array stored into a fresh slice. -/
theorem decodeElems_fresh (t : GoType) (g : Json → Json) (f : Json → GoVal) (xs : List Json)
    (h : ∀ x ∈ xs, decode t (g x) t.zero = (f x, none)) :
    decodeElems t (xs.map g) [] = (xs.map f, none) := by
  induction xs with
  | nil => simp [decodeElems]
  | cons x xs ih =>
    have h1 := h x (List.mem_cons_self _ _)
    have h2 := ih (fun y hy => h y (List.mem_cons_of_mem _ hy))
    simp only [List.map_cons]
    rw [decodeElems]
    simp only [List.headD_nil, List.tail_nil, h1, h2, firstError]

/-- Members with different keys, of which no two with different keys name the
same field, name different fields. -/
theorem nodup_targets (g : Text → Option Nat) (L : List (Text × Json))
    (hk : (L.map Prod.fst).Nodup)
    (hinj : ∀ a ∈ L, ∀ b ∈ L, ∀ i, g a.1 = some i → g b.1 = some i → a.1 = b.1) :
    (L.filterMap fun kv => g kv.1).Nodup := by
  induction L with
  | nil => simp
  | cons x rest ih =>
    simp only [List.map_cons, List.nodup_cons] at hk
    have ih2 := ih hk.2 (fun a ha b hb i hai hbi =>
      hinj a (List.mem_cons_of_mem _ ha) b (List.mem_cons_of_mem _ hb) i hai hbi)
    cases hx : g x.1 with
    | none =>
      simp only [List.filterMap_cons, hx]
      exact ih2
    | some i =>
      simp only [List.filterMap_cons, hx, List.nodup_cons]
      refine ⟨?_, ih2⟩
      intro hin
      obtain ⟨b, hb, hbi⟩ := List.mem_filterMap.mp hin
      have := hinj x (List.mem_cons_self _ _) b (List.mem_cons_of_mem _ hb) i hx hbi
      apply hk.1
      rw [this]
      exact List.mem_map_of_mem _ hb

/-- The members of the object that is written again for an object are members
of the object, rewritten. -/
theorem mem_rewritten (kvs : List (Text × Json)) (e2 : Text × Json)
    (h : e2 ∈ (toInterface.membersToInterface kvs []).1.map fun e => (e.1, toJsonD e.2)) :
    ∃ kv ∈ kvs, e2 = (kv.1, toJsonD (toInterface kv.2).1) := by
  obtain ⟨e, he, rfl⟩ := List.mem_map.mp h
  rcases mem_membersToInterface kvs [] e he with h3 | ⟨kv, hkv, rfl⟩
  · cases h3
  · exact ⟨kv, hkv, rfl⟩

/-- Every key of an object is the key of a member of the object that is
written again for it. -/
theorem key_rewritten (kvs : List (Text × Json)) (kv : Text × Json) (hkv : kv ∈ kvs) :
    ∃ kv2 ∈ kvs, kv2.1 = kv.1 ∧ (kv.1, toJsonD (toInterface kv2.2).1)
      ∈ (toInterface.membersToInterface kvs []).1.map fun e => (e.1, toJsonD e.2) := by
  have hk := membersToInterface_key_mem kvs [] kv.1 (Or.inl (List.mem_map_of_mem _ hkv))
  obtain ⟨e, he, hek⟩ := List.mem_map.mp hk
  rcases mem_membersToInterface kvs [] e he with h3 | ⟨kv2, hkv2, rfl⟩
  · cases h3
  · refine ⟨kv2, hkv2, hek, ?_⟩
    apply List.mem_map.mpr
    refine ⟨_, he, ?_⟩
    simp only [] at hek
    simp only [hek]

/-- The members of an object that fits a struct, written again and stored into
the fresh struct: the fields hold the values the members denote. -/
theorem decode_struct_fresh (fs : List (Field × GoType)) (kvs : List (Text × Json))
    (hnd : (kvs.filterMap fun kv => findField fs kv.1).Nodup)
    (hpass : Passable (.obj kvs) = true)
    (hdec : ∀ kv ∈ kvs, ∀ i ft, findField fs kv.1 = some i → fs[i]? = some ft →
      decode ft.2 (toJsonD (toInterface kv.2).1) ft.2.zero = (valueAs ft.2 kv.2, none)) :
    decode (.struct fs) (toJsonD (toInterface (.obj kvs)).1) (GoType.struct fs).zero
      = (valueAs (.struct fs) (.obj kvs), none) := by
  rw [rewrite_obj kvs hpass]
  have hsorted := keysSorted_nodup _ (membersToInterface_sorted kvs [] List.Pairwise.nil)
  have hnd2 : (((toInterface.membersToInterface kvs []).1.map
      fun e => (e.1, toJsonD e.2)).filterMap fun kv => findField fs kv.1).Nodup := by
    apply nodup_targets (fun k => findField fs k)
    · rw [List.map_map]
      exact hsorted
    · intro a ha b hb i hai hbi
      obtain ⟨ka, hka, rfl⟩ := mem_rewritten kvs a ha
      obtain ⟨kb, hkb, rfl⟩ := mem_rewritten kvs b hb
      rw [target_unique fs kvs hnd ka kb hka hkb i hai hbi]
  have hok : ∀ kv ∈ (toInterface.membersToInterface kvs []).1.map
      (fun e => (e.1, toJsonD e.2)), ∀ i, findField fs kv.1 = some i →
      (decode (fieldType fs i) kv.2 (fieldValue (GoType.zero.zeroFields fs) fs i)).2 = none := by
    intro e2 he2 i hi
    obtain ⟨kv, hkv, rfl⟩ := mem_rewritten kvs e2 he2
    obtain ⟨ft, hft⟩ := findField_lt fs _ i hi
    rw [fieldType_get fs i ft hft, fieldValue_zero fs i ft hft, hdec kv hkv i ft hi hft]
  obtain ⟨h1, h2, h3, h4⟩ := decodeMembers_spec fs _ (GoType.zero.zeroFields fs) hnd2 hok
  have hz : (GoType.struct fs).zero = .struct (GoType.zero.zeroFields fs) := by
    simp only [GoType.zero]
  rw [hz]
  simp only [decode, pointee, wrapPtr, fieldsOf, valueAs]
  rw [h1]
  congr 2
  apply List.ext_getElem?
  intro i
  cases hft : fs[i]? with
  | none =>
    have hlen : fs.length ≤ i := by
      by_contra hc
      have := List.getElem?_eq_getElem (Nat.lt_of_not_le hc)
      rw [this] at hft
      cases hft
    rw [List.getElem?_eq_none (by rw [h2, zeroFields_length]; exact hlen),
      List.getElem?_eq_none (by rw [fieldsAs_length]; exact hlen)]
  | some ft =>
    have hrhs := fieldsAs_get fs fs kvs 0 i ft hft
    rw [Nat.zero_add] at hrhs
    rw [hrhs]
    by_cases hex : ∃ kv ∈ kvs, findField fs kv.1 = some i
    · obtain ⟨kv, hkv, hi⟩ := hex
      obtain ⟨kv2, hkv2, hkey, hmem⟩ := key_rewritten kvs kv hkv
      have hi2 : findField fs kv2.1 = some i := by rw [hkey]; exact hi
      have heq := target_unique fs kvs hnd kv2 kv hkv2 hkv i hi2 hi
      subst heq
      rw [h3 _ hmem i hi, memberFor_of_mem fs kvs hnd kv2 hkv i hi,
        zeroFields_get fs i ft hft, fieldType_get fs i ft hft, fieldValue_zero fs i ft hft,
        hdec kv2 hkv i ft hi hft]
      rfl
    · have hnone : ∀ kv ∈ kvs, findField fs kv.1 ≠ some i := fun kv hkv hi => hex ⟨kv, hkv, hi⟩
      have hnone2 : ∀ e2 ∈ (toInterface.membersToInterface kvs []).1.map
          (fun e => (e.1, toJsonD e.2)), findField fs e2.1 ≠ some i := by
        intro e2 he2 hi
        obtain ⟨kv, hkv, rfl⟩ := mem_rewritten kvs e2 he2
        exact hnone kv hkv hi
      rw [h4 i hnone2, memberFor_none fs kvs i hnone, zeroFields_get fs i ft hft]

mutual
/-- A document that conforms to a shape is read untyped without error, and the
document that is written again from it decodes into a fresh variable of the
shape as the value the document denotes, without error. -/
theorem fits_decode : ∀ (t : GoType) (j : Json), Fits t j = true →
    Passable j = true
      ∧ decode t (toJsonD (toInterface j).1) t.zero = (valueAs t j, none)
  | .bool, j, h => by
    cases j with
    | null => exact ⟨rfl, rfl⟩
    | bool b => exact ⟨rfl, rfl⟩
    | num _ | str _ | coerced _ | arr _ | obj _ => simp [Fits] at h
  | .string, j, h => by
    cases j with
    | null => exact ⟨rfl, rfl⟩
    | str s => exact ⟨rfl, rfl⟩
    | num _ | bool _ | coerced _ | arr _ | obj _ => simp [Fits] at h
  | .iface, j, h => by simp [Fits] at h
  | .int, j, h => by
    cases j with
    | null => exact ⟨rfl, rfl⟩
    | num lit =>
      simp only [Fits] at h
      cases hl : literalToInt lit with
      | none => simp [hl] at h
      | some n =>
        simp only [hl, decide_eq_true_eq] at h
        obtain ⟨f, lit2, hf, hfmt, hi2, _⟩ := float_of_int lit n hl h
        refine ⟨by simp [Passable, hf], ?_⟩
        simp only [toInterface, hf, toJsonD, toJson, hfmt, Option.map_some', Option.getD_some,
          decode, pointee, hi2, wrapPtr, valueAs, hl]
    | str _ | bool _ | coerced _ | arr _ | obj _ => simp [Fits] at h
  | .ptr t, j, h => by
    by_cases hj : j = .null
    · subst hj
      exact ⟨rfl, rfl⟩
    · rw [fits_ptr t j hj] at h
      obtain ⟨hp, hd⟩ := fits_decode t j h
      refine ⟨hp, ?_⟩
      rw [decode_ptr t _ _ (rewrite_ne_null j hj hp), valueAs_ptr t j hj]
      simp only [GoType.zero, hd]
  | .slice t, j, h => by
    cases j with
    | null => exact ⟨rfl, rfl⟩
    | arr xs =>
      simp only [Fits, List.all_eq_true] at h
      have hall : ∀ x ∈ xs, Passable x = true
          ∧ decode t (toJsonD (toInterface x).1) t.zero = (valueAs t x, none) :=
        fun x hx => fits_decode t x (h x hx)
      have hp : Passable (.arr xs) = true := by
        simp only [Passable]
        exact passElems_of xs (fun x hx => (hall x hx).1)
      refine ⟨hp, ?_⟩
      rw [rewrite_arr xs hp]
      have hel := decodeElems_fresh t (fun x => toJsonD (toInterface x).1) (fun x => valueAs t x)
        xs (fun x hx => (hall x hx).2)
      simp only [decode, pointee, wrapPtr, GoType.zero, elemsOf, hel, valueAs]
    | num _ | bool _ | coerced _ | str _ | obj _ => simp [Fits] at h
  | .struct fs, j, h => by
    cases j with
    | null => exact ⟨rfl, by simp [toInterface, toJsonD, toJson, decode, storeNull, valueAs, GoType.zero]⟩
    | obj kvs =>
      simp only [Fits, Bool.and_eq_true, List.all_eq_true, Bool.or_eq_true, noClash,
        decide_eq_true_eq] at h
      obtain ⟨⟨hnd, hff⟩, hskip⟩ := h
      have hmem : ∀ kv ∈ kvs, ∀ i ft, findField fs kv.1 = some i → fs[i]? = some ft →
          Passable kv.2 = true
            ∧ decode ft.2 (toJsonD (toInterface kv.2).1) ft.2.zero = (valueAs ft.2 kv.2, none) := by
        intro kv hkv i ft hi hft
        have hfit := fitsFields_get fs fs kvs 0 hff i ft hft
        rw [Nat.zero_add, memberFor_of_mem fs kvs hnd kv hkv i hi] at hfit
        exact fits_decode_fields fs ft (List.getElem?_mem hft) kv.2 hfit
      have hp : Passable (.obj kvs) = true := by
        simp only [Passable]
        apply passMembers_of
        intro kv hkv
        rcases hskip kv hkv with h1 | h1
        · cases hi : findField fs kv.1 with
          | none => simp [hi] at h1
          | some i =>
            obtain ⟨ft, hft⟩ := findField_lt fs _ i hi
            exact (hmem kv hkv i ft hi hft).1
        · exact h1
      exact ⟨hp, decode_struct_fresh fs kvs hnd hp
        (fun kv hkv i ft hi hft => (hmem kv hkv i ft hi hft).2)⟩
    | num _ | bool _ | coerced _ | str _ | arr _ => simp [Fits] at h
/-- The same for the type of a field of a struct. -/
theorem fits_decode_fields : ∀ (fs : List (Field × GoType)) (ft : Field × GoType), ft ∈ fs →
    ∀ (j : Json), Fits ft.2 j = true →
    Passable j = true
      ∧ decode ft.2 (toJsonD (toInterface j).1) ft.2.zero = (valueAs ft.2 j, none)
  | [], _, hm, _, _ => by cases hm
  | (f, t) :: rest, ft, hm, j, h => by
    rcases List.mem_cons.mp hm with h1 | h1
    · subst h1
      exact fits_decode t j h
    · exact fits_decode_fields rest ft h1 j h
end

/-! ## A document that conforms to a shape, decoded as it stands -/

/-- The members of an object that fits a struct, stored into the fresh struct:
the fields hold the values the members denote. -/
theorem decode_struct_direct (fs : List (Field × GoType)) (kvs : List (Text × Json))
    (hnd : (kvs.filterMap fun kv => findField fs kv.1).Nodup)
    (hdec : ∀ kv ∈ kvs, ∀ i ft, findField fs kv.1 = some i → fs[i]? = some ft →
      decode ft.2 kv.2 ft.2.zero = (valueAs ft.2 kv.2, none)) :
    decode (.struct fs) (.obj kvs) (GoType.struct fs).zero
      = (valueAs (.struct fs) (.obj kvs), none) := by
  have hok : ∀ kv ∈ kvs, ∀ i, findField fs kv.1 = some i →
      (decode (fieldType fs i) kv.2 (fieldValue (GoType.zero.zeroFields fs) fs i)).2 = none := by
    intro kv hkv i hi
    obtain ⟨ft, hft⟩ := findField_lt fs _ i hi
    rw [fieldType_get fs i ft hft, fieldValue_zero fs i ft hft, hdec kv hkv i ft hi hft]
  obtain ⟨h1, h2, h3, h4⟩ := decodeMembers_spec fs kvs (GoType.zero.zeroFields fs) hnd hok
  have hz : (GoType.struct fs).zero = .struct (GoType.zero.zeroFields fs) := by
    simp only [GoType.zero]
  rw [hz]
  simp only [decode, pointee, wrapPtr, fieldsOf, valueAs]
  rw [h1]
  congr 2
  apply List.ext_getElem?
  intro i
  cases hft : fs[i]? with
  | none =>
    have hlen : fs.length ≤ i := by
      by_contra hc
      have := List.getElem?_eq_getElem (Nat.lt_of_not_le hc)
      rw [this] at hft
      cases hft
    rw [List.getElem?_eq_none (by rw [h2, zeroFields_length]; exact hlen),
      List.getElem?_eq_none (by rw [fieldsAs_length]; exact hlen)]
  | some ft =>
    have hrhs := fieldsAs_get fs fs kvs 0 i ft hft
    rw [Nat.zero_add] at hrhs
    rw [hrhs]
    by_cases hex : ∃ kv ∈ kvs, findField fs kv.1 = some i
    · obtain ⟨kv, hkv, hi⟩ := hex
      rw [h3 kv hkv i hi, memberFor_of_mem fs kvs hnd kv hkv i hi,
        zeroFields_get fs i ft hft, fieldType_get fs i ft hft, fieldValue_zero fs i ft hft,
        hdec kv hkv i ft hi hft]
      rfl
    · have hnone : ∀ kv ∈ kvs, findField fs kv.1 ≠ some i := fun kv hkv hi => hex ⟨kv, hkv, hi⟩
      rw [h4 i hnone, memberFor_none fs kvs i hnone, zeroFields_get fs i ft hft]

mutual
/-- A document that conforms to a shape decodes into a fresh variable of the
shape as the value it denotes, without error: `valueAs t j` is what
`json.Unmarshal` leaves for `j` in a fresh variable of type `t`. -/
theorem fits_direct : ∀ (t : GoType) (j : Json), Fits t j = true →
    decode t j t.zero = (valueAs t j, none)
  | .bool, j, h => by
    cases j with
    | null => rfl
    | bool b => rfl
    | num _ | str _ | coerced _ | arr _ | obj _ => simp [Fits] at h
  | .string, j, h => by
    cases j with
    | null => rfl
    | str s => rfl
    | num _ | bool _ | coerced _ | arr _ | obj _ => simp [Fits] at h
  | .iface, j, h => by simp [Fits] at h
  | .int, j, h => by
    cases j with
    | null => rfl
    | num lit =>
      simp only [Fits] at h
      cases hl : literalToInt lit with
      | none => simp [hl] at h
      | some n => simp only [decode, pointee, hl, wrapPtr, valueAs, Option.getD_some]
    | str _ | bool _ | coerced _ | arr _ | obj _ => simp [Fits] at h
  | .ptr t, j, h => by
    by_cases hj : j = .null
    · subst hj
      rfl
    · rw [fits_ptr t j hj] at h
      have hd := fits_direct t j h
      rw [decode_ptr t _ _ hj, valueAs_ptr t j hj]
      simp only [GoType.zero, hd]
  | .slice t, j, h => by
    cases j with
    | null => rfl
    | arr xs =>
      simp only [Fits, List.all_eq_true] at h
      have hel := decodeElems_fresh t (fun x => x) (fun x => valueAs t x)
        xs (fun x hx => fits_direct t x (h x hx))
      rw [List.map_id'] at hel
      simp only [decode, pointee, wrapPtr, GoType.zero, elemsOf, hel, valueAs]
    | num _ | bool _ | coerced _ | str _ | obj _ => simp [Fits] at h
  | .struct fs, j, h => by
    cases j with
    | null => simp [decode, storeNull, valueAs, GoType.zero]
    | obj kvs =>
      simp only [Fits, Bool.and_eq_true, List.all_eq_true, Bool.or_eq_true, noClash,
        decide_eq_true_eq] at h
      obtain ⟨⟨hnd, hff⟩, _⟩ := h
      apply decode_struct_direct fs kvs hnd
      intro kv hkv i ft hi hft
      have hfit := fitsFields_get fs fs kvs 0 hff i ft hft
      rw [Nat.zero_add, memberFor_of_mem fs kvs hnd kv hkv i hi] at hfit
      exact fits_direct_fields fs ft (List.getElem?_mem hft) kv.2 hfit
    | num _ | bool _ | coerced _ | str _ | arr _ => simp [Fits] at h
/-- The same for the type of a field of a struct. -/
theorem fits_direct_fields : ∀ (fs : List (Field × GoType)) (ft : Field × GoType), ft ∈ fs →
    ∀ (j : Json), Fits ft.2 j = true → decode ft.2 j ft.2.zero = (valueAs ft.2 j, none)
  | [], _, hm, _, _ => by cases hm
  | (f, t) :: rest, ft, hm, j, h => by
    rcases List.mem_cons.mp hm with h1 | h1
    · subst h1
      exact fits_direct t j h
    · exact fits_direct_fields rest ft h1 j h
end

/-! ## Unwrapping the data of a response -/

theorem decodeMembers_one_skip (n : Text) (kvs : List (Text × Json)) (cfs : List (Field × GoVal))
    (h : (kvs.filter fun kv => foldEq n kv.1) = []) :
    decodeMembers [(⟨n, false⟩, .iface)] kvs cfs = (cfs, none) := by
  induction kvs with
  | nil => simp [decodeMembers]
  | cons kv rest ih =>
    obtain ⟨k1, v1⟩ := kv
    by_cases hk : foldEq n k1 = true
    · simp [List.filter_cons, hk] at h
    · simp only [List.filter_cons, hk, Bool.false_eq_true, if_false] at h
      rw [decodeMembers, findField_single]
      simp only [hk, Bool.false_eq_true, if_false]
      exact ih h

/-- The one member that names the one field, of type `interface{}`, of a
struct is read untyped into the field. -/
theorem decodeMembers_one (n : Text) (kvs : List (Text × Json)) (k : Text) (X : Json)
    (h : (kvs.filter fun kv => foldEq n kv.1) = [(k, X)]) :
    decodeMembers [(⟨n, false⟩, .iface)] kvs [(⟨n, false⟩, .nil)]
      = ([(⟨n, false⟩, (toInterface X).1)], (toInterface X).2) := by
  induction kvs with
  | nil => simp at h
  | cons kv rest ih =>
    obtain ⟨k1, v1⟩ := kv
    by_cases hk : foldEq n k1 = true
    · simp only [List.filter_cons, hk, if_true, List.cons.injEq, Prod.mk.injEq] at h
      obtain ⟨⟨rfl, rfl⟩, hrest⟩ := h
      rw [decodeMembers, findField_single]
      simp only [hk, if_true, fieldType, fieldValue, List.get?, decode_iface, setField,
        decodeMembers_one_skip n rest _ hrest]
      cases (toInterface v1).2 <;> rfl
    · simp only [List.filter_cons, hk, Bool.false_eq_true, if_false] at h
      rw [decodeMembers, findField_single]
      simp only [hk, Bool.false_eq_true, if_false]
      exact ih h

/-- The envelope decoded into a `body`: the member named `data`, untyped. -/
theorem decode_body_data (kvs : List (Text × Json)) (k : Text) (X : Json)
    (h : (kvs.filter fun kv => foldEq "data".toList kv.1) = [(k, X)]) :
    decode bodyType (.obj kvs) bodyType.zero
      = (.struct [(⟨"data".toList, false⟩, (toInterface X).1)], (toInterface X).2) := by
  have key := decodeMembers_one "data".toList kvs k X h
  simp only [decode, bodyType, pointee, wrapPtr, fieldsOf, GoType.zero, GoType.zero.zeroFields]
    at key ⊢
  rw [key]

/-- The unpacking block on a body whose one `data` member conforms to the type
of the target: the fresh target ends up holding the value the member denotes,
and neither `err` is set. -/
theorem unpack_fits (t : GoType) (text : Text) (kvs : List (Text × Json)) (k : Text) (X : Json)
    (hparse : parseJSON text = some (.obj kvs))
    (hdata : (kvs.filter fun kv => foldEq "data".toList kv.1) = [(k, X)])
    (hfits : Fits t X = true) :
    unpack text (.ptr t t.zero)
      = { target := .ptr t (valueAs t X), err := none, blockErr := none } := by
  obtain ⟨hp, hd⟩ := fits_decode t X hfits
  obtain ⟨h1, h2, h3⟩ := passable_ok X hp
  have hbody := decode_body_data kvs k X hdata
  rw [h1] at hbody
  have hm : Marshal (toInterface X).1 = .ok (toJsonD (toInterface X).1).render := by
    simp [Marshal, toJson_eq_of_isSome _ h2]
  have hmem : (k, X) ∈ kvs := by
    have : (k, X) ∈ kvs.filter fun kv => foldEq "data".toList kv.1 := by
      rw [hdata]
      exact List.mem_singleton.mpr rfl
    exact (List.mem_filter.mp this).1
  have hdepth : (toJsonD (toInterface X).1).depth ≤ maxNestingDepth := by
    have hd1 := depth_rewrite X
    have hd2 := parseJSON_depth text _ hparse
    have hd3 : Json.depth.depthMembers kvs ≤ Json.depth.depthMembers kvs := Nat.le_refl _
    have hd4 := (depthMembers_le kvs _).mp hd3 (k, X) hmem
    simp only [Json.depth] at hd2
    simp only [] at hd4
    omega
  have hre := parseJSON_render _ h3 hdepth
  simp only [unpack, Unmarshal, hparse, hbody, firstField, hm, hre, hd]

/-- C2, as the code has it: for every status code and every response body
that is a JSON object with exactly one member named `data` (the way
`encoding/json` names the member of a field: exactly, or without regard to
case), whatever other members it has and in whatever order, from which no
non-empty error message can be parsed (`parsedErrorMessage`), where the value
`X` of the `data` member conforms to the type `t` of the target (`Fits`: the
type is built from `bool`, `int`, `string`, pointers, slices and structs;
every integer is an integer literal below `2 ^ 53` in magnitude; no two
members of an object name the same field; the numbers in members that name no
field are in the range of `float64`), `Client.Do` with a pointer to a fresh
(zero) variable of type `t` returns a nil error and the response that wraps
the answer, and leaves in the variable the value `X` denotes (`valueAs`),
which is the value `json.Unmarshal` decodes `X` to in a fresh variable. -/
theorem do_unwraps_data (c : Client) (cx : Context) (req : Request) (resp : HTTPResponse)
    (text : Text) (kvs : List (Text × Json)) (k : Text) (X : Json) (t : GoType)
    (hsend : c.httpClient { req with ctx := cx } = .ok resp)
    (hread : resp.Body = .ok text)
    (hparse : parseJSON text = some (.obj kvs))
    (hdata : (kvs.filter fun kv => foldEq "data".toList kv.1) = [(k, X)])
    (hmsg : parsedErrorMessage text = [])
    (hfits : Fits t X = true) :
    (c.Do (some cx) req (.ptr t t.zero)).err = none
      ∧ (c.Do (some cx) req (.ptr t t.zero)).target = .ptr t (valueAs t X)
      ∧ decode t X t.zero = (valueAs t X, none)
      ∧ (c.Do (some cx) req (.ptr t t.zero)).response = some { Response := resp } := by
  have hm2 := errorMessage_eq_parsed text
  rw [hmsg] at hm2
  have hun := unpack_fits t text kvs k X hparse hdata hfits
  have hdir := fits_direct t X hfits
  simp only [Client.Do, hsend, hread, hm2, hun, hdir, newResponse, ne_eq, not_true_eq_false,
    if_false, and_self]

/-- C2 on the bodies of the tests (`{"data":{"A":"a"}}` into a struct with a
field `A`; the account of `TestAccountsService_Create` with status 201, which
the response keeps) and on bodies that `json.Marshal` would not write: members
in another order and fields left out; a `null` for the attributes, a member
that is no field and another member in the envelope, after which an empty
`error_message` comes; a list of accounts. -/
theorem do_unwraps_data_witness :
    ((clientOf 200 "\x7b\"data\":\x7b\"A\":\"a\"\x7d\x7d".toList).Do (some Context.background) sampleRequest
        (.ptr (.struct [(plain "A", .string)]) (GoType.struct [(plain "A", .string)]).zero)).target
        = .ptr (.struct [(plain "A", .string)]) (.struct [(plain "A", .str "a".toList)])
      ∧ (((clientOf 201 ("\x7b\"data\":\x7b\"id\":\"1\",\"organisation_id\":\"2\","
            ++ "\"type\":\"accounts\",\"version\":0\x7d\x7d").toList).Do (some Context.background)
          sampleRequest (.ptr accountType accountType.zero)).target
        = .ptr accountType (accountValue "1".toList "2".toList "accounts".toList 0)
        ∧ ((clientOf 201 ("\x7b\"data\":\x7b\"id\":\"1\",\"organisation_id\":\"2\","
            ++ "\"type\":\"accounts\",\"version\":0\x7d\x7d").toList).Do (some Context.background)
          sampleRequest (.ptr accountType accountType.zero)).response
        = some { Response := ⟨201, [], .ok ("\x7b\"data\":\x7b\"id\":\"1\",\"organisation_id\":\"2\","
            ++ "\"type\":\"accounts\",\"version\":0\x7d\x7d").toList⟩ })
      ∧ ((clientOf 200 "\x7b\"data\":\x7b\"version\":3,\"id\":\"1\"\x7d\x7d".toList).Do
          (some Context.background) sampleRequest (.ptr accountType accountType.zero)).target
        = .ptr accountType (accountValue "1".toList [] [] 3)
      ∧ (((clientOf 200 ("\x7b\"links\":\x7b\x7d,\"data\":\x7b\"attributes\":null,\"x\":1.5,\"id\":\"1\"\x7d,"
            ++ "\"error_message\":\"\"\x7d").toList).Do
          (some Context.background) sampleRequest (.ptr accountType accountType.zero)).target
        = .ptr accountType (accountValue "1".toList [] [] 0)
        ∧ ((clientOf 200 ("\x7b\"links\":\x7b\x7d,\"data\":\x7b\"attributes\":null,\"x\":1.5,\"id\":\"1\"\x7d,"
            ++ "\"error_message\":\"\"\x7d").toList).Do
          (some Context.background) sampleRequest (.ptr accountType accountType.zero)).err = none)
      ∧ ((clientOf 200 "\x7b\"data\":[\x7b\"id\":\"1\"\x7d,\x7b\"version\":5,\"id\":\"2\"\x7d]\x7d".toList).Do
          (some Context.background) sampleRequest
          (.ptr (.slice accountType) (GoType.slice accountType).zero)).target
        = .ptr (.slice accountType)
            (.slice [accountValue "1".toList [] [] 0, accountValue "2".toList [] [] 5]) :=
  ⟨(do_unwraps_data (clientOf 200 "\x7b\"data\":\x7b\"A\":\"a\"\x7d\x7d".toList) Context.background
      sampleRequest ⟨200, [], .ok "\x7b\"data\":\x7b\"A\":\"a\"\x7d\x7d".toList⟩
      "\x7b\"data\":\x7b\"A\":\"a\"\x7d\x7d".toList _ _ _ (.struct [(plain "A", .string)])
      rfl rfl rfl rfl rfl rfl).2.1,
   ⟨(do_unwraps_data
      (clientOf 201 ("\x7b\"data\":\x7b\"id\":\"1\",\"organisation_id\":\"2\","
        ++ "\"type\":\"accounts\",\"version\":0\x7d\x7d").toList) Context.background sampleRequest
      ⟨201, [], .ok ("\x7b\"data\":\x7b\"id\":\"1\",\"organisation_id\":\"2\","
        ++ "\"type\":\"accounts\",\"version\":0\x7d\x7d").toList⟩
      ("\x7b\"data\":\x7b\"id\":\"1\",\"organisation_id\":\"2\","
        ++ "\"type\":\"accounts\",\"version\":0\x7d\x7d").toList _ _ _ accountType
      rfl rfl rfl rfl rfl rfl).2.1,
    (do_unwraps_data
      (clientOf 201 ("\x7b\"data\":\x7b\"id\":\"1\",\"organisation_id\":\"2\","
        ++ "\"type\":\"accounts\",\"version\":0\x7d\x7d").toList) Context.background sampleRequest
      ⟨201, [], .ok ("\x7b\"data\":\x7b\"id\":\"1\",\"organisation_id\":\"2\","
        ++ "\"type\":\"accounts\",\"version\":0\x7d\x7d").toList⟩
      ("\x7b\"data\":\x7b\"id\":\"1\",\"organisation_id\":\"2\","
        ++ "\"type\":\"accounts\",\"version\":0\x7d\x7d").toList _ _ _ accountType
      rfl rfl rfl rfl rfl rfl).2.2.2⟩,
   (do_unwraps_data (clientOf 200 "\x7b\"data\":\x7b\"version\":3,\"id\":\"1\"\x7d\x7d".toList)
      Context.background sampleRequest
      ⟨200, [], .ok "\x7b\"data\":\x7b\"version\":3,\"id\":\"1\"\x7d\x7d".toList⟩
      "\x7b\"data\":\x7b\"version\":3,\"id\":\"1\"\x7d\x7d".toList _ _ _ accountType
      rfl rfl rfl rfl rfl rfl).2.1,
   ⟨(do_unwraps_data
      (clientOf 200 ("\x7b\"links\":\x7b\x7d,\"data\":\x7b\"attributes\":null,\"x\":1.5,\"id\":\"1\"\x7d,"
        ++ "\"error_message\":\"\"\x7d").toList) Context.background sampleRequest
      ⟨200, [], .ok ("\x7b\"links\":\x7b\x7d,\"data\":\x7b\"attributes\":null,\"x\":1.5,\"id\":\"1\"\x7d,"
        ++ "\"error_message\":\"\"\x7d").toList⟩
      ("\x7b\"links\":\x7b\x7d,\"data\":\x7b\"attributes\":null,\"x\":1.5,\"id\":\"1\"\x7d,"
        ++ "\"error_message\":\"\"\x7d").toList _ _ _ accountType
      rfl rfl rfl rfl rfl rfl).2.1,
    (do_unwraps_data
      (clientOf 200 ("\x7b\"links\":\x7b\x7d,\"data\":\x7b\"attributes\":null,\"x\":1.5,\"id\":\"1\"\x7d,"
        ++ "\"error_message\":\"\"\x7d").toList) Context.background sampleRequest
      ⟨200, [], .ok ("\x7b\"links\":\x7b\x7d,\"data\":\x7b\"attributes\":null,\"x\":1.5,\"id\":\"1\"\x7d,"
        ++ "\"error_message\":\"\"\x7d").toList⟩
      ("\x7b\"links\":\x7b\x7d,\"data\":\x7b\"attributes\":null,\"x\":1.5,\"id\":\"1\"\x7d,"
        ++ "\"error_message\":\"\"\x7d").toList _ _ _ accountType
      rfl rfl rfl rfl rfl rfl).1⟩,
   (do_unwraps_data
      (clientOf 200 "\x7b\"data\":[\x7b\"id\":\"1\"\x7d,\x7b\"version\":5,\"id\":\"2\"\x7d]\x7d".toList)
      Context.background sampleRequest
      ⟨200, [], .ok "\x7b\"data\":[\x7b\"id\":\"1\"\x7d,\x7b\"version\":5,\"id\":\"2\"\x7d]\x7d".toList⟩
      "\x7b\"data\":[\x7b\"id\":\"1\"\x7d,\x7b\"version\":5,\"id\":\"2\"\x7d]\x7d".toList _ _ _
      (.slice accountType) rfl rfl rfl rfl rfl rfl).2.1⟩

/-- The unpacking block, pass by pass, into a variable that holds `cur`. -/
theorem unpack_stages_into (text : Text) (j : Json) (v : GoVal) (text2 : Text) (j2 : Json)
    (t : GoType) (cur y : GoVal) (e : Option GoError)
    (h1 : parseJSON text = some (.obj [("data".toList, j)]))
    (h2 : toInterface j = (v, none))
    (h3 : Marshal v = .ok text2)
    (h4 : parseJSON text2 = some j2)
    (h5 : decode t j2 cur = (y, e)) :
    unpack text (.ptr t cur) = { target := .ptr t y, err := none, blockErr := e } := by
  have hbody := decode_body _ j (Or.inl rfl)
  rw [h2] at hbody
  simp only [unpack, Unmarshal, h1, hbody, firstField, h3, h4, h5]

/-- The unpacking block on an envelope whose `data` cannot be read untyped:
the error is the `err` of the function body, and the target is left alone. -/
theorem unpack_untyped_error (text : Text) (j : Json) (v : GoVal) (e : GoError)
    (target : Target)
    (h1 : parseJSON text = some (.obj [("data".toList, j)]))
    (h2 : toInterface j = (v, some e)) :
    unpack text target = { target := target, err := some e, blockErr := none } := by
  have hbody := decode_body _ j (Or.inl rfl)
  rw [h2] at hbody
  simp only [unpack, Unmarshal, h1, hbody]

/-- What `Do` returns for a body without an error message and a target that is
not nil is what the unpacking block leaves. -/
theorem do_unpacks (code : Int) (text : Text) (t : GoType) (cur : GoVal)
    (hmsg : parsedErrorMessage text = []) :
    ((clientOf code text).Do (some Context.background) sampleRequest (.ptr t cur)).target
        = (unpack text (.ptr t cur)).target
      ∧ ((clientOf code text).Do (some Context.background) sampleRequest (.ptr t cur)).err
        = (unpack text (.ptr t cur)).err := by
  have hm2 := errorMessage_eq_parsed text
  rw [hmsg] at hm2
  simp only [Client.Do, clientOf, hm2, ne_eq, not_true_eq_false, if_false, and_self]

/-- C2 as stated fails, in each of these ways.  The `data` of the first body
decodes into an `Account` with version 9007199254740993 (`2 ^ 53 + 1`), and
`Client.Do` leaves an account with version 9007199254740992 in the target,
under a nil error: the first pass reads the number as a `float64`.  The `data`
of the second body, `{"version":3,"Version":4}`, decodes into an `Account`
with version 4, the later member, and `Do` leaves version 3: the first pass
reads the members into a map, which is written again in the order of its
keys.  The `data` of the third, `{"id":"1"}`, decodes into an `Account` with
that `ID` and nothing else, and `Do` with a target that holds an account
leaves the other fields of that account in it.  The `data` of the fourth,
`{"id":"1","x":1e999}`, decodes into an `Account` with that `ID`, and `Do`
returns an error and leaves the target alone: the first pass reads the member
that is no field as well, and its number is out of the range of `float64`. -/
theorem do_unwraps_data_fails :
    (parseJSON ("\x7b\"id\":\"1\",\"organisation_id\":\"2\",\"type\":\"accounts\","
          ++ "\"version\":9007199254740993\x7d").toList = some (accountDoc "9007199254740993")
      ∧ decode accountType (accountDoc "9007199254740993") accountType.zero
        = (accountValue "1".toList "2".toList "accounts".toList 9007199254740993, none)
      ∧ ((clientOf 201 ("\x7b\"data\":\x7b\"id\":\"1\",\"organisation_id\":\"2\","
            ++ "\"type\":\"accounts\",\"version\":9007199254740993\x7d\x7d").toList).Do
          (some Context.background) sampleRequest (.ptr accountType accountType.zero)).target
        = .ptr accountType
            (accountValue "1".toList "2".toList "accounts".toList 9007199254740992)
      ∧ ((clientOf 201 ("\x7b\"data\":\x7b\"id\":\"1\",\"organisation_id\":\"2\","
            ++ "\"type\":\"accounts\",\"version\":9007199254740993\x7d\x7d").toList).Do
          (some Context.background) sampleRequest (.ptr accountType accountType.zero)).err
        = none
      ∧ accountValue "1".toList "2".toList "accounts".toList 9007199254740992
        ≠ accountValue "1".toList "2".toList "accounts".toList 9007199254740993)
    ∧ (Unmarshal "\x7b\"version\":3,\"Version\":4\x7d".toList (.ptr accountType accountType.zero)
        = (.ptr accountType (accountValue [] [] [] 4), none)
      ∧ ((clientOf 200 "\x7b\"data\":\x7b\"version\":3,\"Version\":4\x7d\x7d".toList).Do
          (some Context.background) sampleRequest (.ptr accountType accountType.zero)).target
        = .ptr accountType (accountValue [] [] [] 3)
      ∧ ((clientOf 200 "\x7b\"data\":\x7b\"version\":3,\"Version\":4\x7d\x7d".toList).Do
          (some Context.background) sampleRequest (.ptr accountType accountType.zero)).err
        = none)
    ∧ (Unmarshal "\x7b\"id\":\"1\"\x7d".toList (.ptr accountType accountType.zero)
        = (.ptr accountType (accountValue "1".toList [] [] 0), none)
      ∧ ((clientOf 200 "\x7b\"data\":\x7b\"id\":\"1\"\x7d\x7d".toList).Do
          (some Context.background) sampleRequest
          (.ptr accountType (accountValue "9".toList "8".toList "accounts".toList 7))).target
        = .ptr accountType (accountValue "1".toList "8".toList "accounts".toList 7)
      ∧ ((clientOf 200 "\x7b\"data\":\x7b\"id\":\"1\"\x7d\x7d".toList).Do
          (some Context.background) sampleRequest
          (.ptr accountType (accountValue "9".toList "8".toList "accounts".toList 7))).err
        = none)
    ∧ (Unmarshal "\x7b\"id\":\"1\",\"x\":1e999\x7d".toList (.ptr accountType accountType.zero)
        = (.ptr accountType (accountValue "1".toList [] [] 0), none)
      ∧ ((clientOf 200 "\x7b\"data\":\x7b\"id\":\"1\",\"x\":1e999\x7d\x7d".toList).Do
          (some Context.background) sampleRequest (.ptr accountType accountType.zero)).target
        = .ptr accountType accountType.zero
      ∧ ((clientOf 200 "\x7b\"data\":\x7b\"id\":\"1\",\"x\":1e999\x7d\x7d".toList).Do
          (some Context.background) sampleRequest (.ptr accountType accountType.zero)).err
        = some (.unmarshalType "number 1e999".toList)) := by
  have hparse : parseJSON ("\x7b\"data\":\x7b\"id\":\"1\",\"organisation_id\":\"2\","
      ++ "\"type\":\"accounts\",\"version\":9007199254740993\x7d\x7d").toList
      = some (.obj [("data".toList, accountDoc "9007199254740993")]) := rfl
  have hun := unpack_big_version _ hparse
  have hdo := do_unpacks 201 _ accountType accountType.zero
    (show parsedErrorMessage ("\x7b\"data\":\x7b\"id\":\"1\",\"organisation_id\":\"2\","
      ++ "\"type\":\"accounts\",\"version\":9007199254740993\x7d\x7d").toList = [] from rfl)
  rw [hun] at hdo
  have hun2 := unpack_stages_into "\x7b\"data\":\x7b\"version\":3,\"Version\":4\x7d\x7d".toList
    (.obj [("version".toList, .num "3".toList), ("Version".toList, .num "4".toList)])
    (toInterface (.obj [("version".toList, .num "3".toList),
      ("Version".toList, .num "4".toList)])).1
    "\x7b\"Version\":4,\"version\":3\x7d".toList
    (.obj [("Version".toList, .num "4".toList), ("version".toList, .num "3".toList)])
    accountType accountType.zero (accountValue [] [] [] 3) none rfl rfl rfl rfl rfl
  have hdo2 := do_unpacks 200 "\x7b\"data\":\x7b\"version\":3,\"Version\":4\x7d\x7d".toList accountType
    accountType.zero rfl
  rw [hun2] at hdo2
  have hun3 := unpack_stages_into "\x7b\"data\":\x7b\"id\":\"1\"\x7d\x7d".toList
    (.obj [("id".toList, .str "1".toList)]) (.map [("id".toList, .str "1".toList)])
    "\x7b\"id\":\"1\"\x7d".toList (.obj [("id".toList, .str "1".toList)])
    accountType (accountValue "9".toList "8".toList "accounts".toList 7)
    (accountValue "1".toList "8".toList "accounts".toList 7) none rfl rfl rfl rfl rfl
  have hdo3 := do_unpacks 200 "\x7b\"data\":\x7b\"id\":\"1\"\x7d\x7d".toList accountType
    (accountValue "9".toList "8".toList "accounts".toList 7) rfl
  rw [hun3] at hdo3
  have hun4 := unpack_untyped_error "\x7b\"data\":\x7b\"id\":\"1\",\"x\":1e999\x7d\x7d".toList
    (.obj [("id".toList, .str "1".toList), ("x".toList, .num "1e999".toList)])
    (toInterface (.obj [("id".toList, .str "1".toList), ("x".toList, .num "1e999".toList)])).1
    (.unmarshalType "number 1e999".toList) (.ptr accountType accountType.zero) rfl rfl
  have hdo4 := do_unpacks 200 "\x7b\"data\":\x7b\"id\":\"1\",\"x\":1e999\x7d\x7d".toList accountType
    accountType.zero rfl
  rw [hun4] at hdo4
  exact ⟨⟨rfl, rfl, hdo.1, hdo.2, by simp [accountValue]⟩, ⟨rfl, hdo2.1, hdo2.2⟩,
    ⟨rfl, hdo3.1, hdo3.2⟩, ⟨rfl, hdo4.1, hdo4.2⟩⟩

end Form3
